import Mathlib

/-!
# readmap: the file-descriptor lookup table and the size cache

A shallow embedding of `src/api/fdmgr.c`, of the lifecycle functions of
`src/api/init.c` and of the open path of `src/api/openclose.c`, and proofs about
them.

Conventions of the embedding.

* A key buffer (`void *Key`) is the list of the bytes it points at; a value
  (`void *Object`) is an address, a natural number, `0` being `NULL`.
* A bucket (`struct list`, a circular doubly linked chain whose `list.h`
  helpers are not part of the sources) is the list of its entries, head first.
  A pointer to a linked entry is the position of the entry in its chain together
  with the entry found there.
* The table lock is not modelled: every operation is run to completion, which is
  what holding the lock for the whole critical section gives. Where the order of
  lock release and memory access matters, an operation is given as the part that
  runs inside its critical section and the part that runs after it.
* `malloc` of an entry or a table is modelled by a boolean saying whether the
  allocation succeeds; `malloc` of a file state by the address it returns, `NULL`
  on failure.
* The globals of the manager and the file states it has allocated are one
  `process_state`, passed through every function that reads or writes them.
* What the environment answers (`fstat`, `clock_gettime`, `dlsym`, the underlying
  `open`) is an argument of the function that asks.
* A hash function is a function pointer; the call may fail to produce a value
  (the built-in hash loops forever on long keys), so it returns an `Option`, and
  so does everything that calls it. `none` always reads "the call produces no
  result".
* `assert` aborts the process unless the unit was compiled with `NDEBUG`; the
  functions that assert take that flag and return `Except abort_reason _`.
-/

namespace Readmap

/-! ## Constants of the platform headers -/

/-- errno value `ENOMEM` of Linux. -/
def ENOMEM : Nat := 12

/-- errno value `EEXIST` of Linux. -/
def EEXIST : Nat := 17

/-- errno value `EINVAL` of Linux. -/
def EINVAL : Nat := 22

/-- errno value `ENODATA` of Linux. -/
def ENODATA : Nat := 61

/-- The null pointer. -/
def NULL : Nat := 0

/-! ## Memory helpers of the C library -/

/-- C `memcmp` over the first `n` bytes of two buffers: zero when they agree,
otherwise the difference of the first pair of bytes that differ. A buffer that
ends early compares below any byte. -/
def memcmp : List Nat → List Nat → Nat → Int
  | _, _, 0 => 0
  | [], [], _ + 1 => 0
  | [], _ :: _, _ + 1 => -1
  | _ :: _, [], _ + 1 => 1
  | a :: as, b :: bs, n + 1 => if a = b then memcmp as bs n else (a : Int) - (b : Int)

/-- C `memcpy` of `n` bytes out of a buffer, as the bytes copied. -/
def memcpy (src : List Nat) (n : Nat) : List Nat := src.take n

/-- Read of a 32-bit word at byte offset `index` of a buffer (little endian, the
byte order of the platforms the library is built for); `none` when the four
bytes are not all inside the buffer. -/
def load_u32 (blob : List Nat) (index : Nat) : Option Nat :=
  match blob.drop index with
  | b0 :: b1 :: b2 :: b3 :: _ =>
    some (b0 % 256 + 256 * (b1 % 256) + 65536 * (b2 % 256) + 16777216 * (b3 % 256))
  | _ => none

/-! ## The table -/

/-- Entry of a bucket chain, `struct lookup_table_entry`: the value reference and
the owned copy of the key. The link field is the position in the chain. -/
structure lookup_table_entry where
  Object : Nat
  Key : List Nat
deriving DecidableEq, Repr

/-- Type of hash function pointers, `lookup_table_hash_t`. -/
abbrev lookup_table_hash_t := List Nat → Nat → Option Nat

/-- The table, `struct lookup_table`. `TableBuckets` is the trailing array of
chains. -/
structure lookup_table where
  EntryCountShift : Nat
  Name : List Char
  Hash : lookup_table_hash_t
  KeySize : Nat
  TableBuckets : List (List lookup_table_entry)

/-- `lookup_table_entry_create`: allocate an entry, store the value reference and
copy `key_size` bytes of the key; `none` is the `NULL` of a failed `malloc`. -/
def lookup_table_entry_create (malloc_ok : Bool) (key : List Nat) (key_size : Nat)
    (object : Nat) : Option lookup_table_entry :=
  if malloc_ok then some { Object := object, Key := memcpy key key_size } else none

/-- Loop of `default_hash`. The index is an `unsigned char`, so adding
`sizeof(uint32_t)` wraps at 256. `fuel` bounds the number of iterations. -/
def default_hash_loop (blob : List Nat) (length : Nat) : Nat → Nat → Nat → Option Nat
  | 0, _, _ => none
  | fuel + 1, index, hash =>
    if index < length then
      match load_u32 blob index with
      | none => none
      | some w => default_hash_loop blob length fuel ((index + 4) % 256) (hash ^^^ w)
    else some hash

/-- `default_hash`: XOR of the 32-bit words of the key into `~0`. The index takes
at most 64 values, so 65 iterations either leave the loop or prove that it never
ends. -/
def default_hash (key : List Nat) (length : Nat) : Option Nat :=
  default_hash_loop key length 65 0 0xFFFFFFFF

/-- `lookup_table_hash`: the 32-bit hash of the key masked to the bucket count. -/
def lookup_table_hash (Table : lookup_table) (Key : List Nat) : Option Nat :=
  (Table.Hash Key Table.KeySize).map
    (fun h => (h % 2 ^ 32) &&& ((1 <<< Table.EntryCountShift) - 1))

/-- Loop of `lookup_table_create` that grows `entry_count_shift` (an
`unsigned char`) while `(unsigned int)(1 << entry_count_shift) < SizeHint`. -/
def entry_count_shift_loop (SizeHint : Nat) : Nat → Nat → Option Nat
  | 0, _ => none
  | fuel + 1, entry_count_shift =>
    if (1 <<< entry_count_shift) % 2 ^ 32 < SizeHint then
      entry_count_shift_loop SizeHint fuel ((entry_count_shift + 1) % 256)
    else some entry_count_shift

/-- `lookup_table_create`. `Hash = none` is the `NULL` function pointer, replaced
by `default_hash`. The result is `none` when the table allocation fails. -/
def lookup_table_create (malloc_ok : Bool) (SizeHint : Nat) (Name : List Char)
    (Hash : Option lookup_table_hash_t) (KeySize : Nat) : Option lookup_table :=
  let SizeHint := if SizeHint > 65536 then 65536 else SizeHint
  match entry_count_shift_loop SizeHint 256 0 with
  | none => none
  | some entry_count_shift =>
    let entrycount := (1 <<< entry_count_shift) % 2 ^ 32
    if malloc_ok then
      some { EntryCountShift := entry_count_shift
             Name := Name.take 7
             Hash := match Hash with
               | some h => h
               | none => default_hash
             KeySize := KeySize
             TableBuckets := List.replicate entrycount [] }
    else none

/-- Pointer to a linked entry: its position in the chain and the entry there. -/
structure entry_ptr where
  pos : Nat
  entry : lookup_table_entry
deriving DecidableEq, Repr

/-- Modelled from the spec: `list_for_each` of the missing `list.h`, walking a
chain from its head, with the loop body of `lookup_table_locked`: stop at the
first entry whose key equals `Key` over `KeySize` bytes. `pos` is the position of
the head of the part still to be walked. -/
def list_for_each_locked (Key : List Nat) (KeySize : Nat) :
    List lookup_table_entry → Nat → Option entry_ptr
  | [], _ => none
  | table_entry :: rest, pos =>
    if memcmp Key table_entry.Key KeySize = 0 then some { pos := pos, entry := table_entry }
    else list_for_each_locked Key KeySize rest (pos + 1)

/-- Modelled from the spec: `list_insert_tail` of the missing `list.h`, appending
an entry to the tail of a chain. -/
def list_insert_tail (chain : List lookup_table_entry) (entry : lookup_table_entry) :
    List lookup_table_entry :=
  chain ++ [entry]

/-- Modelled from the spec: `list_remove` of the missing `list.h`, unlinking the
entry at a position of a chain. -/
def list_remove (chain : List lookup_table_entry) (p : entry_ptr) : List lookup_table_entry :=
  chain.eraseIdx p.pos

/-- The chain `TableBuckets[index]`. -/
def bucket (Table : lookup_table) (index : Nat) : List lookup_table_entry :=
  Table.TableBuckets.getD index []

/-- Store of a chain into `TableBuckets[index]`. -/
def set_bucket (Table : lookup_table) (index : Nat) (chain : List lookup_table_entry) :
    lookup_table :=
  { Table with TableBuckets := Table.TableBuckets.set index chain }

/-- `lookup_table_locked`: scan only the bucket the key hashes to; the inner
`none` is `NULL`. -/
def lookup_table_locked (Table : lookup_table) (Key : List Nat) : Option (Option entry_ptr) :=
  (lookup_table_hash Table Key).map
    (fun bucket_index => list_for_each_locked Key Table.KeySize (bucket Table bucket_index) 0)

/-- Outcome of `lookup_table_insert` and `lookup_table_remove`: the status, the
table afterwards and the entries whose storage was freed on the way. -/
structure table_result where
  status : Nat
  Table : lookup_table
  freed : List lookup_table_entry

/-- Outcome of `lookup_table_lookup`: the status, the value stored through the
out-parameter and the table afterwards. -/
structure lookup_result where
  status : Nat
  Object : Nat
  Table : lookup_table

/-- `lookup_table_insert`. The entry is allocated before the bucket is looked at;
a duplicate key frees it again. -/
def lookup_table_insert (malloc_ok : Bool) (Table : lookup_table) (Key : List Nat)
    (Object : Nat) : Option table_result :=
  let entry := lookup_table_entry_create malloc_ok Key Table.KeySize Object
  match lookup_table_hash Table Key with
  | none => none
  | some bucket_index =>
    match entry with
    | none => some { status := ENOMEM, Table := Table, freed := [] }
    | some entry =>
      match lookup_table_locked Table Key with
      | none => none
      | some (some _) => some { status := EEXIST, Table := Table, freed := [entry] }
      | some none =>
        some { status := 0
               Table := set_bucket Table bucket_index
                 (list_insert_tail (bucket Table bucket_index) entry)
               freed := [] }

/-- `lookup_table_lookup`. -/
def lookup_table_lookup (Table : lookup_table) (Key : List Nat) : Option lookup_result :=
  match lookup_table_locked Table Key with
  | none => none
  | some (some entry) => some { status := 0, Object := entry.entry.Object, Table := Table }
  | some none => some { status := ENODATA, Object := NULL, Table := Table }

/-- `lookup_table_remove`. `list_remove` unlinks the entry from the chain it is
linked in, which is the chain `lookup_table_locked` found it in, bucket
`lookup_table_hash Table Key`; then the entry's own storage is freed. -/
def lookup_table_remove (Table : lookup_table) (Key : List Nat) : Option table_result :=
  match lookup_table_hash Table Key, lookup_table_locked Table Key with
  | some bucket_index, some (some entry) =>
    some { status := 0
           Table := set_bucket Table bucket_index (list_remove (bucket Table bucket_index) entry)
           freed := [entry.entry] }
  | some _, some none => some { status := ENODATA, Table := Table, freed := [] }
  | _, _ => none

/-! ## Well-formed tables and the bucket invariant -/

/-- Shape every table built by `lookup_table_create` has: the shift is at most 16
and the bucket array holds `2 ^ EntryCountShift` chains. -/
def lookup_table_wf (Table : lookup_table) : Prop :=
  Table.EntryCountShift ≤ 16 ∧ Table.TableBuckets.length = 2 ^ Table.EntryCountShift

instance (Table : lookup_table) : Decidable (lookup_table_wf Table) :=
  inferInstanceAs (Decidable (_ ∧ _))

/-- The bucket invariant: the table is well formed, every entry of bucket `i`
holds a key of `KeySize` bytes that hashes to `i`, and the keys of one chain are
pairwise different over `KeySize` bytes. -/
def bucket_invariant (Table : lookup_table) : Prop :=
  lookup_table_wf Table ∧
  (∀ i < Table.TableBuckets.length, ∀ e ∈ bucket Table i,
    e.Key.length = Table.KeySize ∧ lookup_table_hash Table e.Key = some i) ∧
  (∀ i < Table.TableBuckets.length,
    (bucket Table i).Pairwise (fun a b => memcmp a.Key b.Key Table.KeySize ≠ 0))

instance (Table : lookup_table) : Decidable (bucket_invariant Table) :=
  inferInstanceAs (Decidable (_ ∧ _ ∧ _))

/-- Tables a program can hold: built by `lookup_table_create` and then changed
only by `lookup_table_insert` and `lookup_table_remove` calls that return, the
key buffer of an insert holding exactly `KeySize` bytes. -/
inductive reachable : lookup_table → Prop
  | create (malloc_ok : Bool) (SizeHint : Nat) (Name : List Char)
      (Hash : Option lookup_table_hash_t) (KeySize : Nat) (Table : lookup_table)
      (h : lookup_table_create malloc_ok SizeHint Name Hash KeySize = some Table) :
      reachable Table
  | insert (malloc_ok : Bool) (Table : lookup_table) (Key : List Nat) (Object : Nat)
      (r : table_result) (ht : reachable Table) (hk : Key.length = Table.KeySize)
      (h : lookup_table_insert malloc_ok Table Key Object = some r) : reachable r.Table
  | remove (Table : lookup_table) (Key : List Nat) (r : table_result)
      (ht : reachable Table) (h : lookup_table_remove Table Key = some r) : reachable r.Table

/-- Number of entries linked into the table. -/
def entry_count (Table : lookup_table) : Nat :=
  (Table.TableBuckets.map List.length).sum

/-- Status and value of a lookup, without the table. -/
def lookup_result.outcome (r : lookup_result) : Nat × Nat := (r.status, r.Object)

/-- The four bytes of an `int` key such as `&fd`, for non-negative values. -/
def int_key (fd : Nat) : List Nat :=
  [fd % 256, fd / 256 % 256, fd / 65536 % 256, fd / 16777216 % 256]

/-- A table with four buckets and the built-in hash over `int` keys, as
`lookup_table_create(4, "demo", NULL, sizeof(int))` leaves it. -/
def demo_table : lookup_table :=
  { EntryCountShift := 2
    Name := "demo".toList
    Hash := default_hash
    KeySize := 4
    TableBuckets := [[], [], [], []] }

/-- The outcome of inserting key 3 with value 1000 into `demo_table`: the
built-in hash of 3 is `~3`, whose two low bits are 0, so the entry lands in
bucket 0. -/
def demo_insert_3 : table_result :=
  { status := 0
    Table := { demo_table with TableBuckets := [[{ Object := 1000, Key := [3, 0, 0, 0] }], [], [], []] }
    freed := [] }

/-- The outcome of inserting key 7 with value 2000 after key 3: `~7` has the same
two low bits as `~3`, so both entries share bucket 0. -/
def demo_insert_7 : table_result :=
  { status := 0
    Table := { demo_table with
      TableBuckets := [[{ Object := 1000, Key := [3, 0, 0, 0] },
        { Object := 2000, Key := [7, 0, 0, 0] }], [], [], []] }
    freed := [] }

/-! ## The size cache -/

/-- `struct timespec`; `time_t` and `long` are 64-bit and the values far from
their bounds, so the fields are integers. -/
structure timespec where
  tv_sec : Int
  tv_nsec : Int
deriving DecidableEq, Repr

/-- Why a call did not return: the assertion that failed (`clock_gettime_failed`,
`timespec_order`, `not_regular_file`, `fstat_failed`, `null_table`,
`remove_failed`, `symbol_missing`), a dereference of the null table pointer or of
storage that holds no live state, or a hash function that never came back. -/
inductive abort_reason
  | clock_gettime_failed
  | timespec_order
  | not_regular_file
  | fstat_failed
  | null_table
  | remove_failed
  | symbol_missing
  | null_dereference
  | invalid_pointer
  | no_return
deriving DecidableEq, Repr

/-- C `assert`: nothing with `NDEBUG`, otherwise the process aborts when the
condition is false. -/
def c_assert (NDEBUG : Bool) (cond : Bool) (reason : abort_reason) : Except abort_reason Unit :=
  if NDEBUG || cond then Except.ok () else Except.error reason

/-- Modelled from the spec: `readmap_file_state_t`, declared in the missing
`api-internal.h`; the fields are the ones `fdmgr.c` assigns. `cached_size` is the
last known byte length of the file and `check_time` the time of the last refresh;
the lock is not modelled. -/
structure readmap_file_state where
  fd : Int
  check_size : Nat
  mapped : Nat
  flags : Int
  mode : Nat
  map_location : Nat
  hash : Nat
  cached_size : Nat
  check_time : timespec
deriving DecidableEq, Repr

/-- System calls the size cache issues. -/
inductive sys_call
  | clock_gettime_realtime
  | clock_gettime_realtime_coarse
  | fstat (fd : Int)
deriving DecidableEq, Repr

/-- What one `clock_gettime` call gives: its status and the time its buffer holds
afterwards. -/
structure clock_reading where
  status : Int
  value : timespec
deriving DecidableEq, Repr

/-- What one `fstat` call gives: its status and the mode and size its buffer
holds afterwards. -/
structure stat_reading where
  status : Int
  st_mode : Nat
  st_size : Nat
deriving DecidableEq, Repr

/-- `S_ISREG` of `<sys/stat.h>`: the file type bits say regular file. -/
def S_ISREG (mode : Nat) : Bool := (mode &&& 0o170000) == 0o100000

/-- `timespec_diff`: the time from `begin_ts` to `end_ts`. The assertion wants
`end_ts` not to be earlier than `begin_ts`. The nanosecond field of the result is
only written on a borrow. -/
def timespec_diff (NDEBUG : Bool) (begin_ts end_ts : timespec) : Except abort_reason timespec := do
  let result : timespec := { tv_sec := 0, tv_nsec := 0 }
  c_assert NDEBUG
    (decide (end_ts.tv_sec > begin_ts.tv_sec ∨
      (end_ts.tv_sec = begin_ts.tv_sec ∧ end_ts.tv_nsec ≥ begin_ts.tv_nsec)))
    abort_reason.timespec_order
  let result := { result with tv_sec := end_ts.tv_sec - begin_ts.tv_sec }
  if end_ts.tv_nsec < begin_ts.tv_nsec then
    pure { tv_sec := result.tv_sec - 1
           tv_nsec := 1000000000 + end_ts.tv_nsec - begin_ts.tv_nsec }
  else pure result

/-- `readmap_update_size`: query the size with `fstat`, store it, and stamp the
state with a `CLOCK_REALTIME` reading. Returns the state and the calls issued. -/
def readmap_update_size (NDEBUG : Bool) (file_state : readmap_file_state)
    (st : stat_reading) (clock : clock_reading) :
    Except abort_reason (readmap_file_state × List sys_call) := do
  c_assert NDEBUG (S_ISREG file_state.mode) abort_reason.not_regular_file
  c_assert NDEBUG (st.status == 0) abort_reason.fstat_failed
  let file_state := { file_state with check_size := 0, cached_size := st.st_size }
  let file_state := { file_state with check_time := clock.value }
  c_assert NDEBUG (clock.status == 0) abort_reason.clock_gettime_failed
  pure (file_state, [sys_call.fstat file_state.fd, sys_call.clock_gettime_realtime])

/-- Outcome of `readmap_get_size`: the size returned, the state afterwards and
the system calls issued, in order. -/
structure get_size_result where
  size : Nat
  file_state : readmap_file_state
  calls : List sys_call
deriving DecidableEq, Repr

/-- `readmap_get_size`. `clock_now` is the reading of the first `clock_gettime`;
`st` and `clock_refresh` are what `fstat` and the second `clock_gettime` give if
the refresh runs. Note the order of the arguments of `timespec_diff`: the
current time is passed as `begin` and the stored `check_time` as `end`. -/
def readmap_get_size (NDEBUG : Bool) (file_state : readmap_file_state)
    (clock_now : clock_reading) (st : stat_reading) (clock_refresh : clock_reading) :
    Except abort_reason get_size_result := do
  let now := clock_now.value
  c_assert NDEBUG (clock_now.status == 0) abort_reason.clock_gettime_failed
  let diff ← timespec_diff NDEBUG now file_state.check_time
  let size := file_state.cached_size
  if diff.tv_sec > 0 then
    let (file_state, calls) ← readmap_update_size NDEBUG file_state st clock_refresh
    pure { size := file_state.cached_size, file_state := file_state
           calls := sys_call.clock_gettime_realtime :: calls }
  else
    pure { size := size, file_state := file_state, calls := [sys_call.clock_gettime_realtime] }

/-- A regular file registered at second 100 with a cached size of 1000 bytes. -/
def demo_file_state : readmap_file_state :=
  { fd := 3, check_size := 0, mapped := 0, flags := 0, mode := 0o100644, map_location := 0
    hash := 0, cached_size := 1000, check_time := { tv_sec := 100, tv_nsec := 0 } }

/-- The file of `demo_file_state` after it shrank to 10 bytes. -/
def demo_stat_shrunk : stat_reading := { status := 0, st_mode := 0o100644, st_size := 10 }

/-- A successful clock reading. -/
def clock_at (sec nsec : Int) : clock_reading :=
  { status := 0, value := { tv_sec := sec, tv_nsec := nsec } }

/-! ## The file state manager -/

/-- The process-wide state of `fdmgr.c` and `init.c`: the pointer
`fd_lookup_table` (`none` is `NULL`), the file states that were allocated and not
yet freed, by address, the `pthread_once` control `readmap_initialized` (has the
init routine run), the static flag `shutdown_called`, and two counters kept for
the proofs: how many tables `lookup_table_create` has built for the manager and
how many `lookup_table_destroy` has torn down. -/
structure process_state where
  fd_lookup_table : Option lookup_table
  heap : List (Nat × readmap_file_state)
  readmap_initialized : Bool
  shutdown_called : Bool
  tables_created : Nat
  tables_destroyed : Nat

/-- The state of a process that has called nothing yet. -/
def process_start : process_state :=
  { fd_lookup_table := none, heap := [], readmap_initialized := false
    shutdown_called := false, tables_created := 0, tables_destroyed := 0 }

/-- Read of the file state stored at an address; `none` when no live state is
there. -/
def heap_read (heap : List (Nat × readmap_file_state)) (address : Nat) :
    Option readmap_file_state :=
  (heap.find? (fun cell => cell.1 == address)).map (fun cell => cell.2)

/-- Store of a file state at an address that holds one. -/
def heap_write (heap : List (Nat × readmap_file_state)) (address : Nat)
    (value : readmap_file_state) : List (Nat × readmap_file_state) :=
  heap.map (fun cell => if cell.1 = address then (address, value) else cell)

/-- C `free` of the file state at an address. -/
def heap_free (heap : List (Nat × readmap_file_state)) (address : Nat) :
    List (Nat × readmap_file_state) :=
  heap.filter (fun cell => cell.1 != address)

/-- The key buffer `&fd`: the four bytes of the `int`, two's complement, little
endian. -/
def fd_key (fd : Int) : List Nat := int_key (fd % 4294967296).toNat

/-- Outcome of `readmap_create_file_state`: the pointer returned (`NULL` on
failure), the process state afterwards and the system calls issued. -/
structure create_result where
  file_state : Nat
  state : process_state
  calls : List sys_call

/-- `readmap_create_file_state`. `st` is what `fstat` leaves in its buffer (the
status is not looked at), `malloc_state` the address `malloc` returns for the
state (`NULL` on failure), `clock` the `CLOCK_REALTIME_COARSE` reading and
`malloc_entry` whether the entry allocation inside the insert succeeds. The
state is filled in with `cached_size = 0`; the size `fstat` reported is not
stored. -/
def readmap_create_file_state (NDEBUG : Bool) (σ : process_state) (fd : Int) (flags : Int)
    (st : stat_reading) (malloc_state : Nat) (clock : clock_reading) (malloc_entry : Bool) :
    Except abort_reason create_result := do
  c_assert NDEBUG σ.fd_lookup_table.isSome abort_reason.null_table
  if !S_ISREG st.st_mode then
    pure { file_state := NULL, state := σ, calls := [sys_call.fstat fd] }
  else if malloc_state = NULL then
    pure { file_state := NULL, state := σ, calls := [sys_call.fstat fd] }
  else
    let file_state : readmap_file_state :=
      { fd := fd, check_size := 0, mapped := 0, flags := flags, mode := st.st_mode
        map_location := 0, hash := 0, cached_size := 0, check_time := clock.value }
    let calls := [sys_call.fstat fd, sys_call.clock_gettime_realtime_coarse]
    c_assert NDEBUG (clock.status == 0) abort_reason.clock_gettime_failed
    match σ.fd_lookup_table with
    | none => throw abort_reason.null_dereference
    | some table =>
      match lookup_table_insert malloc_entry table (fd_key fd) malloc_state with
      | none => throw abort_reason.no_return
      | some r =>
        if r.status ≠ 0 then
          pure { file_state := NULL, state := { σ with fd_lookup_table := some r.Table }
                 calls := calls }
        else
          pure { file_state := malloc_state
                 state := { σ with fd_lookup_table := some r.Table
                                   heap := (malloc_state, file_state) :: σ.heap }
                 calls := calls }

/-- `readmap_lookup_file_state`: the pointer registered for `fd`, `NULL` when
there is none or when the table pointer is null. -/
def readmap_lookup_file_state (σ : process_state) (fd : Int) :
    Except abort_reason (Nat × process_state) :=
  match σ.fd_lookup_table with
  | none => pure (NULL, σ)
  | some table =>
    match lookup_table_lookup table (fd_key fd) with
    | none => throw abort_reason.no_return
    | some r =>
      if r.status ≠ 0 then pure (NULL, { σ with fd_lookup_table := some r.Table })
      else pure (r.Object, { σ with fd_lookup_table := some r.Table })

/-- `readmap_get_size` called through a pointer: the state is read from the heap
and what the call leaves is written back. -/
def readmap_get_size_at (NDEBUG : Bool) (σ : process_state) (file_state : Nat)
    (clock_now : clock_reading) (st : stat_reading) (clock_refresh : clock_reading) :
    Except abort_reason (Nat × process_state) :=
  match heap_read σ.heap file_state with
  | none => throw abort_reason.invalid_pointer
  | some s => do
    let r ← readmap_get_size NDEBUG s clock_now st clock_refresh
    pure (r.size, { σ with heap := heap_write σ.heap file_state r.file_state })

/-- `readmap_delete_file_state`: remove the entry keyed by the state's `fd`,
assert that this worked, free the state. -/
def readmap_delete_file_state (NDEBUG : Bool) (σ : process_state) (file_state : Nat) :
    Except abort_reason process_state := do
  c_assert NDEBUG σ.fd_lookup_table.isSome abort_reason.null_table
  match heap_read σ.heap file_state with
  | none => throw abort_reason.invalid_pointer
  | some s =>
    let fd := s.fd
    match σ.fd_lookup_table with
    | none => throw abort_reason.null_dereference
    | some table =>
      match lookup_table_remove table (fd_key fd) with
      | none => throw abort_reason.no_return
      | some r =>
        c_assert NDEBUG (r.status == 0) abort_reason.remove_failed
        if r.status ≠ 0 then pure { σ with fd_lookup_table := some r.Table }
        else pure { σ with fd_lookup_table := some r.Table
                           heap := heap_free σ.heap file_state }

/-! ## Teardown and the lifecycle -/

/-- Outcome of `lookup_table_destroy`: the bucket array as the loops leave it,
the entries handed to `lookup_table_entry_destroy`, in order, and whether the
table itself was freed. -/
structure destroy_result where
  TableBuckets : List (List lookup_table_entry)
  freed : List lookup_table_entry
  table_freed : Bool

/-- Inner loop of `lookup_table_destroy` on one chain: while the chain is not
empty, take its head, unlink it and free it. Unlinking the head of
`table_entry :: rest` leaves `rest`. Returns the chain left and the entries freed
so far. -/
def destroy_chain_loop :
    List lookup_table_entry → List lookup_table_entry →
      List lookup_table_entry × List lookup_table_entry
  | [], freed => ([], freed)
  | table_entry :: rest, freed => destroy_chain_loop rest (freed ++ [table_entry])

/-- Body of the outer loop of `lookup_table_destroy` for one bucket index: run
the inner loop on `TableBuckets[bucket_index]`. The state is the table and the
entries freed so far. -/
def destroy_bucket (acc : lookup_table × List lookup_table_entry) (bucket_index : Nat) :
    lookup_table × List lookup_table_entry :=
  let step := destroy_chain_loop (bucket acc.1 bucket_index) acc.2
  (set_bucket acc.1 bucket_index step.1, step.2)

/-- `lookup_table_destroy`: for every bucket index below `1 << EntryCountShift`
empty the chain, then free the table. -/
def lookup_table_destroy (Table : lookup_table) : destroy_result :=
  let entrycount := (1 <<< Table.EntryCountShift) % 2 ^ 32
  let emptied := (List.range entrycount).foldl destroy_bucket (Table, [])
  { TableBuckets := emptied.1.TableBuckets, freed := emptied.2, table_freed := true }

/-- `readmap_init_file_state_mgr`. The compare-and-swap from `NULL` succeeds
exactly when the pointer is still null; run to completion it always is at that
point, and the branch that discards the new table is kept as the source has
it. -/
def readmap_init_file_state_mgr (malloc_ok : Bool) (σ : process_state) : Nat × process_state :=
  match σ.fd_lookup_table with
  | some _ => (0, σ)
  | none =>
    match lookup_table_create malloc_ok 4096 "readmapFD".toList none 4 with
    | none => (ENOMEM, σ)
    | some new_table =>
      let σ := { σ with tables_created := σ.tables_created + 1 }
      match σ.fd_lookup_table with
      | none => (0, { σ with fd_lookup_table := some new_table })
      | some _ => (EINVAL, { σ with tables_destroyed := σ.tables_destroyed + 1 })

/-- `readmap_terminate_file_state_mgr`: when the pointer is not null, swap it to
null and destroy the table it held. The entries are freed by
`lookup_table_destroy`; the file states on the heap are not touched. -/
def readmap_terminate_file_state_mgr (σ : process_state) : process_state :=
  match σ.fd_lookup_table with
  | none => σ
  | some existing_table =>
    let _ := lookup_table_destroy existing_table
    { σ with fd_lookup_table := none, tables_destroyed := σ.tables_destroyed + 1 }

/-- `readmap_init_internal`, the routine handed to `pthread_once`; the status of
`readmap_init_file_state_mgr` is dropped. -/
def readmap_init_internal (malloc_ok : Bool) (σ : process_state) : process_state :=
  (readmap_init_file_state_mgr malloc_ok { σ with readmap_initialized := true }).2

/-- `readmap_init`: `pthread_once` runs the routine the first time only. -/
def readmap_init (malloc_ok : Bool) (σ : process_state) : process_state :=
  if σ.readmap_initialized then σ else readmap_init_internal malloc_ok σ

/-- `readmap_shutdown`: the flag is tested, and tested again under the mutex. -/
def readmap_shutdown (σ : process_state) : process_state :=
  if σ.shutdown_called = false then
    if σ.shutdown_called = false then
      { readmap_terminate_file_state_mgr σ with shutdown_called := true }
    else σ
  else σ

/-! ## Opening files -/

/-- `fin_open`. `orig_open` is what `dlsym` finds: `none` when the symbol is
missing, otherwise the value the underlying `open` returns for this call. -/
def fin_open (NDEBUG : Bool) (orig_open : Option Int) : Except abort_reason Int := do
  c_assert NDEBUG orig_open.isSome abort_reason.symbol_missing
  match orig_open with
  | none => pure (-1)
  | some fd => pure fd

/-- Outcome of `readmap_open`: the value returned, the process state afterwards
and, when `readmap_create_file_state` was called, the pointer it returned. -/
structure open_result where
  result : Int
  state : process_state
  registration : Option Nat

/-- `internal_open`: a negative descriptor is returned at once; otherwise the
registration is tried and its result dropped. -/
def internal_open (NDEBUG : Bool) (σ : process_state) (orig_open : Option Int) (flags : Int)
    (st : stat_reading) (malloc_state : Nat) (clock : clock_reading) (malloc_entry : Bool) :
    Except abort_reason open_result := do
  let fd ← fin_open NDEBUG orig_open
  if fd < 0 then
    pure { result := fd, state := σ, registration := none }
  else
    let r ← readmap_create_file_state NDEBUG σ fd flags st malloc_state clock malloc_entry
    pure { result := fd, state := r.state, registration := some r.file_state }

/-- `readmap_open`: takes the mode from the variable arguments and calls
`internal_open`. -/
def readmap_open (NDEBUG : Bool) (σ : process_state) (orig_open : Option Int) (flags : Int)
    (st : stat_reading) (malloc_state : Nat) (clock : clock_reading) (malloc_entry : Bool) :
    Except abort_reason open_result :=
  internal_open NDEBUG σ orig_open flags st malloc_state clock malloc_entry

/-! ## States used as examples -/

/-- A process whose table pointer holds `demo_table`, nothing registered. -/
def demo_process : process_state :=
  { fd_lookup_table := some demo_table, heap := [], readmap_initialized := true
    shutdown_called := false, tables_created := 1, tables_destroyed := 0 }

/-- What `fstat` reports for a regular file of 1000 bytes. -/
def demo_stat : stat_reading := { status := 0, st_mode := 0o100644, st_size := 1000 }

/-- What `fstat` reports for a directory. -/
def demo_stat_dir : stat_reading := { status := 0, st_mode := 0o040755, st_size := 4096 }

/-- The table `readmap_init_file_state_mgr` installs: 4096 empty buckets, keys of
`sizeof(int)` bytes, the built-in hash, and the first seven bytes of the name
`"readmapFD"`. -/
def fd_table_initial : lookup_table :=
  { EntryCountShift := 12
    Name := "readmap".toList
    Hash := default_hash
    KeySize := 4
    TableBuckets := List.replicate 4096 [] }

/-- Process states a program can be in: it starts with nothing initialized and
calls `readmap_init`, `readmap_shutdown`, `readmap_create_file_state` and
`readmap_delete_file_state` in any order; only calls that return lead on. -/
inductive lifecycle_reachable (NDEBUG : Bool) : process_state → Prop
  | start : lifecycle_reachable NDEBUG process_start
  | init (malloc_ok : Bool) (σ : process_state) (h : lifecycle_reachable NDEBUG σ) :
      lifecycle_reachable NDEBUG (readmap_init malloc_ok σ)
  | shutdown (σ : process_state) (h : lifecycle_reachable NDEBUG σ) :
      lifecycle_reachable NDEBUG (readmap_shutdown σ)
  | create (σ : process_state) (fd flags : Int) (st : stat_reading) (malloc_state : Nat)
      (clock : clock_reading) (malloc_entry : Bool) (r : create_result)
      (h : lifecycle_reachable NDEBUG σ)
      (hr : readmap_create_file_state NDEBUG σ fd flags st malloc_state clock malloc_entry =
        Except.ok r) : lifecycle_reachable NDEBUG r.state
  | delete (σ : process_state) (file_state : Nat) (σ2 : process_state)
      (h : lifecycle_reachable NDEBUG σ)
      (hr : readmap_delete_file_state NDEBUG σ file_state = Except.ok σ2) :
      lifecycle_reachable NDEBUG σ2

/-- The two-layer invariant of the manager: the table pointer is set to a table
satisfying the bucket invariant, with the built-in hash and `int` keys; no two
live file states share an address; every live file state is the value the table
holds under the key of its `fd`; and every entry of the table references a live
file state whose `fd` is the entry's key. -/
def manager_invariant (σ : process_state) : Prop :=
  ∃ t, σ.fd_lookup_table = some t ∧ bucket_invariant t ∧ t.Hash = default_hash ∧
    t.KeySize = 4 ∧ (σ.heap.map Prod.fst).Nodup ∧
    (∀ a s, (a, s) ∈ σ.heap → a ≠ NULL ∧
      lookup_table_lookup t (fd_key s.fd) = some { status := 0, Object := a, Table := t }) ∧
    (∀ i, ∀ e ∈ bucket t i, ∃ s, (e.Object, s) ∈ σ.heap ∧ e.Key = fd_key s.fd)

/-- States of the manager while its table is installed: right after
`readmap_init_file_state_mgr` installed the table in a process that has no file
state yet, and after any returning `readmap_create_file_state`,
`readmap_lookup_file_state`, `readmap_get_size` and `readmap_delete_file_state`
call. `malloc` hands out `NULL` or an address that holds no live state. -/
inductive manager_reachable (NDEBUG : Bool) : process_state → Prop
  | init (σ0 σ : process_state) (h0 : σ0.fd_lookup_table = none) (hh : σ0.heap = [])
      (h : readmap_init_file_state_mgr true σ0 = (0, σ)) : manager_reachable NDEBUG σ
  | create (σ : process_state) (fd flags : Int) (st : stat_reading) (malloc_state : Nat)
      (clock : clock_reading) (malloc_entry : Bool) (r : create_result)
      (h : manager_reachable NDEBUG σ)
      (hfresh : malloc_state = NULL ∨ heap_read σ.heap malloc_state = none)
      (hr : readmap_create_file_state NDEBUG σ fd flags st malloc_state clock malloc_entry =
        Except.ok r) : manager_reachable NDEBUG r.state
  | lookup (σ : process_state) (fd : Int) (p : Nat) (σ2 : process_state)
      (h : manager_reachable NDEBUG σ)
      (hr : readmap_lookup_file_state σ fd = Except.ok (p, σ2)) : manager_reachable NDEBUG σ2
  | get_size (σ : process_state) (file_state : Nat) (clock_now : clock_reading)
      (st : stat_reading) (clock_refresh : clock_reading) (size : Nat) (σ2 : process_state)
      (h : manager_reachable NDEBUG σ)
      (hr : readmap_get_size_at NDEBUG σ file_state clock_now st clock_refresh =
        Except.ok (size, σ2)) : manager_reachable NDEBUG σ2
  | delete (σ : process_state) (file_state : Nat) (σ2 : process_state)
      (h : manager_reachable NDEBUG σ)
      (hr : readmap_delete_file_state NDEBUG σ file_state = Except.ok σ2) :
      manager_reachable NDEBUG σ2

/-- Descriptor `fd` has a registered state: some live file state carries it (as
an `int`, that is with the same four bytes). -/
def registered (σ : process_state) (fd : Int) : Prop :=
  ∃ a s, (a, s) ∈ σ.heap ∧ fd_key s.fd = fd_key fd

/-- The process right after `readmap_init_file_state_mgr` installed its table. -/
def demo_initialized : process_state :=
  { process_start with fd_lookup_table := some fd_table_initial
                       tables_created := process_start.tables_created + 1 }

/-- The file state a registration of descriptor 3 with flags 2 at second 100
stores. -/
def demo_state_3 : readmap_file_state :=
  { fd := 3, check_size := 0, mapped := 0, flags := 2, mode := demo_stat.st_mode
    map_location := 0, hash := 0, cached_size := 0
    check_time := { tv_sec := 100, tv_nsec := 0 } }

/-- What registering descriptor 3 in `demo_initialized` returns when `malloc`
hands out address 4096: the key hashes to bucket `~3 & 4095 = 4092`. -/
def demo_registered : create_result :=
  { file_state := 4096
    state := { demo_initialized with
      fd_lookup_table := some (set_bucket fd_table_initial 4092
        (bucket fd_table_initial 4092 ++
          [{ Object := 4096, Key := memcpy (fd_key 3) fd_table_initial.KeySize }]))
      heap := (4096, demo_state_3) :: demo_initialized.heap }
    calls := [sys_call.fstat 3, sys_call.clock_gettime_realtime_coarse] }

/-- What holds of the counters in every state of the lifecycle: at most one table
is ever built; before the init routine has run none is built and the pointer is
null; while the pointer is set exactly one table has been built and none
destroyed; no more tables are destroyed than built; and before the first
shutdown nothing is destroyed and a table that was built is still installed. -/
def lifecycle_invariant (σ : process_state) : Prop :=
  σ.tables_created ≤ 1 ∧
  (σ.readmap_initialized = false → σ.tables_created = 0 ∧ σ.fd_lookup_table.isSome = false) ∧
  (σ.fd_lookup_table.isSome = true → σ.tables_created = 1 ∧ σ.tables_destroyed = 0) ∧
  σ.tables_destroyed ≤ σ.tables_created ∧
  (σ.shutdown_called = false →
    σ.tables_destroyed = 0 ∧ (σ.tables_created = 1 → σ.fd_lookup_table.isSome = true))

/-- A process that called `readmap_shutdown` before its first `readmap_init`. -/
def demo_late_init : process_state := readmap_init true (readmap_shutdown process_start)

/-- A process after a `readmap_init` whose table allocation succeeded. -/
def demo_running : process_state := readmap_init true process_start

/-- What registering descriptor 3 in `demo_running` returns when `malloc` hands
out address 4096. -/
def demo_running_registered : create_result :=
  { file_state := 4096
    state := { demo_running with
      fd_lookup_table := some (set_bucket fd_table_initial 4092
        (bucket fd_table_initial 4092 ++
          [{ Object := 4096, Key := memcpy (fd_key 3) fd_table_initial.KeySize }]))
      heap := (4096, demo_state_3) :: demo_running.heap }
    calls := [sys_call.fstat 3, sys_call.clock_gettime_realtime_coarse] }

/-! ## The built-in hash, as the spec words it -/

/-- The `j`-th 32-bit word of a key, bytes `4j .. 4j+3` in native (little endian)
order. -/
def key_word (key : List Nat) (j : Nat) : Nat :=
  key.getD (4 * j) 0 % 256 + 256 * (key.getD (4 * j + 1) 0 % 256) +
    65536 * (key.getD (4 * j + 2) 0 % 256) + 16777216 * (key.getD (4 * j + 3) 0 % 256)

/-- The XOR-fold of the spec: `0xFFFFFFFF xor w_0 xor ... xor w_(n-1)` over the
first `n` words of the key. -/
def xor_fold (key : List Nat) (n : Nat) : Nat :=
  (List.range n).foldl (fun acc j => acc ^^^ key_word key j) 4294967295

/-! ## The two halves of a lookup -/

/-- The critical section of `lookup_table_lookup`: what runs between
`pthread_rwlock_rdlock` and `pthread_rwlock_unlock`, the search of the bucket,
which yields a pointer to the entry found. -/
def lookup_table_lookup_locked (Table : lookup_table) (Key : List Nat) :
    Option (Option entry_ptr) :=
  lookup_table_locked Table Key

/-- What `lookup_table_lookup` does after `pthread_rwlock_unlock`: it reads
`entry->Object` through the pointer the critical section left, stores it in the
out-parameter and picks the status. -/
def lookup_table_lookup_unlocked (Table : lookup_table) (entry : Option entry_ptr) :
    lookup_result :=
  match entry with
  | some e => { status := 0, Object := e.entry.Object, Table := Table }
  | none => { status := ENODATA, Object := NULL, Table := Table }

/-! ## The built-in hash, step by step -/

/-- The loop of `default_hash` again, with a counter of the XOR steps it has
performed: arguments are the fuel, the 8-bit index, the running hash and the
steps so far; a result is the final hash with the number of steps. -/
def default_hash_steps_loop (blob : List Nat) (length : Nat) :
    Nat → Nat → Nat → Nat → Option (Nat × Nat)
  | 0, _, _, _ => none
  | fuel + 1, index, hash, steps =>
    if index < length then
      match load_u32 blob index with
      | none => none
      | some w =>
        default_hash_steps_loop blob length fuel ((index + 4) % 256) (hash ^^^ w) (steps + 1)
    else some (hash, steps)

/-- A key buffer of 256 zero bytes, every word read of the 8-bit index inside it. -/
def long_key : List Nat := List.replicate 256 0

/-! ## Searching the whole table -/

/-- The search the spec compares `lookup_table_locked` with: over all entries of
all buckets, in bucket order, the first entry whose key equals `Key` over
`KeySize` bytes. -/
def global_search (Table : lookup_table) (Key : List Nat) : Option lookup_table_entry :=
  Table.TableBuckets.flatten.find? (fun e => decide (memcmp Key e.Key Table.KeySize = 0))

/-! ## Mode strings of fopen -/

def O_RDONLY : Nat := 0
def O_WRONLY : Nat := 1
def O_RDWR : Nat := 2
def O_ACCMODE : Nat := 3
def O_CREAT : Nat := 0o100
def O_EXCL : Nat := 0o200
def O_APPEND : Nat := 0o2000
def O_CLOEXEC : Nat := 0o2000000

/-- The inner `switch` of `fopen_mode_to_flags`: what one character of the mode
string does to the flags. -/
def fopen_mode_switch (flags : Nat) (c : Char) : Nat :=
  match c with
  | '+' => flags ||| O_RDWR
  | 'x' => flags ||| O_EXCL
  | 'b' => flags
  | 't' => flags
  | 'm' => flags
  | 'c' => flags
  | 'e' => flags ||| O_CLOEXEC
  | _ => flags

/-- The `for` loop of `fopen_mode_to_flags`: `rounds` is what is left of the 7
rounds, `index` the position in the mode string. The list holds the characters
before the terminating NUL, so the end of the list is the `break`. -/
def fopen_mode_loop (mode : List Char) : Nat → Nat → Nat → Nat
  | 0, _, flags => flags
  | rounds + 1, index, flags =>
    match mode.get? index with
    | none => flags
    | some c =>
      if c = Char.ofNat 0 then flags
      else fopen_mode_loop mode rounds (index + 1) (fopen_mode_switch flags c)

/-- `fopen_mode_to_flags` of `openclose.c`: the `open` flags for an `fopen` mode
string, `-1` (with `errno = EINVAL`) when the first character is no primary
mode. -/
def fopen_mode_to_flags (mode : List Char) : Int :=
  match mode.head? with
  | some 'r' => (fopen_mode_loop mode 7 0 O_RDONLY : Nat)
  | some 'w' => (fopen_mode_loop mode 7 0 O_WRONLY : Nat)
  | some 'a' => (fopen_mode_loop mode 7 0 (O_WRONLY ||| O_CREAT ||| O_APPEND) : Nat)
  | _ => -1

/-- The access mode of a flags word, `flags & O_ACCMODE`. -/
def access_mode (flags : Int) : Nat := flags.toNat &&& O_ACCMODE

/-! # Theorems -/

/-! ## Facts about the helpers -/

theorem memcmp_eq_zero_iff (a b : List Nat) (n : Nat) :
    memcmp a b n = 0 ↔ a.take n = b.take n := by
  induction n generalizing a b with
  | zero => simp [memcmp]
  | succ n ih =>
    cases a with
    | nil => cases b <;> simp [memcmp]
    | cons x xs =>
      cases b with
      | nil => simp [memcmp]
      | cons y ys =>
        by_cases hxy : x = y
        · simp [memcmp, hxy, ih]
        · simp only [memcmp, hxy, if_false, List.take_succ_cons, List.cons.injEq, false_and,
            iff_false]
          omega

theorem memcmp_memcpy_self (k : List Nat) (n : Nat) : memcmp k (memcpy k n) n = 0 := by
  rw [memcmp_eq_zero_iff]; simp [memcpy]

theorem scan_eq_none_iff (K : List Nat) (n : Nat) (l : List lookup_table_entry) (p : Nat) :
    list_for_each_locked K n l p = none ↔ ∀ e ∈ l, memcmp K e.Key n ≠ 0 := by
  induction l generalizing p with
  | nil => simp [list_for_each_locked]
  | cons e rest ih =>
    by_cases h : memcmp K e.Key n = 0
    · simp [list_for_each_locked, h]
    · simp [list_for_each_locked, h, ih]

theorem scan_some_spec (K : List Nat) (n : Nat) (l : List lookup_table_entry) (p : Nat)
    (q : entry_ptr) (h : list_for_each_locked K n l p = some q) :
    p ≤ q.pos ∧ l[q.pos - p]? = some q.entry ∧ memcmp K q.entry.Key n = 0 ∧
      ∀ e ∈ l.take (q.pos - p), memcmp K e.Key n ≠ 0 := by
  induction l generalizing p with
  | nil => simp [list_for_each_locked] at h
  | cons e rest ih =>
    by_cases hm : memcmp K e.Key n = 0
    · simp [list_for_each_locked, hm] at h
      subst h
      simp [hm]
    · simp [list_for_each_locked, hm] at h
      obtain ⟨h1, h2, h3, h4⟩ := ih (p + 1) h
      have hq : q.pos - p = (q.pos - (p + 1)) + 1 := by omega
      refine ⟨by omega, ?_, h3, ?_⟩
      · rw [hq]; simpa using h2
      · rw [hq]
        intro e1 he1
        simp only [List.take_succ_cons, List.mem_cons] at he1
        rcases he1 with rfl | he1
        · exact hm
        · exact h4 e1 he1

theorem scan_append (K : List Nat) (n : Nat) (l l2 : List lookup_table_entry) (p : Nat) :
    list_for_each_locked K n (l ++ l2) p =
      match list_for_each_locked K n l p with
      | some q => some q
      | none => list_for_each_locked K n l2 (p + l.length) := by
  induction l generalizing p with
  | nil => simp [list_for_each_locked]
  | cons e rest ih =>
    by_cases hm : memcmp K e.Key n = 0
    · simp [list_for_each_locked, hm]
    · simp [list_for_each_locked, hm, ih, Nat.add_assoc, Nat.add_comm 1]

theorem scan_entry_find (K : List Nat) (n : Nat) (l : List lookup_table_entry) (p : Nat) :
    (list_for_each_locked K n l p).map entry_ptr.entry =
      l.find? (fun e => decide (memcmp K e.Key n = 0)) := by
  induction l generalizing p with
  | nil => simp [list_for_each_locked]
  | cons e rest ih =>
    by_cases hm : memcmp K e.Key n = 0
    · simp [list_for_each_locked, hm]
    · simp [list_for_each_locked, hm, ih]

theorem find_eraseIdx_of_not (f : lookup_table_entry → Bool) (l : List lookup_table_entry)
    (i : Nat) (e : lookup_table_entry) (hi : l[i]? = some e) (hf : f e = false) :
    (l.eraseIdx i).find? f = l.find? f := by
  induction l generalizing i with
  | nil => simp
  | cons x rest ih =>
    cases i with
    | zero =>
      simp at hi
      subst hi
      simp [List.find?, hf]
    | succ i =>
      simp at hi
      simp only [List.eraseIdx_cons_succ, List.find?]
      cases f x with
      | true => rfl
      | false => exact ih i hi

/-! ## Facts about buckets and the hash -/

theorem lookup_table_hash_set_bucket (t : lookup_table) (i : Nat)
    (c : List lookup_table_entry) (k : List Nat) :
    lookup_table_hash (set_bucket t i c) k = lookup_table_hash t k := rfl

theorem lookup_table_hash_lt (t : lookup_table) (k : List Nat) (i : Nat)
    (h : lookup_table_hash t k = some i) : i < 2 ^ t.EntryCountShift := by
  unfold lookup_table_hash at h
  cases hh : t.Hash k t.KeySize with
  | none => simp [hh] at h
  | some v =>
    simp only [hh, Option.map_some', Option.some.injEq] at h
    rw [Nat.one_shiftLeft, Nat.and_pow_two_sub_one_eq_mod] at h
    rw [← h]
    exact Nat.mod_lt _ (Nat.two_pow_pos _)

theorem bucket_set_bucket_same (t : lookup_table) (i : Nat) (c : List lookup_table_entry)
    (h : i < t.TableBuckets.length) : bucket (set_bucket t i c) i = c := by
  simp [bucket, set_bucket, List.getD_eq_getElem?_getD, h]

theorem bucket_set_bucket_ne (t : lookup_table) (i j : Nat) (c : List lookup_table_entry)
    (h : i ≠ j) : bucket (set_bucket t i c) j = bucket t j := by
  simp [bucket, set_bucket, List.getD_eq_getElem?_getD, List.getElem?_set_ne h]

theorem bucket_set_bucket_out (t : lookup_table) (i j : Nat) (c : List lookup_table_entry)
    (h : t.TableBuckets.length ≤ i) : bucket (set_bucket t i c) j = bucket t j := by
  simp [bucket, set_bucket, List.set_eq_of_length_le h]

theorem wf_hash_lt_length (t : lookup_table) (hwf : lookup_table_wf t) (k : List Nat) (i : Nat)
    (h : lookup_table_hash t k = some i) : i < t.TableBuckets.length := by
  rw [hwf.2]; exact lookup_table_hash_lt t k i h

/-- What a successful insert did: the key hashed to a bucket holding no equal
key, and the table afterwards is the old one with the new entry at the tail of
that bucket. -/
theorem insert_ok_spec (m : Bool) (t : lookup_table) (k : List Nat) (v : Nat)
    (r : table_result) (h : lookup_table_insert m t k v = some r) (hs : r.status = 0) :
    ∃ b, lookup_table_hash t k = some b ∧
      list_for_each_locked k t.KeySize (bucket t b) 0 = none ∧
      r.Table = set_bucket t b (bucket t b ++ [{ Object := v, Key := memcpy k t.KeySize }]) := by
  unfold lookup_table_insert lookup_table_locked lookup_table_entry_create at h
  cases hb : lookup_table_hash t k with
  | none => simp [hb] at h
  | some b =>
    cases m with
    | false =>
      simp [hb] at h
      subst h
      simp [ENOMEM] at hs
    | true =>
      cases hsc : list_for_each_locked k t.KeySize (bucket t b) 0 with
      | some q =>
        simp [hb, hsc] at h
        subst h
        simp [EEXIST] at hs
      | none =>
        simp [hb, hsc, list_insert_tail] at h
        subst h
        exact ⟨b, rfl, hsc, rfl⟩

/-- The scan of a chain that holds no equal key, followed by the entry made from
the key, finds that entry at the tail. -/
theorem scan_after_insert (k : List Nat) (n : Nat) (l : List lookup_table_entry) (v : Nat)
    (h : list_for_each_locked k n l 0 = none) :
    list_for_each_locked k n (l ++ [{ Object := v, Key := memcpy k n }]) 0 =
      some { pos := l.length, entry := { Object := v, Key := memcpy k n } } := by
  rw [scan_append, h]
  simp [list_for_each_locked, memcmp_memcpy_self]

/-- A lookup that follows a successful insert of the same key finds the value
inserted. -/
theorem lookup_after_insert_ok (m : Bool) (t : lookup_table) (k : List Nat) (v : Nat)
    (r : table_result) (hwf : lookup_table_wf t)
    (h : lookup_table_insert m t k v = some r) (hs : r.status = 0) :
    lookup_table_lookup r.Table k = some { status := 0, Object := v, Table := r.Table } := by
  obtain ⟨b, hb, hsc, hT⟩ := insert_ok_spec m t k v r h hs
  have hlt := wf_hash_lt_length t hwf k b hb
  have hbk : bucket r.Table b = bucket t b ++ [{ Object := v, Key := memcpy k t.KeySize }] := by
    rw [hT]; exact bucket_set_bucket_same t b _ hlt
  have hh : lookup_table_hash r.Table k = some b := by rw [hT]; exact hb
  have hks : r.Table.KeySize = t.KeySize := by rw [hT]; rfl
  unfold lookup_table_lookup lookup_table_locked
  rw [hh]
  simp only [Option.map_some', hbk, hks, scan_after_insert k t.KeySize (bucket t b) v hsc]

/-! ## What each operation computes once the hash has returned -/

theorem insert_spec (m : Bool) (t : lookup_table) (k : List Nat) (v b : Nat)
    (hb : lookup_table_hash t k = some b) :
    lookup_table_insert m t k v = some
      (if m then
        (match list_for_each_locked k t.KeySize (bucket t b) 0 with
          | some _ =>
            { status := EEXIST, Table := t, freed := [{ Object := v, Key := memcpy k t.KeySize }] }
          | none =>
            { status := 0
              Table := set_bucket t b (bucket t b ++ [{ Object := v, Key := memcpy k t.KeySize }])
              freed := [] })
      else { status := ENOMEM, Table := t, freed := [] }) := by
  unfold lookup_table_insert lookup_table_locked lookup_table_entry_create
  cases m with
  | false => simp [hb]
  | true =>
    cases hsc : list_for_each_locked k t.KeySize (bucket t b) 0 with
    | some q => simp [hb, hsc]
    | none => simp [hb, hsc, list_insert_tail]

theorem lookup_spec (t : lookup_table) (k : List Nat) (b : Nat)
    (hb : lookup_table_hash t k = some b) :
    lookup_table_lookup t k = some
      (match list_for_each_locked k t.KeySize (bucket t b) 0 with
        | some q => { status := 0, Object := q.entry.Object, Table := t }
        | none => { status := ENODATA, Object := NULL, Table := t }) := by
  unfold lookup_table_lookup lookup_table_locked
  cases hsc : list_for_each_locked k t.KeySize (bucket t b) 0 with
  | some q => simp [hb, hsc]
  | none => simp [hb, hsc]

theorem remove_spec (t : lookup_table) (k : List Nat) (b : Nat)
    (hb : lookup_table_hash t k = some b) :
    lookup_table_remove t k = some
      (match list_for_each_locked k t.KeySize (bucket t b) 0 with
        | some q =>
          { status := 0, Table := set_bucket t b ((bucket t b).eraseIdx q.pos),
            freed := [q.entry] }
        | none => { status := ENODATA, Table := t, freed := [] }) := by
  unfold lookup_table_remove lookup_table_locked
  cases hsc : list_for_each_locked k t.KeySize (bucket t b) 0 with
  | some q => simp [hb, hsc, list_remove]
  | none => simp [hb, hsc]

theorem insert_some_hash (m : Bool) (t : lookup_table) (k : List Nat) (v : Nat)
    (r : table_result) (h : lookup_table_insert m t k v = some r) :
    ∃ b, lookup_table_hash t k = some b := by
  cases hb : lookup_table_hash t k with
  | none => simp [lookup_table_insert, hb] at h
  | some b => exact ⟨b, rfl⟩

theorem remove_some_hash (t : lookup_table) (k : List Nat)
    (r : table_result) (h : lookup_table_remove t k = some r) :
    ∃ b, lookup_table_hash t k = some b := by
  cases hb : lookup_table_hash t k with
  | none => simp [lookup_table_remove, hb] at h
  | some b => exact ⟨b, rfl⟩

theorem eraseIdx_length_append_singleton (l : List lookup_table_entry) (e : lookup_table_entry) :
    (l ++ [e]).eraseIdx l.length = l := by
  induction l with
  | nil => rfl
  | cons x xs ih => simp [ih]

/-- A second insert of a key that was just inserted changes nothing, whatever
its allocation does. -/
theorem insert_after_insert_ok (m1 m2 : Bool) (t : lookup_table) (k : List Nat) (v1 v2 : Nat)
    (r1 : table_result) (hwf : lookup_table_wf t)
    (h1 : lookup_table_insert m1 t k v1 = some r1) (hs : r1.status = 0) :
    ∃ r2, lookup_table_insert m2 r1.Table k v2 = some r2 ∧
      r2.status = (if m2 then EEXIST else ENOMEM) ∧ r2.Table = r1.Table ∧
      lookup_table_lookup r2.Table k = some { status := 0, Object := v1, Table := r2.Table } := by
  obtain ⟨b, hb, hsc, hT⟩ := insert_ok_spec m1 t k v1 r1 h1 hs
  have hlt := wf_hash_lt_length t hwf k b hb
  have hbk : bucket r1.Table b = bucket t b ++ [{ Object := v1, Key := memcpy k t.KeySize }] := by
    rw [hT]; exact bucket_set_bucket_same t b _ hlt
  have hh : lookup_table_hash r1.Table k = some b := by rw [hT]; exact hb
  have hks : r1.Table.KeySize = t.KeySize := by rw [hT]; rfl
  have hl := lookup_after_insert_ok m1 t k v1 r1 hwf h1 hs
  rw [insert_spec m2 r1.Table k v2 b hh, hbk, hks,
    scan_after_insert k t.KeySize (bucket t b) v1 hsc]
  cases m2 with
  | true => exact ⟨_, rfl, rfl, rfl, hl⟩
  | false => exact ⟨_, rfl, rfl, rfl, hl⟩

/-- Removing a key right after its successful insert succeeds, and a lookup of
the key afterwards finds nothing. -/
theorem remove_after_insert_ok (m : Bool) (t : lookup_table) (k : List Nat) (v : Nat)
    (r1 : table_result) (hwf : lookup_table_wf t)
    (h1 : lookup_table_insert m t k v = some r1) (hs : r1.status = 0) :
    ∃ r2, lookup_table_remove r1.Table k = some r2 ∧ r2.status = 0 ∧
      r2.freed = [{ Object := v, Key := memcpy k t.KeySize }] ∧
      lookup_table_lookup r2.Table k =
        some { status := ENODATA, Object := NULL, Table := r2.Table } := by
  obtain ⟨b, hb, hsc, hT⟩ := insert_ok_spec m t k v r1 h1 hs
  have hlt := wf_hash_lt_length t hwf k b hb
  have hbk : bucket r1.Table b = bucket t b ++ [{ Object := v, Key := memcpy k t.KeySize }] := by
    rw [hT]; exact bucket_set_bucket_same t b _ hlt
  have hh : lookup_table_hash r1.Table k = some b := by rw [hT]; exact hb
  have hks : r1.Table.KeySize = t.KeySize := by rw [hT]; rfl
  have hlen : b < r1.Table.TableBuckets.length := by
    rw [hT]; simpa [set_bucket] using hlt
  rw [remove_spec r1.Table k b hh, hbk, hks, scan_after_insert k t.KeySize (bucket t b) v hsc]
  refine ⟨_, rfl, rfl, rfl, ?_⟩
  simp only [eraseIdx_length_append_singleton]
  rw [lookup_spec _ k b (by rw [lookup_table_hash_set_bucket]; exact hh),
    bucket_set_bucket_same _ b _ hlen]
  have hks2 : (set_bucket r1.Table b (bucket t b)).KeySize = t.KeySize := hks
  rw [hks2, hsc]

/-! ## The bucket invariant is kept -/

theorem memcmp_zero_symm (a b : List Nat) (n : Nat) (h : memcmp a b n = 0) :
    memcmp b a n = 0 := by
  rw [memcmp_eq_zero_iff] at h ⊢
  exact h.symm

theorem memcmp_zero_trans (a b c : List Nat) (n : Nat) (h1 : memcmp a b n = 0)
    (h2 : memcmp b c n = 0) : memcmp a c n = 0 := by
  rw [memcmp_eq_zero_iff] at h1 h2 ⊢
  exact h1.trans h2

theorem memcmp_zero_eq_of_length (a b : List Nat) (n : Nat) (ha : a.length = n)
    (hb : b.length = n) (h : memcmp a b n = 0) : a = b := by
  rw [memcmp_eq_zero_iff] at h
  rwa [List.take_of_length_le (Nat.le_of_eq ha), List.take_of_length_le (Nat.le_of_eq hb)] at h

/-- Once the first entry matching a key is unlinked from a chain whose keys are
pairwise different, no entry of the chain matches the key. -/
theorem scan_eraseIdx_found (k : List Nat) (n : Nat) (l : List lookup_table_entry)
    (p p2 : Nat) (q : entry_ptr)
    (hpw : l.Pairwise (fun a b => memcmp a.Key b.Key n ≠ 0))
    (h : list_for_each_locked k n l p = some q) :
    list_for_each_locked k n (l.eraseIdx (q.pos - p)) p2 = none := by
  induction l generalizing p p2 with
  | nil => simp [list_for_each_locked] at h
  | cons e rest ih =>
    rw [List.pairwise_cons] at hpw
    by_cases hm : memcmp k e.Key n = 0
    · simp [list_for_each_locked, hm] at h
      subst h
      simp only [Nat.sub_self, List.eraseIdx_cons_zero]
      rw [scan_eq_none_iff]
      intro e2 he2 hz
      exact hpw.1 e2 he2 (memcmp_zero_trans _ _ _ n (memcmp_zero_symm _ _ n hm) hz)
    · simp [list_for_each_locked, hm] at h
      have hq := (scan_some_spec k n rest (p + 1) q h).1
      have hidx : q.pos - p = (q.pos - (p + 1)) + 1 := by omega
      rw [hidx, List.eraseIdx_cons_succ]
      simp only [list_for_each_locked, hm, if_false]
      exact ih (p + 1) (p2 + 1) hpw.2 h

theorem set_bucket_invariant (t : lookup_table) (b : Nat) (c : List lookup_table_entry)
    (hinv : bucket_invariant t)
    (hc : ∀ e ∈ c, e.Key.length = t.KeySize ∧ lookup_table_hash t e.Key = some b)
    (hpw : c.Pairwise (fun x y => memcmp x.Key y.Key t.KeySize ≠ 0)) :
    bucket_invariant (set_bucket t b c) := by
  obtain ⟨hwf, hidx, huniq⟩ := hinv
  have hlen : (set_bucket t b c).TableBuckets.length = t.TableBuckets.length := by
    simp [set_bucket]
  refine ⟨⟨hwf.1, by rw [hlen]; exact hwf.2⟩, ?_, ?_⟩
  · intro i hi e he
    rw [hlen] at hi
    by_cases hib : b = i
    · subst hib
      rw [bucket_set_bucket_same t b c hi] at he
      exact hc e he
    · rw [bucket_set_bucket_ne t b i c hib] at he
      exact hidx i hi e he
  · intro i hi
    rw [hlen] at hi
    by_cases hib : b = i
    · subst hib
      rw [bucket_set_bucket_same t b c hi]
      exact hpw
    · rw [bucket_set_bucket_ne t b i c hib]
      exact huniq i hi

theorem insert_invariant (m : Bool) (t : lookup_table) (k : List Nat) (v : Nat)
    (r : table_result) (hinv : bucket_invariant t) (hk : k.length = t.KeySize)
    (h : lookup_table_insert m t k v = some r) : bucket_invariant r.Table := by
  obtain ⟨b, hb⟩ := insert_some_hash m t k v r h
  have hlt := wf_hash_lt_length t hinv.1 k b hb
  rw [insert_spec m t k v b hb] at h
  cases m with
  | false =>
    simp at h; subst h; exact hinv
  | true =>
    cases hsc : list_for_each_locked k t.KeySize (bucket t b) 0 with
    | some q => simp [hsc] at h; subst h; exact hinv
    | none =>
      simp [hsc] at h
      subst h
      have hkey : memcpy k t.KeySize = k := by
        simp [memcpy, List.take_of_length_le (Nat.le_of_eq hk)]
      rw [scan_eq_none_iff] at hsc
      apply set_bucket_invariant t b _ hinv
      · intro e he
        rw [List.mem_append, List.mem_singleton] at he
        rcases he with he | rfl
        · exact hinv.2.1 b hlt e he
        · exact ⟨by simp [hkey, hk], by simp [hkey, hb]⟩
      · rw [List.pairwise_append]
        refine ⟨hinv.2.2 b hlt, List.pairwise_singleton _ _, ?_⟩
        intro x hx y hy
        rw [List.mem_singleton] at hy
        subst hy
        intro hz
        simp only [hkey] at hz
        exact hsc x hx (memcmp_zero_symm _ _ _ hz)

theorem remove_invariant (t : lookup_table) (k : List Nat) (r : table_result)
    (hinv : bucket_invariant t) (h : lookup_table_remove t k = some r) :
    bucket_invariant r.Table := by
  obtain ⟨b, hb⟩ := remove_some_hash t k r h
  have hlt := wf_hash_lt_length t hinv.1 k b hb
  rw [remove_spec t k b hb] at h
  cases hsc : list_for_each_locked k t.KeySize (bucket t b) 0 with
  | none => simp [hsc] at h; subst h; exact hinv
  | some q =>
    simp [hsc] at h
    subst h
    apply set_bucket_invariant t b _ hinv
    · intro e he
      exact hinv.2.1 b hlt e (List.mem_of_mem_eraseIdx he)
    · exact List.Pairwise.sublist (List.eraseIdx_sublist _ _) (hinv.2.2 b hlt)

/-- After a successful remove from a table satisfying the bucket invariant, a
lookup of the removed key finds nothing. -/
theorem lookup_after_remove_ok (t : lookup_table) (k : List Nat) (r : table_result)
    (hinv : bucket_invariant t) (h : lookup_table_remove t k = some r) (hs : r.status = 0) :
    lookup_table_lookup r.Table k =
      some { status := ENODATA, Object := NULL, Table := r.Table } := by
  obtain ⟨b, hb⟩ := remove_some_hash t k r h
  have hlt := wf_hash_lt_length t hinv.1 k b hb
  rw [remove_spec t k b hb] at h
  cases hsc : list_for_each_locked k t.KeySize (bucket t b) 0 with
  | none => simp [hsc] at h; subst h; simp [ENODATA] at hs
  | some q =>
    simp [hsc] at h
    subst h
    rw [lookup_spec _ k b (by rw [lookup_table_hash_set_bucket]; exact hb),
      bucket_set_bucket_same _ b _ hlt]
    have hks : (set_bucket t b ((bucket t b).eraseIdx q.pos)).KeySize = t.KeySize := rfl
    have hnone := scan_eraseIdx_found k t.KeySize (bucket t b) 0 0 q (hinv.2.2 b hlt) hsc
    simp only [Nat.sub_zero] at hnone
    rw [hks, hnone]

/-! ## Creation -/

/-- The shift loop, started at most 16 with enough fuel left, ends at the least
shift whose power of two reaches a size hint of at most 65536. -/
theorem entry_count_shift_loop_spec (S : Nat) (hS : S ≤ 65536) (fuel s : Nat)
    (hs : s ≤ 16) (hfuel : 17 ≤ s + fuel) (hbelow : ∀ j < s, 2 ^ j < S) :
    ∃ r, entry_count_shift_loop S fuel s = some r ∧ r ≤ 16 ∧ S ≤ 2 ^ r ∧
      ∀ j < r, 2 ^ j < S := by
  induction fuel generalizing s with
  | zero => omega
  | succ fuel ih =>
    have hpow : 2 ^ s ≤ 2 ^ 16 := Nat.pow_le_pow_right (by decide) hs
    have hmod : (1 <<< s) % 2 ^ 32 = 2 ^ s := by
      rw [Nat.one_shiftLeft]
      exact Nat.mod_eq_of_lt (by omega)
    unfold entry_count_shift_loop
    rw [hmod]
    by_cases hlt : 2 ^ s < S
    · have hs16 : s < 16 := by
        by_contra hge
        have : s = 16 := by omega
        subst this
        omega
      have hwrap : (s + 1) % 256 = s + 1 := Nat.mod_eq_of_lt (by omega)
      rw [if_pos hlt, hwrap]
      apply ih (s + 1) (by omega) (by omega)
      intro j hj
      by_cases hjs : j = s
      · subst hjs; exact hlt
      · exact hbelow j (by omega)
    · rw [if_neg hlt]
      exact ⟨s, rfl, hs, by omega, hbelow⟩

/-- What `lookup_table_create` returns when the allocation succeeds. -/
theorem create_spec (SizeHint : Nat) (Name : List Char) (Hash : Option lookup_table_hash_t)
    (KeySize : Nat) :
    ∃ t, lookup_table_create true SizeHint Name Hash KeySize = some t ∧
      t.EntryCountShift ≤ 16 ∧
      min SizeHint 65536 ≤ 2 ^ t.EntryCountShift ∧
      (∀ j < t.EntryCountShift, 2 ^ j < min SizeHint 65536) ∧
      t.TableBuckets = List.replicate (2 ^ t.EntryCountShift) [] ∧
      t.KeySize = KeySize ∧ t.Name = Name.take 7 ∧
      t.Hash = (match Hash with
        | some h => h
        | none => default_hash) := by
  have hclamp : (if SizeHint > 65536 then 65536 else SizeHint) = min SizeHint 65536 := by
    split <;> omega
  obtain ⟨r, hr, hr16, hge, hleast⟩ :=
    entry_count_shift_loop_spec (min SizeHint 65536) (Nat.min_le_right _ _) 256 0
      (by omega) (by omega) (by intro j hj; omega)
  have hpow : 2 ^ r ≤ 2 ^ 16 := Nat.pow_le_pow_right (by decide) hr16
  have hmod : (1 <<< r) % 2 ^ 32 = 2 ^ r := by
    rw [Nat.one_shiftLeft]
    exact Nat.mod_eq_of_lt (by omega)
  refine ⟨{ EntryCountShift := r
            Name := Name.take 7
            Hash := match Hash with
              | some h => h
              | none => default_hash
            KeySize := KeySize
            TableBuckets := List.replicate (2 ^ r) [] }, ?_, hr16, hge, hleast, rfl, rfl, rfl, rfl⟩
  simp only [lookup_table_create, hclamp, hr, hmod, if_true]

theorem create_some_true (m : Bool) (SizeHint : Nat) (Name : List Char)
    (Hash : Option lookup_table_hash_t) (KeySize : Nat) (t : lookup_table)
    (h : lookup_table_create m SizeHint Name Hash KeySize = some t) : m = true := by
  cases m with
  | true => rfl
  | false =>
    unfold lookup_table_create at h
    simp only at h
    split at h <;> simp at h

theorem mem_bucket_length (t : lookup_table) (i : Nat) (e : lookup_table_entry)
    (h : e ∈ bucket t i) : i < t.TableBuckets.length := by
  by_contra hge
  simp [bucket, List.getD_eq_getElem?_getD, List.getElem?_eq_none (Nat.le_of_not_lt hge)] at h

theorem create_invariant (m : Bool) (SizeHint : Nat) (Name : List Char)
    (Hash : Option lookup_table_hash_t) (KeySize : Nat) (t : lookup_table)
    (h : lookup_table_create m SizeHint Name Hash KeySize = some t) : bucket_invariant t := by
  have hm := create_some_true m SizeHint Name Hash KeySize t h
  subst hm
  obtain ⟨t2, h2, h16, _, _, hb, _⟩ := create_spec SizeHint Name Hash KeySize
  rw [h] at h2
  cases h2
  have hbk : ∀ i, bucket t i = [] := by
    intro i
    simp only [bucket, hb, List.getD_eq_getElem?_getD, List.getElem?_replicate]
    split <;> rfl
  refine ⟨⟨h16, by rw [hb, List.length_replicate]⟩, ?_, ?_⟩
  · intro i _ e he
    rw [hbk i] at he
    cases he
  · intro i _
    rw [hbk i]
    exact List.Pairwise.nil

theorem reachable_bucket_invariant (t : lookup_table) (h : reachable t) : bucket_invariant t := by
  induction h with
  | create m S N H K t h => exact create_invariant m S N H K t h
  | insert m t k v r _ hk h ih => exact insert_invariant m t k v r ih hk h
  | remove t k r _ h ih => exact remove_invariant t k r ih h

/-- Under the bucket invariant two entries with byte-for-byte equal keys are the
same entry: same bucket, same position. -/
theorem invariant_unique (t : lookup_table) (hinv : bucket_invariant t) (i j p q : Nat)
    (e1 e2 : lookup_table_entry) (h1 : (bucket t i)[p]? = some e1)
    (h2 : (bucket t j)[q]? = some e2) (hz : memcmp e1.Key e2.Key t.KeySize = 0) :
    i = j ∧ p = q := by
  have hm1 : e1 ∈ bucket t i := List.getElem?_mem h1
  have hm2 : e2 ∈ bucket t j := List.getElem?_mem h2
  have hi := mem_bucket_length t i e1 hm1
  have hj := mem_bucket_length t j e2 hm2
  obtain ⟨hl1, hh1⟩ := hinv.2.1 i hi e1 hm1
  obtain ⟨hl2, hh2⟩ := hinv.2.1 j hj e2 hm2
  have hkeys : e1.Key = e2.Key := memcmp_zero_eq_of_length _ _ _ hl1 hl2 hz
  have hij : i = j := by
    rw [hkeys, hh2] at hh1
    exact (Option.some.inj hh1).symm
  subst hij
  refine ⟨rfl, ?_⟩
  have hpw := hinv.2.2 i hi
  rw [List.pairwise_iff_getElem] at hpw
  obtain ⟨hp, hp2⟩ := List.getElem?_eq_some_iff.mp h1
  obtain ⟨hq, hq2⟩ := List.getElem?_eq_some_iff.mp h2
  by_contra hne
  rcases Nat.lt_or_gt_of_ne hne with hlt | hgt
  · have := hpw p q hp hq hlt
    rw [hp2, hq2] at this
    exact this hz
  · have := hpw q p hq hp hgt
    rw [hp2, hq2] at this
    exact this (memcmp_zero_symm _ _ _ hz)

/-! ## Outcomes and frames -/

theorem scan_ne_none_iff (K : List Nat) (n : Nat) (l : List lookup_table_entry) (p : Nat) :
    (∃ q, list_for_each_locked K n l p = some q) ↔ ∃ e ∈ l, memcmp K e.Key n = 0 := by
  constructor
  · rintro ⟨q, hq⟩
    obtain ⟨_, h2, h3, _⟩ := scan_some_spec K n l p q hq
    exact ⟨q.entry, List.getElem?_mem h2, h3⟩
  · rintro ⟨e, he, hz⟩
    cases hsc : list_for_each_locked K n l p with
    | some q => exact ⟨q, rfl⟩
    | none =>
      rw [scan_eq_none_iff] at hsc
      exact absurd hz (hsc e he)

/-- Under the bucket invariant a key of `KeySize` bytes has an equal key somewhere
in the table exactly when it has one in the bucket it hashes to. -/
theorem invariant_local_iff_global (t : lookup_table) (k : List Nat) (b : Nat)
    (hb : lookup_table_hash t k = some b) (hinv : bucket_invariant t)
    (hk : k.length = t.KeySize) :
    (∃ e ∈ bucket t b, memcmp k e.Key t.KeySize = 0) ↔
      ∃ i, ∃ e ∈ bucket t i, memcmp k e.Key t.KeySize = 0 := by
  constructor
  · rintro ⟨e, he, hz⟩
    exact ⟨b, e, he, hz⟩
  · rintro ⟨i, e, he, hz⟩
    have hi := mem_bucket_length t i e he
    obtain ⟨hl, hh⟩ := hinv.2.1 i hi e he
    have hkeys : k = e.Key := memcmp_zero_eq_of_length _ _ _ hk hl hz
    rw [← hkeys, hb] at hh
    have hbi : b = i := Option.some.inj hh
    subst hbi
    exact ⟨e, he, hz⟩

theorem sum_length_set (L : List (List lookup_table_entry)) (b : Nat)
    (c : List lookup_table_entry) (hb : b < L.length) :
    ((L.set b c).map List.length).sum + (L.getD b []).length =
      (L.map List.length).sum + c.length := by
  induction L generalizing b with
  | nil => simp at hb
  | cons x xs ih =>
    cases b with
    | zero => simp; omega
    | succ b =>
      have := ih b (by simpa using hb)
      simp only [List.set_cons_succ, List.map_cons, List.sum_cons, List.getD_cons_succ] at this ⊢
      omega

theorem lookup_outcome_find (t : lookup_table) (k : List Nat) :
    (lookup_table_lookup t k).map lookup_result.outcome =
      (lookup_table_hash t k).map (fun b =>
        match (bucket t b).find? (fun e => decide (memcmp k e.Key t.KeySize = 0)) with
        | some e => (0, e.Object)
        | none => (ENODATA, NULL)) := by
  cases hb : lookup_table_hash t k with
  | none => simp [lookup_table_lookup, lookup_table_locked, hb]
  | some b =>
    have hf := scan_entry_find k t.KeySize (bucket t b) 0
    rw [lookup_spec t k b hb]
    simp only [Option.map_some']
    rw [← hf]
    cases hsc : list_for_each_locked k t.KeySize (bucket t b) 0 with
    | some q => simp [lookup_result.outcome]
    | none => simp [lookup_result.outcome]

/-- Replacing one chain by a chain in which every key finds the same first entry
does not change what a lookup of that key returns. -/
theorem lookup_outcome_set_bucket (t : lookup_table) (b : Nat) (c : List lookup_table_entry)
    (k : List Nat)
    (hc : c.find? (fun e => decide (memcmp k e.Key t.KeySize = 0)) =
      (bucket t b).find? (fun e => decide (memcmp k e.Key t.KeySize = 0))) :
    (lookup_table_lookup (set_bucket t b c) k).map lookup_result.outcome =
      (lookup_table_lookup t k).map lookup_result.outcome := by
  rw [lookup_outcome_find, lookup_outcome_find, lookup_table_hash_set_bucket]
  cases hb : lookup_table_hash t k with
  | none => rfl
  | some b2 =>
    have hks : (set_bucket t b c).KeySize = t.KeySize := rfl
    simp only [Option.map_some', hks]
    by_cases hbb : b = b2
    · subst hbb
      by_cases hlen : b < t.TableBuckets.length
      · rw [bucket_set_bucket_same t b c hlen, hc]
      · rw [bucket_set_bucket_out t b b c (Nat.le_of_not_lt hlen)]
    · rw [bucket_set_bucket_ne t b b2 c hbb]

theorem lookup_outcome_after_insert (m : Bool) (t : lookup_table) (k k2 : List Nat) (v : Nat)
    (r : table_result) (hne : memcmp k k2 t.KeySize ≠ 0)
    (h : lookup_table_insert m t k v = some r) :
    (lookup_table_lookup r.Table k2).map lookup_result.outcome =
      (lookup_table_lookup t k2).map lookup_result.outcome := by
  obtain ⟨b, hb⟩ := insert_some_hash m t k v r h
  rw [insert_spec m t k v b hb] at h
  cases m with
  | false => simp at h; subst h; rfl
  | true =>
    cases hsc : list_for_each_locked k t.KeySize (bucket t b) 0 with
    | some q => simp [hsc] at h; subst h; rfl
    | none =>
      simp [hsc] at h
      subst h
      apply lookup_outcome_set_bucket
      rw [List.find?_append]
      have hno : memcmp k2 (memcpy k t.KeySize) t.KeySize ≠ 0 := by
        intro hz
        exact hne (memcmp_zero_symm _ _ _
          (memcmp_zero_trans _ _ _ _ hz (memcmp_zero_symm _ _ _ (memcmp_memcpy_self k t.KeySize))))
      simp [List.find?, hno]

theorem lookup_outcome_after_remove (t : lookup_table) (k k2 : List Nat)
    (r : table_result) (hne : memcmp k k2 t.KeySize ≠ 0)
    (h : lookup_table_remove t k = some r) :
    (lookup_table_lookup r.Table k2).map lookup_result.outcome =
      (lookup_table_lookup t k2).map lookup_result.outcome := by
  obtain ⟨b, hb⟩ := remove_some_hash t k r h
  rw [remove_spec t k b hb] at h
  cases hsc : list_for_each_locked k t.KeySize (bucket t b) 0 with
  | none => simp [hsc] at h; subst h; rfl
  | some q =>
    simp [hsc] at h
    subst h
    obtain ⟨_, h2, h3, _⟩ := scan_some_spec k t.KeySize (bucket t b) 0 q hsc
    apply lookup_outcome_set_bucket
    apply find_eraseIdx_of_not _ _ q.pos q.entry (by simpa using h2)
    have hno : memcmp k2 q.entry.Key t.KeySize ≠ 0 := by
      intro hz
      exact hne (memcmp_zero_trans _ _ _ _ h3 (memcmp_zero_symm _ _ _ hz))
    simp [hno]

theorem lookup_table_unchanged (t : lookup_table) (k : List Nat) (x : lookup_result)
    (h : lookup_table_lookup t k = some x) : x.Table = t := by
  unfold lookup_table_lookup at h
  split at h
  · simp at h
  · simp at h; subst h; rfl
  · simp at h; subst h; rfl

theorem create_length (SizeHint : Nat) (Name : List Char) (Hash : Option lookup_table_hash_t)
    (KeySize r : Nat)
    (hl : entry_count_shift_loop (if SizeHint > 65536 then 65536 else SizeHint) 256 0 = some r) :
    (lookup_table_create true SizeHint Name Hash KeySize).map
      (fun t => t.TableBuckets.length) = some ((1 <<< r) % 2 ^ 32) := by
  simp only [lookup_table_create, hl, if_true, Option.map_some', List.length_replicate]

/-! ## The size cache -/

/-- For every state stamped strictly before the current clock reading,
`readmap_get_size` fails the ordering assertion of `timespec_diff` when assertions
are compiled in, and with `NDEBUG` returns the cached size without any refresh,
however long ago the stamp was taken. -/
theorem get_size_past_stamp (fs : readmap_file_state) (now : timespec) (st : stat_reading)
    (cr : clock_reading)
    (hpast : fs.check_time.tv_sec < now.tv_sec ∨
      (fs.check_time.tv_sec = now.tv_sec ∧ fs.check_time.tv_nsec < now.tv_nsec)) :
    readmap_get_size false fs { status := 0, value := now } st cr =
        Except.error abort_reason.timespec_order ∧
      readmap_get_size true fs { status := 0, value := now } st cr =
        Except.ok { size := fs.cached_size, file_state := fs
                    calls := [sys_call.clock_gettime_realtime] } := by
  constructor
  · have hcond : ¬ (fs.check_time.tv_sec > now.tv_sec ∨
        (fs.check_time.tv_sec = now.tv_sec ∧ fs.check_time.tv_nsec ≥ now.tv_nsec)) := by omega
    simp [readmap_get_size, timespec_diff, c_assert, bind, Except.bind, hcond]
  · simp only [readmap_get_size, timespec_diff, c_assert, bind, Except.bind, pure, Except.pure,
      Bool.true_or, if_true]
    by_cases hns : fs.check_time.tv_nsec < now.tv_nsec
    · have hsec : ¬ (fs.check_time.tv_sec - now.tv_sec - 1 > 0) := by omega
      simp [hns, hsec]
    · have hsec : ¬ (fs.check_time.tv_sec - now.tv_sec > 0) := by omega
      simp [hns, hsec]

/-! ## The file state manager -/

theorem int_key_length (n : Nat) : (int_key n).length = 4 := rfl

theorem fd_key_length (fd : Int) : (fd_key fd).length = 4 := rfl

/-- The built-in hash returns on every key of four bytes. -/
theorem default_hash_four (k : List Nat) (hk : k.length = 4) :
    ∃ w, load_u32 k 0 = some w ∧ default_hash k 4 = some (4294967295 ^^^ w) := by
  match k, hk with
  | [a, b, c, d], _ =>
    refine ⟨_, rfl, ?_⟩
    simp [default_hash, default_hash_loop, load_u32]

theorem fd_table_hash_some (t : lookup_table) (hH : t.Hash = default_hash) (hK : t.KeySize = 4)
    (fd : Int) : ∃ b, lookup_table_hash t (fd_key fd) = some b := by
  obtain ⟨w, _, hw⟩ := default_hash_four (fd_key fd) (fd_key_length fd)
  rw [lookup_table_hash, hH, hK, hw]
  exact ⟨_, rfl⟩

theorem process_state_table_eta (σ : process_state) (t : lookup_table)
    (hT : σ.fd_lookup_table = some t) : { σ with fd_lookup_table := some t } = σ := by
  cases σ
  simp only at hT
  subst hT
  rfl

/-- What `readmap_create_file_state` computes once the table pointer is set, the
hash has returned bucket `b` and the clock call cannot trip its assertion. -/
theorem create_file_state_spec (NDEBUG : Bool) (σ : process_state) (t : lookup_table)
    (fd flags : Int) (st : stat_reading) (ms : Nat) (clock : clock_reading) (me : Bool)
    (b : Nat) (hT : σ.fd_lookup_table = some t)
    (hb : lookup_table_hash t (fd_key fd) = some b)
    (hclock : NDEBUG = true ∨ clock.status = 0) :
    readmap_create_file_state NDEBUG σ fd flags st ms clock me = Except.ok
      (if S_ISREG st.st_mode = false ∨ ms = NULL then
        { file_state := NULL, state := σ, calls := [sys_call.fstat fd] }
      else if me = true ∧ list_for_each_locked (fd_key fd) t.KeySize (bucket t b) 0 = none then
        { file_state := ms
          state := { σ with
            fd_lookup_table := some (set_bucket t b
              (bucket t b ++ [{ Object := ms, Key := memcpy (fd_key fd) t.KeySize }]))
            heap := (ms, { fd := fd, check_size := 0, mapped := 0, flags := flags
                           mode := st.st_mode, map_location := 0, hash := 0, cached_size := 0
                           check_time := clock.value }) :: σ.heap }
          calls := [sys_call.fstat fd, sys_call.clock_gettime_realtime_coarse] }
      else
        { file_state := NULL, state := σ
          calls := [sys_call.fstat fd, sys_call.clock_gettime_realtime_coarse] }) := by
  have hassert : c_assert NDEBUG true abort_reason.null_table = Except.ok () := by
    simp [c_assert]
  have hassert2 : c_assert NDEBUG (clock.status == 0) abort_reason.clock_gettime_failed =
      Except.ok () := by
    rcases hclock with h | h <;> simp [c_assert, h]
  have heta := process_state_table_eta σ t hT
  unfold readmap_create_file_state
  simp only [hT, Option.isSome_some, hassert, hassert2, bind, Except.bind, pure, Except.pure,
    insert_spec me t (fd_key fd) ms b hb]
  by_cases hreg : S_ISREG st.st_mode = true
  · by_cases hms : ms = NULL
    · simp [hreg, hms]
    · cases me with
      | false => simp [hreg, hms, ENOMEM, heta]
      | true =>
        cases hsc : list_for_each_locked (fd_key fd) t.KeySize (bucket t b) 0 with
        | none => simp [hreg, hms]
        | some q => simp [hreg, hms, EEXIST, heta]
  · simp [hreg]

/-- On every successful registration the state stored on the heap carries the
identifier, the flags, the mode `fstat` reported and the clock reading, and a
cached size of 0. -/
theorem create_file_state_fields (NDEBUG : Bool) (σ : process_state) (t : lookup_table)
    (fd flags : Int) (st : stat_reading) (ms : Nat) (clock : clock_reading) (me : Bool)
    (b : Nat) (r : create_result) (hT : σ.fd_lookup_table = some t)
    (hb : lookup_table_hash t (fd_key fd) = some b)
    (hclock : NDEBUG = true ∨ clock.status = 0)
    (h : readmap_create_file_state NDEBUG σ fd flags st ms clock me = Except.ok r)
    (hr : r.file_state ≠ NULL) :
    r.file_state = ms ∧
      r.state.heap = (ms, { fd := fd, check_size := 0, mapped := 0, flags := flags
                            mode := st.st_mode, map_location := 0, hash := 0, cached_size := 0
                            check_time := clock.value }) :: σ.heap := by
  rw [create_file_state_spec NDEBUG σ t fd flags st ms clock me b hT hb hclock] at h
  split at h
  · cases h; exact absurd rfl hr
  · split at h
    · cases h; exact ⟨rfl, rfl⟩
    · cases h; exact absurd rfl hr

/-- A registration returns `NULL` exactly in the four failure cases, and then it
leaves the whole process state as it was. -/
theorem create_file_state_null_iff (NDEBUG : Bool) (σ : process_state) (t : lookup_table)
    (fd flags : Int) (st : stat_reading) (ms : Nat) (clock : clock_reading) (me : Bool)
    (b : Nat) (hT : σ.fd_lookup_table = some t)
    (hb : lookup_table_hash t (fd_key fd) = some b)
    (hclock : NDEBUG = true ∨ clock.status = 0) :
    ∃ r, readmap_create_file_state NDEBUG σ fd flags st ms clock me = Except.ok r ∧
      (r.file_state = NULL ↔
        (S_ISREG st.st_mode = false ∨ ms = NULL ∨ me = false ∨
          ∃ e ∈ bucket t b, memcmp (fd_key fd) e.Key t.KeySize = 0)) ∧
      (r.file_state = NULL → r.state = σ) := by
  rw [create_file_state_spec NDEBUG σ t fd flags st ms clock me b hT hb hclock]
  refine ⟨_, rfl, ?_, ?_⟩
  · by_cases h1 : S_ISREG st.st_mode = false ∨ ms = NULL
    · rw [if_pos h1]
      rcases h1 with h1 | h1
      · simp [h1]
      · simp [h1]
    · rw [if_neg h1]
      have hreg : ¬ S_ISREG st.st_mode = false := fun h => h1 (Or.inl h)
      have hms : ¬ ms = NULL := fun h => h1 (Or.inr h)
      cases hsc : list_for_each_locked (fd_key fd) t.KeySize (bucket t b) 0 with
      | some q =>
        have hex := (scan_ne_none_iff (fd_key fd) t.KeySize (bucket t b) 0).mp ⟨q, hsc⟩
        simp [hex]
      | none =>
        have hno := (scan_eq_none_iff (fd_key fd) t.KeySize (bucket t b) 0).mp hsc
        cases me with
        | false => simp
        | true =>
          simp only [true_and, if_true, hms, hreg, false_or, Bool.true_eq_false, false_iff]
          rintro ⟨e, he, hz⟩
          exact hno e he hz
  · by_cases h1 : S_ISREG st.st_mode = false ∨ ms = NULL
    · rw [if_pos h1]; intro _; rfl
    · rw [if_neg h1]
      have hms : ¬ ms = NULL := fun h => h1 (Or.inr h)
      split
      · intro h; exact absurd h hms
      · intro _; rfl

/-! ## The lifecycle -/

theorem create_fd_table :
    lookup_table_create true 4096 "readmapFD".toList none 4 = some fd_table_initial := by
  have hl : entry_count_shift_loop 4096 256 0 = some 12 := by decide
  have hn : "readmapFD".toList.take 7 = "readmap".toList := by decide
  have hc : (1 <<< 12) % 2 ^ 32 = 4096 := by decide
  simp only [lookup_table_create, hl, hn, hc, if_true, fd_table_initial]
  rfl

theorem init_file_state_mgr_null (σ : process_state) (h : σ.fd_lookup_table = none) :
    readmap_init_file_state_mgr true σ =
      (0, { σ with fd_lookup_table := some fd_table_initial
                   tables_created := σ.tables_created + 1 }) ∧
    readmap_init_file_state_mgr false σ = (ENOMEM, σ) := by
  have hf : lookup_table_create false 4096 "readmapFD".toList none 4 = none := by
    cases hc : lookup_table_create false 4096 "readmapFD".toList none 4 with
    | none => rfl
    | some t => exact absurd (create_some_true false _ _ _ _ t hc) (by decide)
  constructor
  · simp only [readmap_init_file_state_mgr, h, create_fd_table]
  · simp only [readmap_init_file_state_mgr, h, hf]

theorem init_file_state_mgr_set (m : Bool) (σ : process_state) (t : lookup_table)
    (h : σ.fd_lookup_table = some t) : readmap_init_file_state_mgr m σ = (0, σ) := by
  simp only [readmap_init_file_state_mgr, h]

theorem fd_table_initial_invariant : bucket_invariant fd_table_initial :=
  create_invariant true 4096 "readmapFD".toList none 4 fd_table_initial create_fd_table

/-- What a registration that returns leaves of the table pointer and the
counters: the pointer stays set or stays null, the counters and both flags do
not move. -/
theorem create_file_state_frame (NDEBUG : Bool) (σ : process_state) (fd flags : Int)
    (st : stat_reading) (ms : Nat) (clock : clock_reading) (me : Bool) (r : create_result)
    (h : readmap_create_file_state NDEBUG σ fd flags st ms clock me = Except.ok r) :
    r.state.fd_lookup_table.isSome = σ.fd_lookup_table.isSome ∧
      r.state.readmap_initialized = σ.readmap_initialized ∧
      r.state.shutdown_called = σ.shutdown_called ∧
      r.state.tables_created = σ.tables_created ∧
      r.state.tables_destroyed = σ.tables_destroyed := by
  unfold readmap_create_file_state at h
  simp only [bind, Except.bind, pure, Except.pure] at h
  split at h
  · cases h
  · split at h
    · cases h; exact ⟨rfl, rfl, rfl, rfl, rfl⟩
    · split at h
      · cases h; exact ⟨rfl, rfl, rfl, rfl, rfl⟩
      · split at h
        · cases h
        · split at h
          · cases h
          · rename_i t ht
            split at h
            · cases h
            · split at h
              · cases h; exact ⟨by simp [ht], rfl, rfl, rfl, rfl⟩
              · cases h; exact ⟨by simp [ht], rfl, rfl, rfl, rfl⟩

theorem delete_file_state_frame (NDEBUG : Bool) (σ σ2 : process_state) (p : Nat)
    (h : readmap_delete_file_state NDEBUG σ p = Except.ok σ2) :
    σ2.fd_lookup_table.isSome = σ.fd_lookup_table.isSome ∧
      σ2.readmap_initialized = σ.readmap_initialized ∧
      σ2.shutdown_called = σ.shutdown_called ∧
      σ2.tables_created = σ.tables_created ∧
      σ2.tables_destroyed = σ.tables_destroyed := by
  unfold readmap_delete_file_state at h
  simp only [bind, Except.bind, pure, Except.pure] at h
  split at h
  · cases h
  · split at h
    · cases h
    · split at h
      · cases h
      · rename_i t ht
        split at h
        · cases h
        · split at h
          · cases h
          · split at h
            · cases h; exact ⟨by simp [ht], rfl, rfl, rfl, rfl⟩
            · cases h; exact ⟨by simp [ht], rfl, rfl, rfl, rfl⟩

/-! ## The two-layer invariant -/

theorem heap_read_mem (heap : List (Nat × readmap_file_state)) (a : Nat)
    (s : readmap_file_state) (h : heap_read heap a = some s) : (a, s) ∈ heap := by
  unfold heap_read at h
  rw [Option.map_eq_some'] at h
  obtain ⟨cell, hf, hs⟩ := h
  have hm := List.mem_of_find?_eq_some hf
  have hp := List.find?_some hf
  simp only [beq_iff_eq] at hp
  obtain ⟨c1, c2⟩ := cell
  simp only at hp hs
  subst hp; subst hs
  exact hm

theorem heap_read_of_mem (heap : List (Nat × readmap_file_state)) (a : Nat)
    (s : readmap_file_state) (hnd : (heap.map Prod.fst).Nodup) (h : (a, s) ∈ heap) :
    heap_read heap a = some s := by
  induction heap with
  | nil => cases h
  | cons c rest ih =>
    obtain ⟨c1, c2⟩ := c
    simp only [List.map_cons, List.nodup_cons] at hnd
    rcases List.mem_cons.mp h with heq | hin
    · cases heq
      simp [heap_read]
    · have hne : c1 ≠ a := by
        intro hca
        subst hca
        exact hnd.1 (List.mem_map.mpr ⟨(c1, s), hin, rfl⟩)
      have := ih hnd.2 hin
      simp only [heap_read, List.find?, beq_iff_eq] at this ⊢
      have hb : (c1 == a) = false := by simpa using hne
      simp only [hb]
      exact this

theorem heap_read_none_not_mem (heap : List (Nat × readmap_file_state)) (a : Nat)
    (h : heap_read heap a = none) : a ∉ heap.map Prod.fst := by
  intro hin
  obtain ⟨cell, hc, hca⟩ := List.mem_map.mp hin
  unfold heap_read at h
  rw [Option.map_eq_none'] at h
  have := List.find?_eq_none.mp h cell hc
  simp [hca] at this

theorem mem_heap_free (heap : List (Nat × readmap_file_state)) (a : Nat)
    (c : Nat × readmap_file_state) : c ∈ heap_free heap a ↔ c ∈ heap ∧ c.1 ≠ a := by
  simp [heap_free]

theorem mem_heap_write (heap : List (Nat × readmap_file_state)) (a : Nat)
    (v : readmap_file_state) (c : Nat × readmap_file_state) :
    c ∈ heap_write heap a v ↔
      (c ∈ heap ∧ c.1 ≠ a) ∨ (c = (a, v) ∧ ∃ s, (a, s) ∈ heap) := by
  unfold heap_write
  rw [List.mem_map]
  constructor
  · rintro ⟨x, hx, hxc⟩
    by_cases hxa : x.1 = a
    · rw [if_pos hxa] at hxc
      right
      refine ⟨hxc.symm, x.2, ?_⟩
      rw [← hxa]; exact hx
    · rw [if_neg hxa] at hxc
      left
      rw [← hxc]; exact ⟨hx, hxa⟩
  · rintro (⟨hc, hca⟩ | ⟨hc, s, hs⟩)
    · exact ⟨c, hc, by rw [if_neg hca]⟩
    · exact ⟨(a, s), hs, by rw [if_pos rfl, hc]⟩

theorem heap_write_fst (heap : List (Nat × readmap_file_state)) (a : Nat)
    (v : readmap_file_state) : (heap_write heap a v).map Prod.fst = heap.map Prod.fst := by
  unfold heap_write
  rw [List.map_map]
  apply List.map_congr_left
  intro x _
  simp only [Function.comp]
  split
  · rename_i h; exact h.symm
  · rfl

theorem heap_free_nodup (heap : List (Nat × readmap_file_state)) (a : Nat)
    (hnd : (heap.map Prod.fst).Nodup) : ((heap_free heap a).map Prod.fst).Nodup := by
  unfold heap_free
  exact List.Nodup.sublist (List.Sublist.map _ (List.filter_sublist heap)) hnd

/-- A lookup result is fixed by its status and value: the table it carries is the
table looked at. -/
theorem lookup_of_outcome (t : lookup_table) (k : List Nat) (st obj : Nat)
    (h : (lookup_table_lookup t k).map lookup_result.outcome = some (st, obj)) :
    lookup_table_lookup t k = some { status := st, Object := obj, Table := t } := by
  cases hl : lookup_table_lookup t k with
  | none => simp [hl] at h
  | some x =>
    have hx := lookup_table_unchanged t k x hl
    simp only [hl, Option.map_some', lookup_result.outcome, Option.some.injEq,
      Prod.mk.injEq] at h
    obtain ⟨x1, x2, x3⟩ := x
    simp only at hx h
    obtain ⟨h1, h2⟩ := h
    subst h1; subst h2; subst hx
    rfl

/-- The pointer a lookup returns, once the table pointer is set and the hash has
returned bucket `b`. -/
theorem lookup_file_state_spec (σ : process_state) (t : lookup_table) (fd : Int) (b : Nat)
    (hT : σ.fd_lookup_table = some t) (hb : lookup_table_hash t (fd_key fd) = some b) :
    readmap_lookup_file_state σ fd = Except.ok
      ((match list_for_each_locked (fd_key fd) t.KeySize (bucket t b) 0 with
        | some q => q.entry.Object
        | none => NULL), σ) := by
  have heta := process_state_table_eta σ t hT
  unfold readmap_lookup_file_state
  simp only [hT, lookup_spec t (fd_key fd) b hb]
  cases hsc : list_for_each_locked (fd_key fd) t.KeySize (bucket t b) 0 with
  | some q => simp [pure, Except.pure, heta]
  | none => simp [pure, Except.pure, heta, ENODATA]

theorem lookup_file_state_unchanged (σ σ2 : process_state) (fd : Int) (p : Nat)
    (h : readmap_lookup_file_state σ fd = Except.ok (p, σ2)) : σ2 = σ := by
  unfold readmap_lookup_file_state at h
  split at h
  · cases h; rfl
  · rename_i t hT
    split at h
    · cases h
    · rename_i r hr
      have hrt := lookup_table_unchanged t (fd_key fd) r hr
      have heta := process_state_table_eta σ t hT
      split at h
      · cases h; rw [hrt]; exact heta
      · cases h; rw [hrt]; exact heta

/-- A live file state found by the table: the lookup of its `fd` returns its
address. -/
theorem lookup_file_state_of_table (σ : process_state) (t : lookup_table) (fd : Int) (a : Nat)
    (hT : σ.fd_lookup_table = some t)
    (h : lookup_table_lookup t (fd_key fd) = some { status := 0, Object := a, Table := t }) :
    readmap_lookup_file_state σ fd = Except.ok (a, σ) := by
  have heta := process_state_table_eta σ t hT
  unfold readmap_lookup_file_state
  simp [hT, h, pure, Except.pure, heta]

/-- The two ways a registration can return: `NULL` with the process state as it
was, or the fresh address with the entry appended to the bucket of the key and
the new state added to the heap. -/
theorem create_file_state_cases (NDEBUG : Bool) (σ : process_state) (t : lookup_table)
    (fd flags : Int) (st : stat_reading) (ms : Nat) (clock : clock_reading) (me : Bool)
    (b : Nat) (r : create_result) (hT : σ.fd_lookup_table = some t)
    (hb : lookup_table_hash t (fd_key fd) = some b)
    (h : readmap_create_file_state NDEBUG σ fd flags st ms clock me = Except.ok r) :
    (r.file_state = NULL ∧ r.state = σ) ∨
    (r.file_state = ms ∧ ms ≠ NULL ∧ me = true ∧
      list_for_each_locked (fd_key fd) t.KeySize (bucket t b) 0 = none ∧
      r.state = { σ with
        fd_lookup_table := some (set_bucket t b
          (bucket t b ++ [{ Object := ms, Key := memcpy (fd_key fd) t.KeySize }]))
        heap := (ms, { fd := fd, check_size := 0, mapped := 0, flags := flags
                       mode := st.st_mode, map_location := 0, hash := 0, cached_size := 0
                       check_time := clock.value }) :: σ.heap }) := by
  by_cases hclock : NDEBUG = true ∨ clock.status = 0
  · rw [create_file_state_spec NDEBUG σ t fd flags st ms clock me b hT hb hclock] at h
    by_cases h1 : S_ISREG st.st_mode = false ∨ ms = NULL
    · rw [if_pos h1] at h
      cases h
      exact Or.inl ⟨rfl, rfl⟩
    · rw [if_neg h1] at h
      have hms : ms ≠ NULL := fun hh => h1 (Or.inr hh)
      by_cases h2 : me = true ∧ list_for_each_locked (fd_key fd) t.KeySize (bucket t b) 0 = none
      · rw [if_pos h2] at h
        cases h
        exact Or.inr ⟨rfl, hms, h2.1, h2.2, rfl⟩
      · rw [if_neg h2] at h
        cases h
        exact Or.inl ⟨rfl, rfl⟩
  · have hnd : NDEBUG = false := by
      cases NDEBUG with
      | true => exact absurd (Or.inl rfl) hclock
      | false => rfl
    have hcs : ¬ clock.status = 0 := fun hh => hclock (Or.inr hh)
    subst hnd
    unfold readmap_create_file_state at h
    simp only [hT, Option.isSome_some, c_assert, Bool.false_or, if_true, bind, Except.bind,
      pure, Except.pure] at h
    by_cases hreg : S_ISREG st.st_mode = true
    · by_cases hms : ms = NULL
      · simp [hreg, hms] at h
        left
        rw [← h]
        exact ⟨rfl, rfl⟩
      · simp [hreg, hms, hcs] at h
    · simp [hreg] at h
      left
      rw [← h]
      exact ⟨rfl, rfl⟩

theorem fd_key_eq_of_memcmp (fd1 fd2 : Int) (h : memcmp (fd_key fd1) (fd_key fd2) 4 = 0) :
    fd_key fd1 = fd_key fd2 :=
  memcmp_zero_eq_of_length _ _ 4 (fd_key_length fd1) (fd_key_length fd2) h

theorem memcpy_fd_key (fd : Int) : memcpy (fd_key fd) 4 = fd_key fd := rfl

theorem create_manager_invariant (NDEBUG : Bool) (σ : process_state)
    (fd flags : Int) (st : stat_reading) (ms : Nat) (clock : clock_reading) (me : Bool)
    (r : create_result) (hinv : manager_invariant σ)
    (hfresh : ms = NULL ∨ heap_read σ.heap ms = none)
    (h : readmap_create_file_state NDEBUG σ fd flags st ms clock me = Except.ok r) :
    manager_invariant r.state := by
  obtain ⟨t, hT, hbi, hH, hK, hnd, hcells, hentries⟩ := hinv
  obtain ⟨b, hb⟩ := fd_table_hash_some t hH hK fd
  rcases create_file_state_cases NDEBUG σ t fd flags st ms clock me b r hT hb h with
    ⟨_, hst⟩ | ⟨_, hms, hme, hsc, hst⟩
  · rw [hst]
    exact ⟨t, hT, hbi, hH, hK, hnd, hcells, hentries⟩
  · subst hme
    have hlt := wf_hash_lt_length t hbi.1 (fd_key fd) b hb
    have hins : lookup_table_insert true t (fd_key fd) ms = some
        { status := 0
          Table := set_bucket t b
            (bucket t b ++ [{ Object := ms, Key := memcpy (fd_key fd) t.KeySize }])
          freed := [] } := by
      rw [insert_spec true t (fd_key fd) ms b hb, hsc]
      rfl
    have hfr : heap_read σ.heap ms = none := by
      rcases hfresh with hf | hf
      · exact absurd hf hms
      · exact hf
    rw [hst]
    refine ⟨_, rfl, ?_, hH, hK, ?_, ?_, ?_⟩
    · exact insert_invariant true t (fd_key fd) ms _ hbi (by rw [hK]; rfl) hins
    · simp only [List.map_cons, List.nodup_cons]
      exact ⟨heap_read_none_not_mem σ.heap ms hfr, hnd⟩
    · intro a s hmem
      rcases List.mem_cons.mp hmem with heq | hin
      · cases heq
        exact ⟨hms, lookup_after_insert_ok true t (fd_key fd) ms _ hbi.1 hins rfl⟩
      · obtain ⟨ha, hl⟩ := hcells a s hin
        refine ⟨ha, ?_⟩
        have hne : memcmp (fd_key fd) (fd_key s.fd) t.KeySize ≠ 0 := by
          intro hz
          rw [hK] at hz
          have hk := fd_key_eq_of_memcmp fd s.fd hz
          rw [← hk, lookup_spec t (fd_key fd) b hb, hsc] at hl
          simp [ENODATA] at hl
        have hout := lookup_outcome_after_insert true t (fd_key fd) (fd_key s.fd) ms _ hne hins
        rw [hl] at hout
        exact lookup_of_outcome _ _ 0 a hout
    · intro i e he
      by_cases hib : b = i
      · subst hib
        rw [bucket_set_bucket_same t b _ hlt, List.mem_append, List.mem_singleton] at he
        rcases he with he | he
        · obtain ⟨s, hs, hk⟩ := hentries b e he
          exact ⟨s, List.mem_cons_of_mem _ hs, hk⟩
        · subst he
          exact ⟨_, List.mem_cons_self _ _, by rw [hK]; rfl⟩
      · rw [bucket_set_bucket_ne t b i _ hib] at he
        obtain ⟨s, hs, hk⟩ := hentries i e he
        exact ⟨s, List.mem_cons_of_mem _ hs, hk⟩

/-- Deleting a live file state under the two-layer invariant: the remove inside
finds the entry, so the call returns in either build, with the entry unlinked and
the state freed; the invariant still holds, the `fd` of the deleted state is no
longer found, and every other live state is still found under its `fd`. -/
theorem delete_file_state_live (NDEBUG : Bool) (σ : process_state) (a : Nat)
    (s : readmap_file_state) (hinv : manager_invariant σ) (hmem : (a, s) ∈ σ.heap) :
    ∃ σ2, readmap_delete_file_state NDEBUG σ a = Except.ok σ2 ∧
      manager_invariant σ2 ∧ σ2.heap = heap_free σ.heap a ∧
      readmap_lookup_file_state σ2 s.fd = Except.ok (NULL, σ2) ∧
      ∀ a2 s2, (a2, s2) ∈ σ.heap → a2 ≠ a →
        readmap_lookup_file_state σ2 s2.fd = Except.ok (a2, σ2) := by
  obtain ⟨t, hT, hbi, hH, hK, hnd, hcells, hentries⟩ := hinv
  obtain ⟨b, hb⟩ := fd_table_hash_some t hH hK s.fd
  have hlt := wf_hash_lt_length t hbi.1 (fd_key s.fd) b hb
  obtain ⟨ha, hl⟩ := hcells a s hmem
  have hread := heap_read_of_mem σ.heap a s hnd hmem
  cases hsc : list_for_each_locked (fd_key s.fd) t.KeySize (bucket t b) 0 with
  | none =>
    rw [lookup_spec t (fd_key s.fd) b hb, hsc] at hl
    simp [ENODATA] at hl
  | some q =>
    have hrem : lookup_table_remove t (fd_key s.fd) = some
        { status := 0, Table := set_bucket t b ((bucket t b).eraseIdx q.pos)
          freed := [q.entry] } := by
      rw [remove_spec t (fd_key s.fd) b hb, hsc]
    have hnone := scan_eraseIdx_found (fd_key s.fd) t.KeySize (bucket t b) 0 0 q
      (hbi.2.2 b hlt) hsc
    simp only [Nat.sub_zero] at hnone
    rw [scan_eq_none_iff] at hnone
    have hbi2 := remove_invariant t (fd_key s.fd) _ hbi hrem
    have hlook2 := lookup_after_remove_ok t (fd_key s.fd) _ hbi hrem rfl
    have hdel : readmap_delete_file_state NDEBUG σ a = Except.ok
        { σ with fd_lookup_table := some (set_bucket t b ((bucket t b).eraseIdx q.pos))
                 heap := heap_free σ.heap a } := by
      unfold readmap_delete_file_state
      simp [hT, hread, hrem, c_assert, bind, Except.bind, pure, Except.pure]
    refine ⟨_, hdel, ⟨_, rfl, hbi2, hH, hK, heap_free_nodup σ.heap a hnd, ?_, ?_⟩, rfl, ?_, ?_⟩
    · intro a2 s2 hm2
      rw [mem_heap_free] at hm2
      obtain ⟨hm2, hne2⟩ := hm2
      obtain ⟨ha2, hl2⟩ := hcells a2 s2 hm2
      refine ⟨ha2, ?_⟩
      have hne : memcmp (fd_key s.fd) (fd_key s2.fd) t.KeySize ≠ 0 := by
        intro hz
        rw [hK] at hz
        have hk := fd_key_eq_of_memcmp s.fd s2.fd hz
        rw [← hk, hl] at hl2
        simp only [Option.some.injEq, lookup_result.mk.injEq, true_and, and_true] at hl2
        exact hne2 hl2.symm
      have hout := lookup_outcome_after_remove t (fd_key s.fd) (fd_key s2.fd) _ hne hrem
      rw [hl2] at hout
      exact lookup_of_outcome _ _ 0 a2 hout
    · intro i e he
      have hki : ∀ e2 ∈ bucket t i, e2.Object = a → e2.Key = fd_key s.fd := by
        intro e2 he2 hobj
        obtain ⟨s2, hs2, hk2⟩ := hentries i e2 he2
        rw [hobj] at hs2
        have h1 := heap_read_of_mem σ.heap a s2 hnd hs2
        rw [hread] at h1
        cases h1
        exact hk2
      by_cases hib : b = i
      · subst hib
        rw [bucket_set_bucket_same t b _ hlt] at he
        have he0 := List.mem_of_mem_eraseIdx he
        obtain ⟨s2, hs2, hk2⟩ := hentries b e he0
        refine ⟨s2, ?_, hk2⟩
        rw [mem_heap_free]
        refine ⟨hs2, ?_⟩
        intro hobj
        have hkey := hki e he0 hobj
        apply hnone e he
        rw [hkey, memcmp_eq_zero_iff]
      · rw [bucket_set_bucket_ne t b i _ hib] at he
        obtain ⟨s2, hs2, hk2⟩ := hentries i e he
        refine ⟨s2, ?_, hk2⟩
        rw [mem_heap_free]
        refine ⟨hs2, ?_⟩
        intro hobj
        have hkey := hki e he hobj
        have hi := mem_bucket_length t i e he
        have hh := (hbi.2.1 i hi e he).2
        rw [hkey, hb] at hh
        exact hib (Option.some.inj hh)
    · exact lookup_file_state_spec _ _ s.fd b rfl
        (by rw [lookup_table_hash_set_bucket]; exact hb) |>.trans (by
          have hks : (set_bucket t b ((bucket t b).eraseIdx q.pos)).KeySize = t.KeySize := rfl
          rw [hks, bucket_set_bucket_same t b _ hlt,
            (scan_eq_none_iff (fd_key s.fd) t.KeySize _ 0).mpr hnone])
    · intro a2 s2 hm2 hne2
      obtain ⟨ha2, hl2⟩ := hcells a2 s2 hm2
      have hne : memcmp (fd_key s.fd) (fd_key s2.fd) t.KeySize ≠ 0 := by
        intro hz
        rw [hK] at hz
        have hk := fd_key_eq_of_memcmp s.fd s2.fd hz
        rw [← hk, hl] at hl2
        simp only [Option.some.injEq, lookup_result.mk.injEq, true_and, and_true] at hl2
        exact hne2 hl2.symm
      have hout := lookup_outcome_after_remove t (fd_key s.fd) (fd_key s2.fd) _ hne hrem
      rw [hl2] at hout
      exact lookup_file_state_of_table _ _ s2.fd a2 rfl (lookup_of_outcome _ _ 0 a2 hout)

theorem delete_file_state_ok_live (NDEBUG : Bool) (σ σ2 : process_state) (p : Nat)
    (h : readmap_delete_file_state NDEBUG σ p = Except.ok σ2) :
    ∃ s, heap_read σ.heap p = some s := by
  cases hr : heap_read σ.heap p with
  | some s => exact ⟨s, rfl⟩
  | none =>
    unfold readmap_delete_file_state at h
    simp only [hr, bind, Except.bind] at h
    split at h <;> cases h

theorem delete_manager_invariant (NDEBUG : Bool) (σ σ2 : process_state) (p : Nat)
    (hinv : manager_invariant σ) (h : readmap_delete_file_state NDEBUG σ p = Except.ok σ2) :
    manager_invariant σ2 := by
  obtain ⟨s, hs⟩ := delete_file_state_ok_live NDEBUG σ σ2 p h
  obtain ⟨σ3, h3, hinv3, _⟩ :=
    delete_file_state_live NDEBUG σ p s hinv (heap_read_mem σ.heap p s hs)
  rw [h] at h3
  cases h3
  exact hinv3

theorem update_size_fd (NDEBUG : Bool) (s : readmap_file_state) (st : stat_reading)
    (clock : clock_reading) (r : readmap_file_state × List sys_call)
    (h : readmap_update_size NDEBUG s st clock = Except.ok r) : r.1.fd = s.fd := by
  unfold readmap_update_size at h
  simp only [bind, Except.bind, pure, Except.pure] at h
  split at h
  · cases h
  · split at h
    · cases h
    · split at h
      · cases h
      · cases h; rfl

/-- `readmap_get_size` never changes the `fd` of the state it is given. -/
theorem get_size_fd (NDEBUG : Bool) (s : readmap_file_state) (c1 : clock_reading)
    (st : stat_reading) (c2 : clock_reading) (r : get_size_result)
    (h : readmap_get_size NDEBUG s c1 st c2 = Except.ok r) : r.file_state.fd = s.fd := by
  unfold readmap_get_size at h
  simp only [bind, Except.bind, pure, Except.pure] at h
  split at h
  · cases h
  · split at h
    · cases h
    · split at h
      · split at h
        · cases h
        · rename_i u hu
          cases h
          exact update_size_fd NDEBUG s st c2 u hu
      · cases h; rfl

theorem get_size_at_manager_invariant (NDEBUG : Bool) (σ σ2 : process_state) (p : Nat)
    (c1 : clock_reading) (st : stat_reading) (c2 : clock_reading) (n : Nat)
    (hinv : manager_invariant σ)
    (h : readmap_get_size_at NDEBUG σ p c1 st c2 = Except.ok (n, σ2)) :
    manager_invariant σ2 := by
  obtain ⟨t, hT, hbi, hH, hK, hnd, hcells, hentries⟩ := hinv
  unfold readmap_get_size_at at h
  cases hr : heap_read σ.heap p with
  | none => simp [hr] at h
  | some s =>
    simp only [hr, bind, Except.bind, pure, Except.pure] at h
    cases hg : readmap_get_size NDEBUG s c1 st c2 with
    | error e => simp [hg] at h
    | ok r =>
      simp only [hg, Except.ok.injEq, Prod.mk.injEq] at h
      obtain ⟨_, h2⟩ := h
      have hfd := get_size_fd NDEBUG s c1 st c2 r hg
      have hps := heap_read_mem σ.heap p s hr
      rw [← h2]
      refine ⟨t, hT, hbi, hH, hK, ?_, ?_, ?_⟩
      · show ((heap_write σ.heap p r.file_state).map Prod.fst).Nodup
        rw [heap_write_fst]; exact hnd
      · intro a s2 hm
        have hm2 : (a, s2) ∈ heap_write σ.heap p r.file_state := hm
        rw [mem_heap_write] at hm2
        rcases hm2 with ⟨hin, _⟩ | ⟨heq, _⟩
        · exact hcells a s2 hin
        · cases heq
          rw [hfd]
          exact hcells p s hps
      · intro i e he
        obtain ⟨s0, hs0, hk0⟩ := hentries i e he
        by_cases hobj : e.Object = p
        · rw [hobj] at hs0
          have h1 := heap_read_of_mem σ.heap p s0 hnd hs0
          rw [hr] at h1
          cases h1
          refine ⟨r.file_state, ?_, by rw [hfd]; exact hk0⟩
          show (e.Object, r.file_state) ∈ heap_write σ.heap p r.file_state
          rw [mem_heap_write, hobj]
          exact Or.inr ⟨rfl, s, hps⟩
        · refine ⟨s0, ?_, hk0⟩
          show (e.Object, s0) ∈ heap_write σ.heap p r.file_state
          rw [mem_heap_write]
          exact Or.inl ⟨hs0, hobj⟩

theorem bucket_fd_table_initial (i : Nat) : bucket fd_table_initial i = [] := by
  simp only [bucket, fd_table_initial, List.getD_eq_getElem?_getD, List.getElem?_replicate]
  split <;> rfl

theorem init_manager_invariant (σ0 σ : process_state) (h0 : σ0.fd_lookup_table = none)
    (hh : σ0.heap = []) (h : readmap_init_file_state_mgr true σ0 = (0, σ)) :
    manager_invariant σ := by
  rw [(init_file_state_mgr_null σ0 h0).1] at h
  simp only [Prod.mk.injEq, true_and] at h
  rw [← h]
  refine ⟨fd_table_initial, rfl, fd_table_initial_invariant, rfl, rfl, ?_, ?_, ?_⟩
  · show (σ0.heap.map Prod.fst).Nodup
    rw [hh]; exact List.nodup_nil
  · intro a s hm
    have hm2 : (a, s) ∈ σ0.heap := hm
    rw [hh] at hm2
    cases hm2
  · intro i e he
    rw [bucket_fd_table_initial] at he
    cases he

theorem manager_reachable_invariant (NDEBUG : Bool) (σ : process_state)
    (h : manager_reachable NDEBUG σ) : manager_invariant σ := by
  induction h with
  | init σ0 σ h0 hh h => exact init_manager_invariant σ0 σ h0 hh h
  | create σ fd flags st ms clock me r _ hfresh hr ih =>
    exact create_manager_invariant NDEBUG σ fd flags st ms clock me r ih hfresh hr
  | lookup σ fd p σ2 _ hr ih =>
    rw [lookup_file_state_unchanged σ σ2 fd p hr]; exact ih
  | get_size σ p c1 st c2 n σ2 _ hr ih =>
    exact get_size_at_manager_invariant NDEBUG σ σ2 p c1 st c2 n ih hr
  | delete σ p σ2 _ hr ih => exact delete_manager_invariant NDEBUG σ σ2 p ih hr

/-- Two `int` values with the same four key bytes are equal. -/
theorem fd_key_injective (fd1 fd2 : Int) (h1 : -2147483648 ≤ fd1 ∧ fd1 < 2147483648)
    (h2 : -2147483648 ≤ fd2 ∧ fd2 < 2147483648) (h : fd_key fd1 = fd_key fd2) : fd1 = fd2 := by
  simp only [fd_key, int_key, List.cons.injEq, and_true] at h
  omega

theorem demo_registered_eq :
    readmap_create_file_state false demo_initialized 3 2 demo_stat 4096 (clock_at 100 0) true =
      Except.ok demo_registered := by
  have hb : lookup_table_hash fd_table_initial (fd_key 3) = some 4092 := by decide
  rw [create_file_state_spec false demo_initialized fd_table_initial 3 2 demo_stat 4096
    (clock_at 100 0) true 4092 rfl hb (Or.inr rfl)]
  have hreg : S_ISREG demo_stat.st_mode = true := by decide
  have hsc : list_for_each_locked (fd_key 3) fd_table_initial.KeySize
      (bucket fd_table_initial 4092) 0 = none := by
    rw [bucket_fd_table_initial]; rfl
  simp only [hreg, hsc, NULL, Bool.true_eq_false, false_or, and_self, if_true]
  rfl

theorem demo_initialized_reachable (NDEBUG : Bool) : manager_reachable NDEBUG demo_initialized :=
  manager_reachable.init process_start demo_initialized rfl rfl
    (init_file_state_mgr_null process_start rfl).1

theorem demo_registered_reachable : manager_reachable false demo_registered.state :=
  manager_reachable.create demo_initialized 3 2 demo_stat 4096 (clock_at 100 0) true
    demo_registered (demo_initialized_reachable false) (Or.inr rfl) demo_registered_eq

/-- After a registration that returned a pointer, a lookup of the descriptor
returns that pointer. -/
theorem lookup_after_create (NDEBUG : Bool) (σ : process_state) (t : lookup_table)
    (fd flags : Int) (st : stat_reading) (ms : Nat) (clock : clock_reading) (me : Bool)
    (r : create_result) (hT : σ.fd_lookup_table = some t) (hwf : lookup_table_wf t)
    (h : readmap_create_file_state NDEBUG σ fd flags st ms clock me = Except.ok r)
    (hr : r.file_state ≠ NULL) :
    readmap_lookup_file_state r.state fd = Except.ok (r.file_state, r.state) := by
  cases hb : lookup_table_hash t (fd_key fd) with
  | none =>
    exfalso
    unfold readmap_create_file_state at h
    simp only [hT, lookup_table_insert, hb, bind, Except.bind, pure, Except.pure] at h
    split at h
    · cases h
    · split at h
      · cases h; exact hr rfl
      · split at h
        · cases h; exact hr rfl
        · split at h
          · cases h
          · cases h
  | some b =>
    rcases create_file_state_cases NDEBUG σ t fd flags st ms clock me b r hT hb h with
      ⟨hn, _⟩ | ⟨hfs, _, hme, hsc, hst⟩
    · exact absurd hn hr
    · subst hme
      have hins : lookup_table_insert true t (fd_key fd) ms = some
          { status := 0
            Table := set_bucket t b
              (bucket t b ++ [{ Object := ms, Key := memcpy (fd_key fd) t.KeySize }])
            freed := [] } := by
        rw [insert_spec true t (fd_key fd) ms b hb, hsc]
        rfl
      have hl := lookup_after_insert_ok true t (fd_key fd) ms _ hwf hins rfl
      rw [hst, hfs]
      exact lookup_file_state_of_table _ _ fd ms rfl hl

/-- Under the two-layer invariant a descriptor with no registered state is not
found. -/
theorem lookup_unregistered (σ : process_state) (fd : Int) (hinv : manager_invariant σ)
    (hno : ¬ registered σ fd) : readmap_lookup_file_state σ fd = Except.ok (NULL, σ) := by
  obtain ⟨t, hT, hbi, hH, hK, _, _, hentries⟩ := hinv
  obtain ⟨b, hb⟩ := fd_table_hash_some t hH hK fd
  rw [lookup_file_state_spec σ t fd b hT hb]
  cases hsc : list_for_each_locked (fd_key fd) t.KeySize (bucket t b) 0 with
  | none => rfl
  | some q =>
    exfalso
    obtain ⟨_, h2, h3, _⟩ := scan_some_spec (fd_key fd) t.KeySize (bucket t b) 0 q hsc
    have hmem : q.entry ∈ bucket t b := List.getElem?_mem h2
    obtain ⟨s, hs, hk⟩ := hentries b q.entry hmem
    apply hno
    refine ⟨q.entry.Object, s, hs, ?_⟩
    rw [hk, hK] at h3
    exact (fd_key_eq_of_memcmp fd s.fd h3).symm

theorem init_spec (m : Bool) (σ : process_state) :
    readmap_init m σ =
      if σ.readmap_initialized = true then σ
      else if σ.fd_lookup_table.isSome = true then { σ with readmap_initialized := true }
      else if m = true then
        { σ with readmap_initialized := true, fd_lookup_table := some fd_table_initial
                 tables_created := σ.tables_created + 1 }
      else { σ with readmap_initialized := true } := by
  unfold readmap_init readmap_init_internal
  by_cases hi : σ.readmap_initialized = true
  · simp [hi]
  · simp only [hi, if_false, Bool.false_eq_true]
    cases hT : σ.fd_lookup_table with
    | some t =>
      rw [init_file_state_mgr_set m _ t rfl]
      simp
    | none =>
      cases m with
      | true =>
        rw [(init_file_state_mgr_null _ rfl).1]
        simp [hT]
      | false =>
        rw [(init_file_state_mgr_null _ rfl).2]
        simp

theorem shutdown_spec (σ : process_state) :
    readmap_shutdown σ =
      if σ.shutdown_called = true then σ
      else if σ.fd_lookup_table.isSome = true then
        { σ with fd_lookup_table := none, tables_destroyed := σ.tables_destroyed + 1
                 shutdown_called := true }
      else { σ with shutdown_called := true } := by
  unfold readmap_shutdown readmap_terminate_file_state_mgr
  by_cases hs : σ.shutdown_called = true
  · simp [hs]
  · have hf : σ.shutdown_called = false := by simpa using hs
    simp only [hf, if_true, Bool.false_eq_true, if_false]
    cases hT : σ.fd_lookup_table with
    | some t => simp
    | none => simp [hT]

theorem lifecycle_reachable_invariant (NDEBUG : Bool) (σ : process_state)
    (h : lifecycle_reachable NDEBUG σ) : lifecycle_invariant σ := by
  induction h with
  | start => simp [lifecycle_invariant, process_start]
  | init m σ _ ih =>
    obtain ⟨h1, h2, h3, h4, h5⟩ := ih
    rw [init_spec]
    by_cases hi : σ.readmap_initialized = true
    · rw [if_pos hi]; exact ⟨h1, h2, h3, h4, h5⟩
    · rw [if_neg hi]
      have hf : σ.readmap_initialized = false := by simpa using hi
      obtain ⟨hc0, hT0⟩ := h2 hf
      have hT1 : ¬ σ.fd_lookup_table.isSome = true := by simp [hT0]
      rw [if_neg hT1]
      have hd0 : σ.tables_destroyed = 0 := by omega
      cases m with
      | true =>
        simp only [if_true, lifecycle_invariant, hc0, hd0]
        simp
      | false =>
        simp only [Bool.false_eq_true, if_false, lifecycle_invariant, hc0, hd0, hT0]
        simp
  | shutdown σ _ ih =>
    obtain ⟨h1, h2, h3, h4, h5⟩ := ih
    rw [shutdown_spec]
    by_cases hs : σ.shutdown_called = true
    · rw [if_pos hs]; exact ⟨h1, h2, h3, h4, h5⟩
    · rw [if_neg hs]
      by_cases hT : σ.fd_lookup_table.isSome = true
      · rw [if_pos hT]
        obtain ⟨hc1, hd0⟩ := h3 hT
        refine ⟨h1, ?_, ?_, ?_, ?_⟩
        · intro hi
          have := (h2 hi).2
          simp [this] at hT
        · intro hx; simp at hx
        · show σ.tables_destroyed + 1 ≤ σ.tables_created
          omega
        · intro hx; simp at hx
      · rw [if_neg hT]
        refine ⟨h1, h2, fun hx => absurd hx hT, h4, ?_⟩
        intro hx; simp at hx
  | create σ fd flags st ms clock me r _ hr ih =>
    obtain ⟨f1, f2, f3, f4, f5⟩ := create_file_state_frame NDEBUG σ fd flags st ms clock me r hr
    unfold lifecycle_invariant
    rw [f1, f2, f3, f4, f5]
    exact ih
  | delete σ p σ2 _ hr ih =>
    obtain ⟨f1, f2, f3, f4, f5⟩ := delete_file_state_frame NDEBUG σ σ2 p hr
    unfold lifecycle_invariant
    rw [f1, f2, f3, f4, f5]
    exact ih

theorem lookup_file_state_null_table (σ : process_state) (fd : Int)
    (h : σ.fd_lookup_table = none) : readmap_lookup_file_state σ fd = Except.ok (NULL, σ) := by
  simp [readmap_lookup_file_state, h, pure, Except.pure]

theorem demo_late_init_eq :
    demo_late_init = { process_start with
      readmap_initialized := true, shutdown_called := true
      fd_lookup_table := some fd_table_initial, tables_created := 1 } := by
  unfold demo_late_init
  rw [shutdown_spec, init_spec]
  simp [process_start]

/-- With the table installed and the underlying `open` found, `readmap_open`
hands back the value of the underlying `open`; a negative value goes back without
a registration, a descriptor goes back after a registration whose outcome is
dropped. -/
theorem open_spec (NDEBUG : Bool) (σ : process_state) (t : lookup_table) (v flags : Int)
    (st : stat_reading) (ms : Nat) (clock : clock_reading) (me : Bool)
    (hT : σ.fd_lookup_table = some t) (hH : t.Hash = default_hash) (hK : t.KeySize = 4)
    (hclock : NDEBUG = true ∨ clock.status = 0) :
    ∃ r, readmap_open NDEBUG σ (some v) flags st ms clock me = Except.ok r ∧ r.result = v ∧
      (v < 0 → r.registration = none ∧ r.state = σ) ∧
      (0 ≤ v → ∃ c, readmap_create_file_state NDEBUG σ v flags st ms clock me = Except.ok c ∧
        r.registration = some c.file_state ∧ r.state = c.state) := by
  obtain ⟨b, hb⟩ := fd_table_hash_some t hH hK v
  obtain ⟨c, hc, _, _⟩ :=
    create_file_state_null_iff NDEBUG σ t v flags st ms clock me b hT hb hclock
  have hfin : fin_open NDEBUG (some v) = Except.ok v := by
    simp [fin_open, c_assert, bind, Except.bind, pure, Except.pure]
  unfold readmap_open internal_open
  simp only [hfin, bind, Except.bind, pure, Except.pure]
  by_cases hv : v < 0
  · rw [if_pos hv]
    exact ⟨_, rfl, rfl, fun _ => ⟨rfl, rfl⟩, fun h0 => absurd h0 (by omega)⟩
  · rw [if_neg hv, hc]
    exact ⟨_, rfl, rfl, fun h0 => absurd h0 hv, fun _ => ⟨c, rfl, rfl, rfl⟩⟩

theorem demo_late_init_reachable : lifecycle_reachable false demo_late_init :=
  lifecycle_reachable.init true _ (lifecycle_reachable.shutdown _ lifecycle_reachable.start)

/-- A shutdown in a state whose flag is already set changes nothing. -/
theorem shutdown_called_noop (σ : process_state) (h : σ.shutdown_called = true) :
    readmap_shutdown σ = σ := by
  rw [shutdown_spec, if_pos h]

theorem shutdown_sets_flag (σ : process_state) : (readmap_shutdown σ).shutdown_called = true := by
  rw [shutdown_spec]
  by_cases hs : σ.shutdown_called = true
  · rw [if_pos hs]; exact hs
  · rw [if_neg hs]
    split <;> rfl

/-- What two shutdowns do to a lifecycle state that has not been shut down. -/
theorem two_shutdowns_spec (NDEBUG : Bool) (σ : process_state)
    (hr : lifecycle_reachable NDEBUG σ) (hs : σ.shutdown_called = false) :
    readmap_shutdown (readmap_shutdown σ) = readmap_shutdown σ ∧
      (readmap_shutdown σ).fd_lookup_table = none ∧
      (readmap_shutdown σ).tables_destroyed =
        (if σ.fd_lookup_table.isSome = true then 1 else 0) ∧
      (readmap_shutdown σ).tables_destroyed = σ.tables_created ∧
      (readmap_shutdown σ).heap = σ.heap := by
  obtain ⟨h1, _, h3, _, h5⟩ := lifecycle_reachable_invariant NDEBUG σ hr
  obtain ⟨hd0, hc⟩ := h5 hs
  refine ⟨shutdown_called_noop _ (shutdown_sets_flag σ), ?_⟩
  rw [shutdown_spec]
  have hs2 : ¬ σ.shutdown_called = true := by simp [hs]
  rw [if_neg hs2]
  by_cases hT : σ.fd_lookup_table.isSome = true
  · rw [if_pos hT]
    obtain ⟨hc1, _⟩ := h3 hT
    refine ⟨rfl, ?_, ?_, rfl⟩
    · show σ.tables_destroyed + 1 = _
      rw [if_pos hT, hd0]
    · show σ.tables_destroyed + 1 = _
      rw [hd0, hc1]
  · rw [if_neg hT]
    have hnone : σ.fd_lookup_table = none := by
      cases hx : σ.fd_lookup_table with
      | none => rfl
      | some t => simp [hx] at hT
    refine ⟨hnone, ?_, ?_, rfl⟩
    · show σ.tables_destroyed = _
      rw [if_neg hT, hd0]
    · show σ.tables_destroyed = _
      have : σ.tables_created ≠ 1 := fun h => hT (hc h)
      omega

/-! ## Teardown of a table -/

theorem destroy_chain_loop_spec (chain freed : List lookup_table_entry) :
    destroy_chain_loop chain freed = ([], freed ++ chain) := by
  induction chain generalizing freed with
  | nil => simp [destroy_chain_loop]
  | cons e rest ih => simp [destroy_chain_loop, ih]

theorem destroy_bucket_spec (acc : lookup_table × List lookup_table_entry) (i : Nat) :
    destroy_bucket acc i = (set_bucket acc.1 i [], acc.2 ++ bucket acc.1 i) := by
  simp only [destroy_bucket, destroy_chain_loop_spec]

/-- The outer loop of `lookup_table_destroy` after `n` buckets: the first `n`
chains are empty, the others untouched, and the entries freed are those of the
first `n` chains, in order. -/
theorem destroy_loop_spec (t : lookup_table) (n : Nat) (hn : n ≤ t.TableBuckets.length) :
    ((List.range n).foldl destroy_bucket (t, [])).1.TableBuckets.length =
        t.TableBuckets.length ∧
      (∀ j, bucket ((List.range n).foldl destroy_bucket (t, [])).1 j =
        if j < n then [] else bucket t j) ∧
      ((List.range n).foldl destroy_bucket (t, [])).2 = (t.TableBuckets.take n).flatten := by
  induction n with
  | zero => simp
  | succ n ih =>
    obtain ⟨h1, h2, h3⟩ := ih (by omega)
    rw [List.range_succ, List.foldl_append, List.foldl_cons, List.foldl_nil,
      destroy_bucket_spec]
    refine ⟨?_, ?_, ?_⟩
    · simp only [set_bucket, List.length_set]
      exact h1
    · intro j
      by_cases hj : n = j
      · subst hj
        rw [bucket_set_bucket_same _ n _ (by rw [h1]; omega)]
        simp
      · rw [bucket_set_bucket_ne _ n j _ hj, h2 j]
        by_cases hjn : j < n
        · simp [hjn, Nat.lt_succ_of_lt hjn]
        · have : ¬ j < n + 1 := by omega
          simp [hjn, this]
    · show _ ++ _ = _
      rw [h3, h2 n, List.take_succ, List.flatten_append]
      have hlt : n < t.TableBuckets.length := by omega
      simp [bucket, List.getD_eq_getElem?_getD, List.getElem?_eq_getElem hlt]

/-- What `lookup_table_destroy` leaves of a well-formed table: every chain empty,
every entry of every bucket freed once, in bucket order, and the table freed. -/
theorem destroy_spec (t : lookup_table) (hwf : lookup_table_wf t) :
    (lookup_table_destroy t).TableBuckets.length = t.TableBuckets.length ∧
      (∀ c ∈ (lookup_table_destroy t).TableBuckets, c = []) ∧
      (lookup_table_destroy t).freed = t.TableBuckets.flatten ∧
      (lookup_table_destroy t).table_freed = true := by
  have hpow : 2 ^ t.EntryCountShift ≤ 2 ^ 16 := Nat.pow_le_pow_right (by decide) hwf.1
  have hcount : (1 <<< t.EntryCountShift) % 2 ^ 32 = t.TableBuckets.length := by
    rw [Nat.one_shiftLeft, hwf.2]
    exact Nat.mod_eq_of_lt (by omega)
  obtain ⟨h1, h2, h3⟩ := destroy_loop_spec t t.TableBuckets.length (Nat.le_refl _)
  unfold lookup_table_destroy
  simp only [hcount]
  refine ⟨h1, ?_, ?_, ?_⟩
  · intro c hc
    obtain ⟨j, hj, hcj⟩ := List.getElem_of_mem hc
    have hj2 : j < t.TableBuckets.length := by rw [← h1]; exact hj
    have hb := h2 j
    rw [if_pos hj2] at hb
    simp only [bucket, List.getD_eq_getElem?_getD, List.getElem?_eq_getElem hj,
      Option.getD_some] at hb
    rw [← hcj]
    exact hb
  · rw [h3, List.take_length]
  · first
      | rfl
      | trivial

/-! ## The built-in hash -/

theorem load_u32_eq_key_word (key : List Nat) (j : Nat) (h : 4 * j + 4 ≤ key.length) :
    load_u32 key (4 * j) = some (key_word key j) := by
  have h0 : 4 * j < key.length := by omega
  have h1 : 4 * j + 1 < key.length := by omega
  have h2 : 4 * j + 2 < key.length := by omega
  have h3 : 4 * j + 3 < key.length := by omega
  unfold load_u32 key_word
  rw [List.drop_eq_getElem_cons h0, List.drop_eq_getElem_cons h1,
    List.drop_eq_getElem_cons h2, List.drop_eq_getElem_cons h3]
  simp only [List.getD_eq_getElem?_getD, List.getElem?_eq_getElem h0,
    List.getElem?_eq_getElem h1, List.getElem?_eq_getElem h2, List.getElem?_eq_getElem h3,
    Option.getD_some]

/-- The loop of `default_hash` on a key of `4 * n` bytes, `n ≤ 63`, entered at
word `i` with `m` words to go and more fuel than that, folds those `m` words
into the hash and leaves. -/
theorem default_hash_loop_spec (key : List Nat) (n : Nat) (hlen : key.length = 4 * n)
    (hn : n ≤ 63) (m i h fuel : Nat) (him : i + m = n) (hfuel : m < fuel) :
    default_hash_loop key (4 * n) fuel (4 * i) h =
      some ((List.range' i m).foldl (fun acc j => acc ^^^ key_word key j) h) := by
  induction m generalizing i h fuel with
  | zero =>
    cases fuel with
    | zero => omega
    | succ f =>
      have : ¬ 4 * i < 4 * n := by omega
      simp [default_hash_loop, this]
  | succ m ih =>
    cases fuel with
    | zero => omega
    | succ f =>
      have hlt : 4 * i < 4 * n := by omega
      have hload := load_u32_eq_key_word key i (by omega)
      have hwrap : (4 * i + 4) % 256 = 4 * (i + 1) := by omega
      have hrec := ih (i + 1) (h ^^^ key_word key i) f (by omega) (by omega)
      simp only [default_hash_loop, hlt, if_true, hload, hwrap, hrec, List.range'_succ,
        List.foldl_cons]

theorem default_hash_xor_fold (key : List Nat) (n : Nat) (hlen : key.length = 4 * n)
    (hn : n ≤ 63) : default_hash key (4 * n) = some (xor_fold key n) := by
  have h := default_hash_loop_spec key n hlen hn n 0 4294967295 65 (by omega) (by omega)
  simp only [Nat.mul_zero] at h
  unfold default_hash xor_fold
  rw [h, List.range_eq_range']

/-- XOR with 32 one bits is the 32-bit complement. -/
theorem xor_all_ones (u : Nat) (hu : u < 4294967296) : 4294967295 ^^^ u = 4294967295 - u := by
  have h1 : (4294967295 : Nat) = 2 ^ 32 - 1 := by norm_num
  have h2 : 4294967295 - u = 2 ^ 32 - (u + 1) := by omega
  rw [h2]
  apply Nat.eq_of_testBit_eq
  intro i
  rw [Nat.testBit_xor, h1, Nat.testBit_two_pow_sub_one,
    Nat.testBit_two_pow_sub_succ (by omega : u < 2 ^ 32)]
  by_cases hi : i < 32
  · simp [hi]
  · have hpow : 2 ^ 32 ≤ 2 ^ i := Nat.pow_le_pow_right (by decide) (by omega)
    have hf : u.testBit i = false := Nat.testBit_lt_two_pow (by omega)
    simp [hi, hf]

theorem key_word_fd_key (fd : Int) : key_word (fd_key fd) 0 = (fd % 4294967296).toNat := by
  simp only [key_word, fd_key, int_key, List.getD_cons_zero, List.getD_cons_succ,
    Nat.mul_zero, Nat.zero_add]
  omega

/-- The bucket of a descriptor in the manager's table is `~fd & 4095`; as a
number, `(-fd - 1) mod 4096`. -/
theorem fd_bucket (fd : Int) :
    lookup_table_hash fd_table_initial (fd_key fd) = some ((-fd - 1) % 4096).toNat := by
  have hh := default_hash_xor_fold (fd_key fd) 1 (fd_key_length fd) (by omega)
  have hx : xor_fold (fd_key fd) 1 = 4294967295 ^^^ (fd % 4294967296).toNat := by
    simp [xor_fold, List.range_succ, key_word_fd_key]
  have hu : (fd % 4294967296).toNat < 4294967296 := by omega
  rw [hx, xor_all_ones _ hu] at hh
  have hmask : (1 <<< 12 - 1 : Nat) = 2 ^ 12 - 1 := by decide
  show Option.map _ (default_hash (fd_key fd) 4) = _
  rw [show (4 : Nat) = 4 * 1 from rfl, hh]
  simp only [Option.map_some', Option.some.injEq]
  show ((4294967295 - (fd % 4294967296).toNat) % 2 ^ 32) &&& (1 <<< 12 - 1) = _
  rw [hmask, Nat.and_pow_two_sub_one_eq_mod]
  omega

/-! ## The 8-bit index of the built-in hash -/

/-- Forgetting the step counter gives back the loop of `default_hash`. -/
theorem default_hash_steps_loop_fst (blob : List Nat) (length fuel index hash steps : Nat) :
    (default_hash_steps_loop blob length fuel index hash steps).map Prod.fst =
      default_hash_loop blob length fuel index hash := by
  induction fuel generalizing index hash steps with
  | zero => simp [default_hash_steps_loop, default_hash_loop]
  | succ f ih =>
    by_cases hlt : index < length
    · cases hw : load_u32 blob index with
      | none => simp [default_hash_steps_loop, default_hash_loop, hlt, hw]
      | some w => simp [default_hash_steps_loop, default_hash_loop, hlt, hw, ih]
    · simp [default_hash_steps_loop, default_hash_loop, hlt]

/-- A word read inside the buffer gives a word. -/
theorem load_u32_inside (blob : List Nat) (index : Nat) (h : index + 4 ≤ blob.length) :
    ∃ w, load_u32 blob index = some w := by
  have h0 : index < blob.length := by omega
  have h1 : index + 1 < blob.length := by omega
  have h2 : index + 2 < blob.length := by omega
  have h3 : index + 3 < blob.length := by omega
  unfold load_u32
  rw [List.drop_eq_getElem_cons h0, List.drop_eq_getElem_cons h1,
    List.drop_eq_getElem_cons h2, List.drop_eq_getElem_cons h3]
  exact ⟨_, rfl⟩

/-- For a length above 252 the index, a multiple of 4 below 256, is below the
length in every round: whatever the fuel, the loop of `default_hash` does not
leave, on a buffer that holds every word it reads. -/
theorem default_hash_loop_never_leaves (blob : List Nat) (length : Nat) (hlong : 252 < length)
    (hbuf : 256 ≤ blob.length) (fuel index hash : Nat) (h4 : index % 4 = 0)
    (hidx : index < 256) : default_hash_loop blob length fuel index hash = none := by
  induction fuel generalizing index hash with
  | zero => simp [default_hash_loop]
  | succ f ih =>
    have hlt : index < length := by omega
    obtain ⟨w, hw⟩ := load_u32_inside blob index (by omega)
    have hnext := ih ((index + 4) % 256) (hash ^^^ w) (by omega) (by omega)
    simp [default_hash_loop, hlt, hw, hnext]

/-- For a length up to 252 the loop of `default_hash`, entered at a multiple of 4
with more fuel than rounds to go, leaves after one XOR step for each 4 bytes
begun, on a buffer that holds every word it reads. -/
theorem default_hash_steps_loop_short (blob : List Nat) (length : Nat) (hshort : length ≤ 252)
    (hbuf : 4 * ((length + 3) / 4) ≤ blob.length) (m fuel index hash steps : Nat)
    (h4 : index % 4 = 0) (hm : index + 4 * m = 4 * ((length + 3) / 4)) (hfuel : m < fuel) :
    ∃ h, default_hash_steps_loop blob length fuel index hash steps = some (h, steps + m) := by
  induction m generalizing fuel index hash steps with
  | zero =>
    cases fuel with
    | zero => omega
    | succ f =>
      have hge : ¬ index < length := by omega
      exact ⟨hash, by simp [default_hash_steps_loop, hge]⟩
  | succ m ih =>
    cases fuel with
    | zero => omega
    | succ f =>
      have hlt : index < length := by omega
      obtain ⟨w, hw⟩ := load_u32_inside blob index (by omega)
      have hwrap : (index + 4) % 256 = index + 4 := by omega
      obtain ⟨h, hh⟩ := ih f (index + 4) (hash ^^^ w) (steps + 1) (by omega) (by omega)
        (by omega)
      refine ⟨h, ?_⟩
      simp only [default_hash_steps_loop, hlt, if_true, hw, hwrap, hh]
      congr 2
      omega

/-- For a length up to 252 `default_hash` returns after `ceil(length / 4)` XOR
steps. -/
theorem default_hash_steps_short (blob : List Nat) (length : Nat) (hshort : length ≤ 252)
    (hbuf : 4 * ((length + 3) / 4) ≤ blob.length) :
    (∃ h, default_hash_steps_loop blob length 65 0 4294967295 0 = some (h, (length + 3) / 4)) ∧
      ∃ h, default_hash blob length = some h := by
  obtain ⟨h, hh⟩ := default_hash_steps_loop_short blob length hshort hbuf ((length + 3) / 4) 65
    0 4294967295 0 (by omega) (by omega) (by omega)
  rw [Nat.zero_add] at hh
  refine ⟨⟨h, hh⟩, h, ?_⟩
  unfold default_hash
  rw [← default_hash_steps_loop_fst blob length 65 0 4294967295 0, hh]
  rfl

/-! ## The bucket index and the search of the whole table -/

/-- On every table reached from `lookup_table_create` a bucket index the hash
step returns is below the bucket count, which is the length of the bucket array. -/
theorem reachable_hash_in_range (t : lookup_table) (h : reachable t) (k : List Nat) (i : Nat)
    (hi : lookup_table_hash t k = some i) :
    t.EntryCountShift ≤ 16 ∧ i < 2 ^ t.EntryCountShift ∧ i < t.TableBuckets.length ∧
      t.TableBuckets.get? i = some (bucket t i) := by
  have hwf := (reachable_bucket_invariant t h).1
  have hlt := wf_hash_lt_length t hwf k i hi
  refine ⟨hwf.1, lookup_table_hash_lt t k i hi, hlt, ?_⟩
  simp [bucket, List.getD_eq_getElem?_getD, List.getElem?_eq_getElem hlt]

/-- When only chain `b` of a list of chains can hold a match, the first match over
all chains in order is the first match of chain `b`. -/
theorem find_flatten_single (L : List (List lookup_table_entry))
    (p : lookup_table_entry → Bool) (b : Nat)
    (h : ∀ i, i ≠ b → ∀ e ∈ L.getD i [], p e = false) :
    L.flatten.find? p = (L.getD b []).find? p := by
  induction L generalizing b with
  | nil => simp
  | cons x xs ih =>
    rw [List.flatten_cons, List.find?_append]
    cases b with
    | zero =>
      have hxs : xs.flatten.find? p = none := by
        rw [List.find?_eq_none]
        intro e he
        obtain ⟨c, hc, hec⟩ := List.mem_flatten.mp he
        obtain ⟨j, hj, hjc⟩ := List.getElem_of_mem hc
        have := h (j + 1) (by omega) e (by
          simp [List.getD_eq_getElem?_getD, List.getElem?_eq_getElem hj, hjc, hec])
        simp [this]
      simp [hxs]
    | succ b =>
      have hx : x.find? p = none := by
        rw [List.find?_eq_none]
        intro e he
        have := h 0 (by omega) e (by simpa using he)
        simp [this]
      have hrec := ih b (by
        intro i hib e he
        exact h (i + 1) (by omega) e (by simpa using he))
      simp [hx, hrec]

/-- Under the bucket invariant the search of the bucket a key of `KeySize` bytes
hashes to finds the entry the search of the whole table finds, and finds none
exactly when no entry of the table carries the key. -/
theorem locked_eq_global (t : lookup_table) (hinv : bucket_invariant t) (k : List Nat)
    (hk : k.length = t.KeySize) (b : Nat) (hb : lookup_table_hash t k = some b) :
    ∃ r, lookup_table_locked t k = some r ∧
      r.map entry_ptr.entry = global_search t k ∧
      (r = none ↔ ∀ i, ∀ e ∈ bucket t i, e.Key ≠ k) := by
  refine ⟨list_for_each_locked k t.KeySize (bucket t b) 0, by simp [lookup_table_locked, hb],
    ?_, ?_⟩
  · rw [scan_entry_find]
    unfold global_search
    rw [find_flatten_single t.TableBuckets _ b]
    · rfl
    · intro i hib e he
      have he2 : e ∈ bucket t i := he
      have hi := mem_bucket_length t i e he2
      obtain ⟨hl, hh⟩ := hinv.2.1 i hi e he2
      by_contra hne
      have hz : memcmp k e.Key t.KeySize = 0 := by simpa using hne
      have hkeys : k = e.Key := memcmp_zero_eq_of_length _ _ _ hk hl hz
      rw [← hkeys, hb] at hh
      exact hib (Option.some.inj hh).symm
  · rw [scan_eq_none_iff]
    constructor
    · intro hnone i e he hek
      have hi := mem_bucket_length t i e he
      obtain ⟨hl, hh⟩ := hinv.2.1 i hi e he
      rw [hek, hb] at hh
      have hbi : b = i := Option.some.inj hh
      subst hbi
      apply hnone e he
      rw [← hek, memcmp_eq_zero_iff]
    · intro hall e he hz
      have hi := mem_bucket_length t b e he
      obtain ⟨hl, _⟩ := hinv.2.1 b hi e he
      exact hall b e he (memcmp_zero_eq_of_length _ _ _ hk hl hz).symm

/-! ## Mode strings of fopen -/

/-- The inner `switch` leaves the flags alone or ORs in one of `O_RDWR`, `O_EXCL`,
`O_CLOEXEC`. -/
theorem fopen_mode_switch_cases (flags : Nat) (c : Char) :
    fopen_mode_switch flags c = flags ∨ fopen_mode_switch flags c = flags ||| O_RDWR ∨
      fopen_mode_switch flags c = flags ||| O_EXCL ∨
      fopen_mode_switch flags c = flags ||| O_CLOEXEC := by
  unfold fopen_mode_switch
  split <;> simp

/-- No round of the loop changes bit 0 of the flags. -/
theorem fopen_mode_switch_bit0 (flags : Nat) (c : Char) :
    (fopen_mode_switch flags c).testBit 0 = flags.testBit 0 := by
  rcases fopen_mode_switch_cases flags c with h | h | h | h <;> rw [h]
  · rw [Nat.testBit_or]
    have : O_RDWR.testBit 0 = false := by decide
    simp [this]
  · rw [Nat.testBit_or]
    have : O_EXCL.testBit 0 = false := by decide
    simp [this]
  · rw [Nat.testBit_or]
    have : O_CLOEXEC.testBit 0 = false := by decide
    simp [this]

theorem fopen_mode_loop_bit0 (mode : List Char) (rounds index flags : Nat) :
    (fopen_mode_loop mode rounds index flags).testBit 0 = flags.testBit 0 := by
  induction rounds generalizing index flags with
  | zero => simp [fopen_mode_loop]
  | succ n ih =>
    unfold fopen_mode_loop
    cases hc : mode.get? index with
    | none => simp
    | some c =>
      by_cases h0 : c = Char.ofNat 0
      · simp [h0]
      · simp only [h0, if_false]
        rw [ih, fopen_mode_switch_bit0]

/-- Bit 1 of the flags, once set, stays set. -/
theorem fopen_mode_switch_bit1 (flags : Nat) (c : Char) (h : flags.testBit 1 = true) :
    (fopen_mode_switch flags c).testBit 1 = true := by
  rcases fopen_mode_switch_cases flags c with h1 | h1 | h1 | h1 <;> rw [h1]
  · exact h
  · rw [Nat.testBit_or, h]; rfl
  · rw [Nat.testBit_or, h]; rfl
  · rw [Nat.testBit_or, h]; rfl

theorem fopen_mode_loop_bit1_mono (mode : List Char) (rounds index flags : Nat)
    (h : flags.testBit 1 = true) :
    (fopen_mode_loop mode rounds index flags).testBit 1 = true := by
  induction rounds generalizing index flags with
  | zero => simpa [fopen_mode_loop] using h
  | succ n ih =>
    unfold fopen_mode_loop
    cases hc : mode.get? index with
    | none => simpa using h
    | some c =>
      by_cases h0 : c = Char.ofNat 0
      · simpa [h0] using h
      · simp only [h0, if_false]
        exact ih _ _ (fopen_mode_switch_bit1 flags c h)

/-- A plus sign the loop reaches sets bit 1 of the flags. -/
theorem fopen_mode_loop_plus (mode : List Char) (hnul : ∀ c ∈ mode, c ≠ Char.ofNat 0)
    (j : Nat) (hj : mode.get? j = some '+') (rounds index flags : Nat) (hij : index ≤ j)
    (hjr : j < index + rounds) :
    (fopen_mode_loop mode rounds index flags).testBit 1 = true := by
  induction rounds generalizing index flags with
  | zero => omega
  | succ n ih =>
    have hjlen : j < mode.length := by
      by_contra hge
      rw [List.get?_eq_none.mpr (Nat.le_of_not_lt hge)] at hj
      exact Option.noConfusion hj
    have hilen : index < mode.length := by omega
    have hc : mode.get? index = some (mode.get ⟨index, hilen⟩) := List.get?_eq_get hilen
    have h0 : mode.get ⟨index, hilen⟩ ≠ Char.ofNat 0 := hnul _ (List.get_mem _ _ _)
    unfold fopen_mode_loop
    simp only [hc, h0, if_false]
    by_cases heq : index = j
    · subst heq
      rw [hc] at hj
      have hplus : mode.get ⟨index, hilen⟩ = '+' := Option.some.inj hj
      rw [hplus]
      apply fopen_mode_loop_bit1_mono
      have hs : fopen_mode_switch flags '+' = flags ||| O_RDWR := by
        simp [fopen_mode_switch]
      rw [hs, Nat.testBit_or]
      have : O_RDWR.testBit 1 = true := by decide
      simp [this]
    · exact ih _ _ (by omega) (by omega)

/-- The access mode from bits 0 and 1. -/
theorem and_accmode_of_bits (r : Nat) :
    (r.testBit 0 = true → r &&& O_ACCMODE ≠ O_RDWR) ∧
      (r.testBit 0 = false → r.testBit 1 = true → r &&& O_ACCMODE = O_RDWR) := by
  have hand : r &&& O_ACCMODE = r % 4 := by
    have : O_ACCMODE = 2 ^ 2 - 1 := by decide
    rw [this, Nat.and_pow_two_sub_one_eq_mod]
  have h1 : r.testBit 1 = decide (r / 2 % 2 = 1) := by
    rw [show (1 : Nat) = 0 + 1 from rfl, Nat.testBit_succ, Nat.testBit_zero]
  rw [hand, Nat.testBit_zero, h1]
  simp only [decide_eq_true_eq, decide_eq_false_iff_not, O_RDWR]
  constructor
  · intro h; omega
  · intro h h2; omega

/-- The result of `fopen_mode_to_flags` by first character. -/
theorem fopen_mode_to_flags_cases (mode : List Char) :
    (mode.head? = some 'r' ∧
        fopen_mode_to_flags mode = ((fopen_mode_loop mode 7 0 O_RDONLY : Nat) : Int)) ∨
      (mode.head? = some 'w' ∧
        fopen_mode_to_flags mode = ((fopen_mode_loop mode 7 0 O_WRONLY : Nat) : Int)) ∨
      (mode.head? = some 'a' ∧ fopen_mode_to_flags mode =
        ((fopen_mode_loop mode 7 0 (O_WRONLY ||| O_CREAT ||| O_APPEND) : Nat) : Int)) ∨
      (mode.head? ≠ some 'r' ∧ mode.head? ≠ some 'w' ∧ mode.head? ≠ some 'a' ∧
        fopen_mode_to_flags mode = -1) := by
  unfold fopen_mode_to_flags
  split
  · next h => exact Or.inl ⟨h, rfl⟩
  · next h => exact Or.inr (Or.inl ⟨h, rfl⟩)
  · next h => exact Or.inr (Or.inr (Or.inl ⟨h, rfl⟩))
  · next h1 h2 h3 => exact Or.inr (Or.inr (Or.inr ⟨h1, h2, h3, rfl⟩))

/-- The result is `-1` exactly when the first character is none of `r`, `w`, `a`. -/
theorem fopen_mode_to_flags_invalid_iff (mode : List Char) :
    fopen_mode_to_flags mode = -1 ↔
      ¬ (mode.head? = some 'r' ∨ mode.head? = some 'w' ∨ mode.head? = some 'a') := by
  rcases fopen_mode_to_flags_cases mode with ⟨h, e⟩ | ⟨h, e⟩ | ⟨h, e⟩ | ⟨h1, h2, h3, e⟩
  · rw [e]; constructor
    · intro hneg; omega
    · intro hn; exact absurd (Or.inl h) hn
  · rw [e]; constructor
    · intro hneg; omega
    · intro hn; exact absurd (Or.inr (Or.inl h)) hn
  · rw [e]; constructor
    · intro hneg; omega
    · intro hn; exact absurd (Or.inr (Or.inr h)) hn
  · rw [e]; constructor
    · intro _ hn
      rcases hn with h | h | h
      · exact h1 h
      · exact h2 h
      · exact h3 h
    · intro _; rfl

/-- A mode that starts with `r` and has a plus sign among its first 7 characters
gets read-write access. -/
theorem fopen_read_plus_rdwr (mode : List Char) (hnul : ∀ c ∈ mode, c ≠ Char.ofNat 0)
    (hr : mode.head? = some 'r') (j : Nat) (hj7 : j < 7) (hj : mode.get? j = some '+') :
    access_mode (fopen_mode_to_flags mode) = O_RDWR := by
  rcases fopen_mode_to_flags_cases mode with ⟨_, e⟩ | ⟨h, _⟩ | ⟨h, _⟩ | ⟨h1, _⟩
  · rw [e]
    unfold access_mode
    rw [Int.toNat_ofNat]
    apply (and_accmode_of_bits _).2
    · rw [fopen_mode_loop_bit0]; decide
    · exact fopen_mode_loop_plus mode hnul j hj 7 0 O_RDONLY (by omega) (by omega)
  · rw [hr] at h; exact absurd h (by decide)
  · rw [hr] at h; exact absurd h (by decide)
  · exact absurd hr h1

/-- A mode that starts with `w` or `a` never gets read-write access, whatever
follows: bit 0 of `O_WRONLY` stays set. -/
theorem fopen_write_never_rdwr (mode : List Char)
    (hw : mode.head? = some 'w' ∨ mode.head? = some 'a') :
    0 ≤ fopen_mode_to_flags mode ∧ access_mode (fopen_mode_to_flags mode) ≠ O_RDWR := by
  rcases fopen_mode_to_flags_cases mode with ⟨h, _⟩ | ⟨_, e⟩ | ⟨_, e⟩ | ⟨_, h2, h3, _⟩
  · rcases hw with h1 | h1 <;> (rw [h] at h1; exact absurd h1 (by decide))
  · rw [e]
    refine ⟨Int.ofNat_nonneg _, ?_⟩
    unfold access_mode
    rw [Int.toNat_ofNat]
    apply (and_accmode_of_bits _).1
    rw [fopen_mode_loop_bit0]; decide
  · rw [e]
    refine ⟨Int.ofNat_nonneg _, ?_⟩
    unfold access_mode
    rw [Int.toNat_ofNat]
    apply (and_accmode_of_bits _).1
    rw [fopen_mode_loop_bit0]; decide
  · rcases hw with h1 | h1
    · exact absurd h1 h2
    · exact absurd h1 h3

/-! ## Opening and shutting down without a table -/

theorem demo_running_eq :
    demo_running = { process_start with
      readmap_initialized := true
      fd_lookup_table := some fd_table_initial, tables_created := 1 } := by
  unfold demo_running
  rw [init_spec]
  simp [process_start]

theorem demo_running_reachable (NDEBUG : Bool) : lifecycle_reachable NDEBUG demo_running :=
  lifecycle_reachable.init true _ lifecycle_reachable.start

theorem demo_running_registered_eq :
    readmap_create_file_state false demo_running 3 2 demo_stat 4096 (clock_at 100 0) true =
      Except.ok demo_running_registered := by
  have hT : demo_running.fd_lookup_table = some fd_table_initial := by rw [demo_running_eq]
  have hb : lookup_table_hash fd_table_initial (fd_key 3) = some 4092 := by decide
  rw [create_file_state_spec false demo_running fd_table_initial 3 2 demo_stat 4096
    (clock_at 100 0) true 4092 hT hb (Or.inr rfl)]
  have hreg : S_ISREG demo_stat.st_mode = true := by decide
  have hsc : list_for_each_locked (fd_key 3) fd_table_initial.KeySize
      (bucket fd_table_initial 4092) 0 = none := by
    rw [bucket_fd_table_initial]; rfl
  simp only [hreg, hsc, NULL, Bool.true_eq_false, false_or, and_self, if_true]
  rfl

theorem demo_running_registered_reachable :
    lifecycle_reachable false demo_running_registered.state :=
  lifecycle_reachable.create demo_running 3 2 demo_stat 4096 (clock_at 100 0) true
    demo_running_registered (demo_running_reachable false) demo_running_registered_eq

theorem demo_running_registered_flag :
    demo_running_registered.state.shutdown_called = false := by
  show demo_running.shutdown_called = false
  rw [demo_running_eq]; rfl

/-- With the table pointer null, `readmap_open` of a file the underlying `open`
opens does not return: built with assertions it stops at the assertion on the
table pointer in `readmap_create_file_state`; built with `NDEBUG`, for a regular
file and a successful allocation, at the dereference of the null table. -/
theorem open_null_table (σ : process_state) (h : σ.fd_lookup_table = none) (v flags : Int)
    (hv : 0 ≤ v) (st : stat_reading) (ms : Nat) (clock : clock_reading) (me : Bool) :
    readmap_open false σ (some v) flags st ms clock me =
        Except.error abort_reason.null_table ∧
      (S_ISREG st.st_mode = true → ms ≠ NULL →
        readmap_open true σ (some v) flags st ms clock me =
          Except.error abort_reason.null_dereference) := by
  have hv2 : ¬ v < 0 := by omega
  constructor
  · simp [readmap_open, internal_open, fin_open, readmap_create_file_state, c_assert, bind,
      Except.bind, pure, Except.pure, h, hv2]
  · intro hreg hms
    simp [readmap_open, internal_open, fin_open, readmap_create_file_state, c_assert, bind,
      Except.bind, pure, Except.pure, throw, throwThe, MonadExceptOf.throw, h, hv2, hreg, hms]

/-- The one-shot flag, once set, stays set over every operation of the lifecycle,
and a shutdown that finds it set changes nothing. -/
theorem shutdown_flag_stays (NDEBUG : Bool) (τ : process_state)
    (hflag : τ.shutdown_called = true) :
    readmap_shutdown τ = τ ∧
      (∀ m : Bool, (readmap_init m τ).shutdown_called = true) ∧
      (∀ (fd flags : Int) (st : stat_reading) (ms : Nat) (clock : clock_reading) (me : Bool)
        (r : create_result),
        readmap_create_file_state NDEBUG τ fd flags st ms clock me = Except.ok r →
          r.state.shutdown_called = true) ∧
      (∀ (p : Nat) (τ2 : process_state),
        readmap_delete_file_state NDEBUG τ p = Except.ok τ2 → τ2.shutdown_called = true) := by
  refine ⟨shutdown_called_noop τ hflag, ?_, ?_, ?_⟩
  · intro m
    rw [init_spec]
    split
    · exact hflag
    · split
      · exact hflag
      · split <;> exact hflag
  · intro fd flags st ms clock me r hr
    rw [(create_file_state_frame NDEBUG τ fd flags st ms clock me r hr).2.2.1]
    exact hflag
  · intro p τ2 hr
    rw [(delete_file_state_frame NDEBUG τ τ2 p hr).2.2.1]
    exact hflag

/-! ## The claims -/

/-- C1. For every well-formed table (in particular every table satisfying the
bucket invariant), key and value: if `lookup_table_insert` returns 0, then
`lookup_table_lookup` on the resulting table with the same key returns 0 and
yields exactly the inserted value, leaving the table as it is. -/
theorem insert_then_lookup (m : Bool) (t : lookup_table) (k : List Nat) (v : Nat)
    (r : table_result) (hwf : lookup_table_wf t)
    (h : lookup_table_insert m t k v = some r) (hs : r.status = 0) :
    lookup_table_lookup r.Table k = some { status := 0, Object := v, Table := r.Table } :=
  lookup_after_insert_ok m t k v r hwf h hs

/-- The hypotheses of `insert_then_lookup` hold for key 3 inserted into
`demo_table`, and the lookup then returns the value 1000. -/
theorem insert_then_lookup_witness :
    lookup_table_wf demo_table ∧
      lookup_table_insert true demo_table (int_key 3) 1000 = some demo_insert_3 ∧
      demo_insert_3.status = 0 ∧
      lookup_table_lookup demo_insert_3.Table (int_key 3) =
        some { status := 0, Object := 1000, Table := demo_insert_3.Table } :=
  ⟨by decide, rfl, rfl,
    insert_then_lookup true demo_table (int_key 3) 1000 demo_insert_3 (by decide) rfl rfl⟩

/-- C2 as stated fails when the second insert cannot allocate its entry: after
key 3 was inserted into `demo_table`, a second insert of key 3 whose `malloc`
fails returns `ENOMEM`, which is not `EEXIST`. -/
theorem insert_duplicate_enomem :
    lookup_table_insert true demo_table (int_key 3) 1000 = some demo_insert_3 ∧
      demo_insert_3.status = 0 ∧
      (lookup_table_insert false demo_insert_3.Table (int_key 3) 2000).map
        table_result.status = some ENOMEM ∧
      ENOMEM ≠ EEXIST :=
  ⟨rfl, rfl, by decide, by decide⟩

/-- C2, as the code has it. After a successful insert of a key into a well-formed
table, a second insert of the same key returns `EEXIST` when its entry allocation
succeeds and `ENOMEM` when it fails; either way the table is the one the first
insert left and a lookup of the key still returns the first value. -/
theorem insert_duplicate (m1 m2 : Bool) (t : lookup_table) (k : List Nat) (v1 v2 : Nat)
    (r1 : table_result) (hwf : lookup_table_wf t)
    (h1 : lookup_table_insert m1 t k v1 = some r1) (hs : r1.status = 0) :
    ∃ r2, lookup_table_insert m2 r1.Table k v2 = some r2 ∧
      r2.status = (if m2 then EEXIST else ENOMEM) ∧ r2.Table = r1.Table ∧
      lookup_table_lookup r2.Table k = some { status := 0, Object := v1, Table := r2.Table } :=
  insert_after_insert_ok m1 m2 t k v1 v2 r1 hwf h1 hs

/-- The hypotheses of `insert_duplicate` hold for key 3 inserted into
`demo_table`; the second insert, allocation succeeding, returns `EEXIST`. -/
theorem insert_duplicate_witness :
    lookup_table_wf demo_table ∧
      lookup_table_insert true demo_table (int_key 3) 1000 = some demo_insert_3 ∧
      demo_insert_3.status = 0 ∧
      ∃ r2, lookup_table_insert true demo_insert_3.Table (int_key 3) 2000 = some r2 ∧
        r2.status = (if true then EEXIST else ENOMEM) ∧ r2.Table = demo_insert_3.Table ∧
        lookup_table_lookup r2.Table (int_key 3) =
          some { status := 0, Object := 1000, Table := r2.Table } :=
  ⟨by decide, rfl, rfl,
    insert_duplicate true true demo_table (int_key 3) 1000 2000 demo_insert_3 (by decide) rfl rfl⟩

/-- C3. For every table satisfying the bucket invariant and every key: whenever
`lookup_table_remove` of the key returns 0, `lookup_table_lookup` of the key on
the table it leaves returns `ENODATA` and stores `NULL` in the output; and after
a successful insert of the key the remove does return 0, so the key inserted and
then removed is no longer found. -/
theorem insert_remove_lookup (t : lookup_table) (k : List Nat) (hinv : bucket_invariant t) :
    (∀ r, lookup_table_remove t k = some r → r.status = 0 →
      lookup_table_lookup r.Table k =
        some { status := ENODATA, Object := NULL, Table := r.Table }) ∧
    (∀ m v r1, lookup_table_insert m t k v = some r1 → r1.status = 0 →
      ∃ r2, lookup_table_remove r1.Table k = some r2 ∧ r2.status = 0 ∧
        lookup_table_lookup r2.Table k =
          some { status := ENODATA, Object := NULL, Table := r2.Table }) := by
  refine ⟨fun r h hs => lookup_after_remove_ok t k r hinv h hs, ?_⟩
  intro m v r1 h1 hs
  obtain ⟨r2, h2, hs2, _, hl⟩ := remove_after_insert_ok m t k v r1 hinv.1 h1 hs
  exact ⟨r2, h2, hs2, hl⟩

/-- The hypotheses of `insert_remove_lookup` hold for `demo_table`: key 3 is
inserted, removed, and then no longer found. -/
theorem insert_remove_lookup_witness :
    bucket_invariant demo_table ∧
      lookup_table_insert true demo_table (int_key 3) 1000 = some demo_insert_3 ∧
      demo_insert_3.status = 0 ∧
      ∃ r2, lookup_table_remove demo_insert_3.Table (int_key 3) = some r2 ∧ r2.status = 0 ∧
        lookup_table_lookup r2.Table (int_key 3) =
          some { status := ENODATA, Object := NULL, Table := r2.Table } :=
  ⟨by decide, rfl, rfl,
    (insert_remove_lookup demo_table (int_key 3) (by decide)).2 true 1000 demo_insert_3 rfl rfl⟩

/-- C4. In every table reachable from `lookup_table_create` by `lookup_table_insert`
and `lookup_table_remove` calls (keys being buffers of `KeySize` bytes, the hash a
function of the key bytes), every entry stored in bucket `i` satisfies
`hash(key, KeySize) & (bucketCount - 1) == i`, and two entries with byte-for-byte
equal keys are one and the same entry (same bucket, same position). -/
theorem reachable_table_invariant (t : lookup_table) (h : reachable t) :
    (∀ (i : Nat) (e : lookup_table_entry), e ∈ bucket t i →
      ∃ hv, t.Hash e.Key t.KeySize = some hv ∧
        (hv % 2 ^ 32) &&& (t.TableBuckets.length - 1) = i) ∧
    (∀ (i j p q : Nat) (e1 e2 : lookup_table_entry), (bucket t i)[p]? = some e1 → (bucket t j)[q]? = some e2 →
      memcmp e1.Key e2.Key t.KeySize = 0 → i = j ∧ p = q) := by
  have hinv := reachable_bucket_invariant t h
  refine ⟨?_, fun i j p q e1 e2 h1 h2 hz => invariant_unique t hinv i j p q e1 e2 h1 h2 hz⟩
  intro i e he
  have hi := mem_bucket_length t i e he
  have hh := (hinv.2.1 i hi e he).2
  unfold lookup_table_hash at hh
  rw [Option.map_eq_some'] at hh
  obtain ⟨hv, h1, h2⟩ := hh
  refine ⟨hv, h1, ?_⟩
  rw [Nat.one_shiftLeft] at h2
  rw [hinv.1.2]
  exact h2

/-- The table holding key 3 is reachable, and its entry sits in the bucket its key
hashes to. -/
theorem reachable_table_invariant_witness :
    reachable demo_insert_3.Table ∧
      ∃ hv, demo_insert_3.Table.Hash [3, 0, 0, 0] demo_insert_3.Table.KeySize = some hv ∧
        (hv % 2 ^ 32) &&& (demo_insert_3.Table.TableBuckets.length - 1) = 0 :=
  have hr : reachable demo_insert_3.Table :=
    reachable.insert true demo_table (int_key 3) 1000 demo_insert_3
      (reachable.create true 4 "demo".toList none 4 demo_table rfl) rfl rfl
  ⟨hr, (reachable_table_invariant demo_insert_3.Table hr).1 0 ⟨1000, [3, 0, 0, 0]⟩ (by decide)⟩

/-- C5. Once the hash has returned bucket `b` for the key, `lookup_table_insert`
returns: `ENOMEM` exactly when the entry allocation fails; `EEXIST` exactly when
the allocation succeeds and bucket `b` holds an entry whose key equals the key
byte for byte over `KeySize`; 0 exactly when the allocation succeeds and there is
no such entry. Whenever the status is not 0 the table is the one passed in. Under
the bucket invariant, for a key of `KeySize` bytes, an equal key in bucket `b` is
the same as an equal key anywhere in the table. -/
theorem insert_outcome (m : Bool) (t : lookup_table) (k : List Nat) (v b : Nat)
    (hb : lookup_table_hash t k = some b) :
    ∃ r, lookup_table_insert m t k v = some r ∧
      (r.status = ENOMEM ↔ m = false) ∧
      (r.status = EEXIST ↔ (m = true ∧ ∃ e ∈ bucket t b, memcmp k e.Key t.KeySize = 0)) ∧
      (r.status = 0 ↔ (m = true ∧ ¬ ∃ e ∈ bucket t b, memcmp k e.Key t.KeySize = 0)) ∧
      (r.status ≠ 0 → r.Table = t) ∧
      (bucket_invariant t → k.length = t.KeySize →
        ((∃ e ∈ bucket t b, memcmp k e.Key t.KeySize = 0) ↔
          ∃ i, ∃ e ∈ bucket t i, memcmp k e.Key t.KeySize = 0)) := by
  rw [insert_spec m t k v b hb]
  refine ⟨_, rfl, ?_, ?_, ?_, ?_, fun hinv hk => invariant_local_iff_global t k b hb hinv hk⟩
  all_goals
    cases m with
    | false => simp [ENOMEM, EEXIST]
    | true =>
      cases hsc : list_for_each_locked k t.KeySize (bucket t b) 0 with
      | some q =>
        have hex := (scan_ne_none_iff k t.KeySize (bucket t b) 0).mp ⟨q, hsc⟩
        simp [ENOMEM, EEXIST, hex]
      | none =>
        have hno := (scan_eq_none_iff k t.KeySize (bucket t b) 0).mp hsc
        simp [ENOMEM, EEXIST]
        try exact hno

/-- The hash returns bucket 0 for key 3 in the table that holds key 3, so
`insert_outcome` applies to a second insert of key 3. -/
theorem insert_outcome_witness :
    lookup_table_hash demo_insert_3.Table (int_key 3) = some 0 ∧
      ∃ r, lookup_table_insert true demo_insert_3.Table (int_key 3) 2000 = some r ∧
        (r.status = ENOMEM ↔ true = false) ∧
        (r.status = EEXIST ↔ (true = true ∧ ∃ e ∈ bucket demo_insert_3.Table 0,
          memcmp (int_key 3) e.Key demo_insert_3.Table.KeySize = 0)) ∧
        (r.status = 0 ↔ (true = true ∧ ¬ ∃ e ∈ bucket demo_insert_3.Table 0,
          memcmp (int_key 3) e.Key demo_insert_3.Table.KeySize = 0)) ∧
        (r.status ≠ 0 → r.Table = demo_insert_3.Table) ∧
        (bucket_invariant demo_insert_3.Table →
          (int_key 3).length = demo_insert_3.Table.KeySize →
          ((∃ e ∈ bucket demo_insert_3.Table 0,
              memcmp (int_key 3) e.Key demo_insert_3.Table.KeySize = 0) ↔
            ∃ i, ∃ e ∈ bucket demo_insert_3.Table i,
              memcmp (int_key 3) e.Key demo_insert_3.Table.KeySize = 0)) :=
  ⟨by decide, insert_outcome true demo_insert_3.Table (int_key 3) 2000 0 (by decide)⟩

/-- C6. Once the hash has returned bucket `b` for the key, `lookup_table_remove` on
a well-formed table returns `ENODATA` exactly when bucket `b` holds no entry whose
key equals the key over `KeySize` bytes, and then the table is the one passed in
and nothing is freed; otherwise it returns 0, exactly one entry is unlinked (an
entry of bucket `b` whose key equals the key; every other chain is untouched and
the table holds one entry fewer), and the only storage freed is that entry, not
the value it references. Under the bucket invariant, for a key of `KeySize`
bytes, an equal key in bucket `b` is the same as an equal key anywhere in the
table. -/
theorem remove_outcome (t : lookup_table) (k : List Nat) (b : Nat)
    (hwf : lookup_table_wf t) (hb : lookup_table_hash t k = some b) :
    ∃ r, lookup_table_remove t k = some r ∧
      (r.status = ENODATA ↔ ¬ ∃ e ∈ bucket t b, memcmp k e.Key t.KeySize = 0) ∧
      (r.status = ENODATA → r.Table = t ∧ r.freed = []) ∧
      (r.status ≠ ENODATA → r.status = 0 ∧
        ∃ (p : Nat) (e : lookup_table_entry), (bucket t b)[p]? = some e ∧
          memcmp k e.Key t.KeySize = 0 ∧
          bucket r.Table b = (bucket t b).eraseIdx p ∧
          (∀ j, j ≠ b → bucket r.Table j = bucket t j) ∧
          entry_count r.Table + 1 = entry_count t ∧
          r.freed = [e]) ∧
      (bucket_invariant t → k.length = t.KeySize →
        ((∃ e ∈ bucket t b, memcmp k e.Key t.KeySize = 0) ↔
          ∃ i, ∃ e ∈ bucket t i, memcmp k e.Key t.KeySize = 0)) := by
  have hlt := wf_hash_lt_length t hwf k b hb
  rw [remove_spec t k b hb]
  refine ⟨_, rfl, ?_, ?_, ?_, fun hinv hk => invariant_local_iff_global t k b hb hinv hk⟩
  · cases hsc : list_for_each_locked k t.KeySize (bucket t b) 0 with
    | some q =>
      have hex := (scan_ne_none_iff k t.KeySize (bucket t b) 0).mp ⟨q, hsc⟩
      simp [ENODATA, hex]
    | none =>
      have hno := (scan_eq_none_iff k t.KeySize (bucket t b) 0).mp hsc
      simpa [ENODATA] using hno
  · cases hsc : list_for_each_locked k t.KeySize (bucket t b) 0 with
    | some q => simp [ENODATA]
    | none => simp
  · cases hsc : list_for_each_locked k t.KeySize (bucket t b) 0 with
    | none => simp
    | some q =>
      obtain ⟨_, h2, h3, _⟩ := scan_some_spec k t.KeySize (bucket t b) 0 q hsc
      simp only [Nat.sub_zero] at h2
      intro _
      refine ⟨rfl, q.pos, q.entry, h2, h3, bucket_set_bucket_same t b _ hlt,
        fun j hj => bucket_set_bucket_ne t b j _ (Ne.symm hj), ?_, rfl⟩
      have hsum : ((t.TableBuckets.set b ((bucket t b).eraseIdx q.pos)).map List.length).sum +
          (bucket t b).length =
          (t.TableBuckets.map List.length).sum + ((bucket t b).eraseIdx q.pos).length :=
        sum_length_set t.TableBuckets b ((bucket t b).eraseIdx q.pos) hlt
      have hp : q.pos < (bucket t b).length := (List.getElem?_eq_some_iff.mp h2).1
      have hlen := List.length_eraseIdx_add_one hp
      show ((t.TableBuckets.set b ((bucket t b).eraseIdx q.pos)).map List.length).sum + 1 =
        (t.TableBuckets.map List.length).sum
      omega

/-- The hypotheses of `remove_outcome` hold for key 3 in the table that holds it:
the remove returns 0, frees exactly that entry and leaves one entry fewer. -/
theorem remove_outcome_witness :
    lookup_table_wf demo_insert_3.Table ∧
      lookup_table_hash demo_insert_3.Table (int_key 3) = some 0 ∧
      ∃ r, lookup_table_remove demo_insert_3.Table (int_key 3) = some r ∧ r.status = 0 ∧
        r.freed = [{ Object := 1000, Key := [3, 0, 0, 0] }] ∧
        entry_count r.Table + 1 = entry_count demo_insert_3.Table := by
  refine ⟨by decide, by decide, ?_⟩
  obtain ⟨r, h, _, _, h3, _⟩ :=
    remove_outcome demo_insert_3.Table (int_key 3) 0 (by decide) (by decide)
  have hr : r.status = 0 ∧ r.freed = [{ Object := 1000, Key := [3, 0, 0, 0] }] := by
    have h2 : lookup_table_remove demo_insert_3.Table (int_key 3) =
        some { status := 0, Table := demo_table,
               freed := [{ Object := 1000, Key := [3, 0, 0, 0] }] } := rfl
    rw [h2] at h
    cases h
    exact ⟨rfl, rfl⟩
  obtain ⟨_, p, e, _, _, _, _, hcount, _⟩ := h3 (by rw [hr.1]; decide)
  exact ⟨r, h, hr.1, hr.2, hcount⟩

/-- C7. For keys `k` and `k2` that differ in at least one of their first `KeySize`
bytes, what `lookup_table_lookup` of `k2` returns (status and value) is the same
before and after any `lookup_table_insert` of `k` and any `lookup_table_remove`
of `k`, whatever buckets the two keys hash to; and `lookup_table_lookup` leaves
the table as it found it. -/
theorem other_key_frame (t : lookup_table) (k k2 : List Nat)
    (hne : memcmp k k2 t.KeySize ≠ 0) :
    (∀ (m : Bool) (v : Nat) (r : table_result), lookup_table_insert m t k v = some r →
      (lookup_table_lookup r.Table k2).map lookup_result.outcome =
        (lookup_table_lookup t k2).map lookup_result.outcome) ∧
    (∀ r : table_result, lookup_table_remove t k = some r →
      (lookup_table_lookup r.Table k2).map lookup_result.outcome =
        (lookup_table_lookup t k2).map lookup_result.outcome) ∧
    (∀ x : lookup_result, lookup_table_lookup t k2 = some x → x.Table = t) :=
  ⟨fun m v r h => lookup_outcome_after_insert m t k k2 v r hne h,
   fun r h => lookup_outcome_after_remove t k k2 r hne h,
   fun x h => lookup_table_unchanged t k2 x h⟩

/-- Keys 7 and 3 differ and share bucket 0 of the demo table; inserting key 7
does not change what a lookup of key 3 returns. -/
theorem other_key_frame_witness :
    memcmp (int_key 7) (int_key 3) demo_insert_3.Table.KeySize ≠ 0 ∧
      lookup_table_hash demo_insert_3.Table (int_key 7) =
        lookup_table_hash demo_insert_3.Table (int_key 3) ∧
      (lookup_table_lookup demo_insert_7.Table (int_key 3)).map lookup_result.outcome =
        (lookup_table_lookup demo_insert_3.Table (int_key 3)).map lookup_result.outcome :=
  ⟨by decide, by decide,
    (other_key_frame demo_insert_3.Table (int_key 7) (int_key 3) (by decide)).1
      true 2000 demo_insert_7 rfl⟩

/-- C8. For every size hint, `lookup_table_create` (its allocation succeeding; a
failed allocation returns `NULL`) yields a table whose bucket count is
`2 ^ EntryCountShift`, the shift being the least natural number whose power of
two reaches `min(SizeHint, 65536)`; so the count is a power of two, at most
65536, and every bucket is empty. A hint of 100 gives 128 buckets, a hint of 0 or
1 gives 1 bucket, a hint of 200000 gives 65536 buckets. -/
theorem create_bucket_sizing (SizeHint : Nat) (Name : List Char)
    (Hash : Option lookup_table_hash_t) (KeySize : Nat) :
    lookup_table_create false SizeHint Name Hash KeySize = none ∧
    (∃ t, lookup_table_create true SizeHint Name Hash KeySize = some t ∧
      t.TableBuckets.length = 2 ^ t.EntryCountShift ∧
      min SizeHint 65536 ≤ 2 ^ t.EntryCountShift ∧
      (∀ j : Nat, min SizeHint 65536 ≤ 2 ^ j → t.EntryCountShift ≤ j) ∧
      t.TableBuckets.length ≤ 65536 ∧
      (∀ c ∈ t.TableBuckets, c = [])) ∧
    (lookup_table_create true 100 Name Hash KeySize).map
      (fun t => t.TableBuckets.length) = some 128 ∧
    (lookup_table_create true 0 Name Hash KeySize).map
      (fun t => t.TableBuckets.length) = some 1 ∧
    (lookup_table_create true 1 Name Hash KeySize).map
      (fun t => t.TableBuckets.length) = some 1 ∧
    (lookup_table_create true 200000 Name Hash KeySize).map
      (fun t => t.TableBuckets.length) = some 65536 := by
  refine ⟨?_, ?_, ?_, ?_, ?_, ?_⟩
  · cases hc : lookup_table_create false SizeHint Name Hash KeySize with
    | none => rfl
    | some t => exact absurd (create_some_true false SizeHint Name Hash KeySize t hc) (by decide)
  · obtain ⟨t, ht, h16, hge, hleast, hb, _⟩ := create_spec SizeHint Name Hash KeySize
    have hpow : 2 ^ t.EntryCountShift ≤ 2 ^ 16 := Nat.pow_le_pow_right (by decide) h16
    refine ⟨t, ht, by rw [hb, List.length_replicate], hge, ?_, ?_, ?_⟩
    · intro j hj
      by_contra hlt
      have := hleast j (by omega)
      omega
    · rw [hb, List.length_replicate]; omega
    · intro c hc
      rw [hb] at hc
      exact (List.mem_replicate.mp hc).2
  · exact create_length 100 Name Hash KeySize 7 (by decide)
  · exact create_length 0 Name Hash KeySize 0 (by decide)
  · exact create_length 1 Name Hash KeySize 0 (by decide)
  · exact create_length 200000 Name Hash KeySize 16 (by decide)

/-- C9 evaluated on the code. A state stamped at second 100 with cached size 1000
is queried half a second later, the file meanwhile 10 bytes long: built with
assertions, `readmap_get_size` aborts on the ordering assertion of
`timespec_diff` (it is handed the current time as `begin` and the stamp as `end`)
and returns nothing; built with `NDEBUG`, it returns the cached 1000, issues no
`fstat` and leaves the state alone. -/
theorem get_size_within_window :
    readmap_get_size false demo_file_state (clock_at 100 500000000) demo_stat_shrunk
        (clock_at 100 500000100) = Except.error abort_reason.timespec_order ∧
      readmap_get_size true demo_file_state (clock_at 100 500000000) demo_stat_shrunk
        (clock_at 100 500000100) =
        Except.ok { size := 1000, file_state := demo_file_state
                    calls := [sys_call.clock_gettime_realtime] } :=
  ⟨rfl, rfl⟩

/-- C10 evaluated on the code. A state stamped at second 100 with cached size 1000
is queried 1.2 seconds later, the file meanwhile 10 bytes long: built with
assertions, `readmap_get_size` aborts on the ordering assertion of
`timespec_diff`; built with `NDEBUG`, the difference it computes is negative, no
refresh runs, no `fstat` is issued, and the stale 1000 is returned with
`cached_size` and `check_time` unchanged. The fresh size 10 is never returned. -/
theorem get_size_after_window :
    readmap_get_size false demo_file_state (clock_at 101 200000000) demo_stat_shrunk
        (clock_at 101 200000100) = Except.error abort_reason.timespec_order ∧
      readmap_get_size true demo_file_state (clock_at 101 200000000) demo_stat_shrunk
        (clock_at 101 200000100) =
        Except.ok { size := 1000, file_state := demo_file_state
                    calls := [sys_call.clock_gettime_realtime] } ∧
      demo_stat_shrunk.st_size = 10 :=
  ⟨rfl, rfl, rfl⟩

/-- C11 evaluated on the code. Descriptor 3 refers to a regular file of 1000
bytes and is registered with flags 2 at second 100: the registration succeeds and
the state it returns has `fd = 3`, `flags = 2`, the mode of the file and
`check_time` equal to the clock reading, but `cached_size = 0`, not the 1000
bytes `fstat` reported. -/
theorem create_file_state_cached_size :
    ∃ r, readmap_create_file_state false demo_process 3 2 demo_stat 4096 (clock_at 100 0) true =
        Except.ok r ∧
      r.file_state = 4096 ∧
      heap_read r.state.heap r.file_state =
        some { fd := 3, check_size := 0, mapped := 0, flags := 2, mode := demo_stat.st_mode
               map_location := 0, hash := 0, cached_size := 0
               check_time := { tv_sec := 100, tv_nsec := 0 } } ∧
      demo_stat.st_size = 1000 ∧ S_ISREG demo_stat.st_mode = true :=
  ⟨_, rfl, rfl, rfl, rfl, rfl⟩

/-- C12. With the table pointer set, the hash returning for the key and the clock
call not tripping its assertion, `readmap_create_file_state` returns; it returns
`NULL` exactly when the descriptor is not a regular file, the state allocation
fails, the entry allocation fails, or an entry for the descriptor already exists;
and whenever it returns `NULL` the process state, table included, is exactly as
before, so every lookup (of this descriptor or any other) answers as it did. -/
theorem create_file_state_failure (NDEBUG : Bool) (σ : process_state) (t : lookup_table)
    (fd flags : Int) (st : stat_reading) (ms : Nat) (clock : clock_reading) (me : Bool)
    (b : Nat) (hT : σ.fd_lookup_table = some t)
    (hb : lookup_table_hash t (fd_key fd) = some b)
    (hclock : NDEBUG = true ∨ clock.status = 0) :
    ∃ r, readmap_create_file_state NDEBUG σ fd flags st ms clock me = Except.ok r ∧
      (r.file_state = NULL ↔
        (S_ISREG st.st_mode = false ∨ ms = NULL ∨ me = false ∨
          ∃ e ∈ bucket t b, memcmp (fd_key fd) e.Key t.KeySize = 0)) ∧
      (r.file_state = NULL → r.state = σ ∧
        ∀ fd2, readmap_lookup_file_state r.state fd2 = readmap_lookup_file_state σ fd2) := by
  obtain ⟨r, h1, h2, h3⟩ :=
    create_file_state_null_iff NDEBUG σ t fd flags st ms clock me b hT hb hclock
  refine ⟨r, h1, h2, fun hn => ⟨h3 hn, fun fd2 => ?_⟩⟩
  rw [h3 hn]

/-- The hypotheses of `create_file_state_failure` hold for a directory opened as
descriptor 3 in `demo_process`: the registration returns `NULL`. -/
theorem create_file_state_failure_witness :
    demo_process.fd_lookup_table = some demo_table ∧
      lookup_table_hash demo_table (fd_key 3) = some 0 ∧
      ∃ r, readmap_create_file_state false demo_process 3 2 demo_stat_dir 4096 (clock_at 100 0)
          true = Except.ok r ∧
        (r.file_state = NULL ↔
          (S_ISREG demo_stat_dir.st_mode = false ∨ 4096 = NULL ∨ true = false ∨
            ∃ e ∈ bucket demo_table 0, memcmp (fd_key 3) e.Key demo_table.KeySize = 0)) ∧
        (r.file_state = NULL → r.state = demo_process ∧
          ∀ fd2, readmap_lookup_file_state r.state fd2 =
            readmap_lookup_file_state demo_process fd2) :=
  ⟨rfl, by decide,
    create_file_state_failure false demo_process demo_table 3 2 demo_stat_dir 4096
      (clock_at 100 0) true 0 rfl (by decide) (Or.inr rfl)⟩

/-- C13. In every state of the manager reachable with its table installed: if
`readmap_create_file_state` for a descriptor returns a non-`NULL` pointer, then
`readmap_lookup_file_state` of that descriptor on the state it leaves returns
exactly that pointer; and `readmap_lookup_file_state` returns `NULL`, not an
error, for every descriptor that has no registered state. -/
theorem register_lookup_round_trip (NDEBUG : Bool) (σ : process_state)
    (h : manager_reachable NDEBUG σ) :
    (∀ (fd flags : Int) (st : stat_reading) (ms : Nat) (clock : clock_reading) (me : Bool)
        (r : create_result),
      readmap_create_file_state NDEBUG σ fd flags st ms clock me = Except.ok r →
      r.file_state ≠ NULL →
      readmap_lookup_file_state r.state fd = Except.ok (r.file_state, r.state)) ∧
    (∀ fd2 : Int, ¬ registered σ fd2 →
      readmap_lookup_file_state σ fd2 = Except.ok (NULL, σ)) := by
  have hinv := manager_reachable_invariant NDEBUG σ h
  refine ⟨?_, fun fd2 hno => lookup_unregistered σ fd2 hinv hno⟩
  intro fd flags st ms clock me r hr hnn
  obtain ⟨t, hT, hbi, _⟩ := hinv
  exact lookup_after_create NDEBUG σ t fd flags st ms clock me r hT hbi.1 hr hnn

/-- The freshly initialized manager is reachable; registering descriptor 3 there
returns address 4096, and the lookup of 3 then returns 4096. -/
theorem register_lookup_round_trip_witness :
    manager_reachable false demo_initialized ∧
      readmap_create_file_state false demo_initialized 3 2 demo_stat 4096 (clock_at 100 0)
        true = Except.ok demo_registered ∧
      readmap_lookup_file_state demo_registered.state 3 =
        Except.ok (demo_registered.file_state, demo_registered.state) :=
  ⟨demo_initialized_reachable false, demo_registered_eq,
    (register_lookup_round_trip false demo_initialized (demo_initialized_reachable false)).1
      3 2 demo_stat 4096 (clock_at 100 0) true demo_registered demo_registered_eq
      (by decide)⟩

/-- C14. In every state of the manager reachable, with its table installed, by
`readmap_create_file_state`, `readmap_lookup_file_state`, `readmap_get_size` and
`readmap_delete_file_state` calls, every live file state `s` at address `a` is
what the lookup of `s.fd` returns; `readmap_delete_file_state` of it returns in
either build, so the remove inside returned 0 and its assertion held; afterwards
the lookup of `s.fd` returns `NULL`, and every other live state is still what the
lookup of its own `fd` returns. -/
theorem two_layer_invariant (NDEBUG : Bool) (σ : process_state)
    (h : manager_reachable NDEBUG σ) (a : Nat) (s : readmap_file_state)
    (hlive : heap_read σ.heap a = some s) :
    readmap_lookup_file_state σ s.fd = Except.ok (a, σ) ∧
    ∀ nd : Bool, ∃ σ2, readmap_delete_file_state nd σ a = Except.ok σ2 ∧
      heap_read σ2.heap a = none ∧
      readmap_lookup_file_state σ2 s.fd = Except.ok (NULL, σ2) ∧
      ∀ (a2 : Nat) (s2 : readmap_file_state), a2 ≠ a → heap_read σ.heap a2 = some s2 →
        heap_read σ2.heap a2 = some s2 ∧
        readmap_lookup_file_state σ2 s2.fd = Except.ok (a2, σ2) := by
  have hinv := manager_reachable_invariant NDEBUG σ h
  have hmem := heap_read_mem σ.heap a s hlive
  constructor
  · obtain ⟨t, hT, _, _, _, _, hcells, _⟩ := hinv
    exact lookup_file_state_of_table σ t s.fd a hT (hcells a s hmem).2
  · intro nd
    obtain ⟨σ2, hdel, hinv2, hheap, hgone, hothers⟩ :=
      delete_file_state_live nd σ a s hinv hmem
    obtain ⟨_, _, _, _, _, hnd2, _, _⟩ := hinv2
    obtain ⟨_, _, _, _, _, hnd, _, _⟩ := hinv
    refine ⟨σ2, hdel, ?_, hgone, ?_⟩
    · cases hr : heap_read σ2.heap a with
      | none => rfl
      | some s3 =>
        have := heap_read_mem σ2.heap a s3 hr
        rw [hheap, mem_heap_free] at this
        exact absurd rfl this.2
    · intro a2 s2 hne hlive2
      have hmem2 := heap_read_mem σ.heap a2 s2 hlive2
      refine ⟨?_, hothers a2 s2 hmem2 hne⟩
      apply heap_read_of_mem σ2.heap a2 s2 hnd2
      rw [hheap, mem_heap_free]
      exact ⟨hmem2, hne⟩

/-- The state in which descriptor 3 is registered at address 4096 is reachable
and that file state is live; so the lookup of 3 returns 4096. -/
theorem two_layer_invariant_witness :
    manager_reachable false demo_registered.state ∧
      heap_read demo_registered.state.heap 4096 = some demo_state_3 ∧
      readmap_lookup_file_state demo_registered.state demo_state_3.fd =
        Except.ok (4096, demo_registered.state) :=
  ⟨demo_registered_reachable, rfl,
    (two_layer_invariant false demo_registered.state demo_registered_reachable 4096
      demo_state_3 rfl).1⟩

/-- C15 evaluated on the code. After a `readmap_init` whose table allocation
failed the pointer stays null; the underlying `open` returns descriptor 3, and
`readmap_open` does not return it: it stops at the assertion on the table pointer
in `readmap_create_file_state`, and built with `NDEBUG` at the dereference of the
null table. The sibling `readmap_lookup_file_state` returns `NULL` in that state.
The same stop follows a `readmap_init` that installed the table and a
`readmap_shutdown` that destroyed it. -/
theorem open_after_failed_init :
    (readmap_init false process_start).fd_lookup_table.isSome = false ∧
      readmap_open false (readmap_init false process_start) (some 3) 2 demo_stat 4096
        (clock_at 100 0) true = Except.error abort_reason.null_table ∧
      readmap_open true (readmap_init false process_start) (some 3) 2 demo_stat 4096
        (clock_at 100 0) true = Except.error abort_reason.null_dereference ∧
      readmap_lookup_file_state (readmap_init false process_start) 3 =
        Except.ok (NULL, readmap_init false process_start) ∧
      demo_running.fd_lookup_table.isSome = true ∧
      (readmap_shutdown demo_running).fd_lookup_table = none ∧
      readmap_open false (readmap_shutdown demo_running) (some 3) 2 demo_stat 4096
        (clock_at 100 0) true = Except.error abort_reason.null_table ∧
      readmap_open true (readmap_shutdown demo_running) (some 3) 2 demo_stat 4096
        (clock_at 100 0) true = Except.error abort_reason.null_dereference := by
  have hnone : (readmap_shutdown demo_running).fd_lookup_table = none :=
    (two_shutdowns_spec false demo_running (demo_running_reachable false)
      (by rw [demo_running_eq]; rfl)).2.1
  have hopen := open_null_table (readmap_shutdown demo_running) hnone 3 2 (by decide)
    demo_stat 4096 (clock_at 100 0) true
  exact ⟨rfl, rfl, rfl, rfl, by rw [demo_running_eq]; rfl, hnone, hopen.1,
    hopen.2 (by decide) (by decide)⟩

/-- In every state of the manager reachable with its table installed, when the
underlying `open` is found and the clock call does not trip its assertion,
`readmap_open` returns exactly the value the underlying `open` returned: a
negative value without any registration and with the process state unchanged, a
descriptor after calling `readmap_create_file_state`, whatever that call
returned. -/
theorem open_pass_through (NDEBUG : Bool) (σ : process_state) (v flags : Int)
    (st : stat_reading) (ms : Nat) (clock : clock_reading) (me : Bool)
    (h : manager_reachable NDEBUG σ) (hclock : NDEBUG = true ∨ clock.status = 0) :
    ∃ r, readmap_open NDEBUG σ (some v) flags st ms clock me = Except.ok r ∧ r.result = v ∧
      (v < 0 → r.registration = none ∧ r.state = σ) ∧
      (0 ≤ v → ∃ c, readmap_create_file_state NDEBUG σ v flags st ms clock me = Except.ok c ∧
        r.registration = some c.file_state ∧ r.state = c.state) := by
  obtain ⟨t, hT, _, hH, hK, _⟩ := manager_reachable_invariant NDEBUG σ h
  exact open_spec NDEBUG σ t v flags st ms clock me hT hH hK hclock

/-- In the freshly initialized manager, with a working clock, opening a regular
file as descriptor 3 returns 3 and registers it at address 4096. -/
theorem open_pass_through_witness :
    manager_reachable false demo_initialized ∧ (clock_at 100 0).status = 0 ∧
      ∃ r, readmap_open false demo_initialized (some 3) 2 demo_stat 4096 (clock_at 100 0) true =
          Except.ok r ∧ r.result = 3 ∧
        (3 < (0 : Int) → r.registration = none ∧ r.state = demo_initialized) ∧
        ((0 : Int) ≤ 3 → ∃ c, readmap_create_file_state false demo_initialized 3 2 demo_stat
            4096 (clock_at 100 0) true = Except.ok c ∧
          r.registration = some c.file_state ∧ r.state = c.state) :=
  ⟨demo_initialized_reachable false, rfl,
    open_pass_through false demo_initialized 3 2 demo_stat 4096 (clock_at 100 0) true
      (demo_initialized_reachable false) (Or.inr rfl)⟩

/-- C16 as stated fails in the lifecycle state reached by `readmap_shutdown`
followed by `readmap_init`: the one-shot flag is already set, so two further
`readmap_shutdown` calls change nothing; the table is destroyed zero times, the
pointer stays set, and a descriptor registered there is still found. -/
theorem shutdown_after_late_init :
    lifecycle_reachable false demo_late_init ∧
      readmap_shutdown (readmap_shutdown demo_late_init) = demo_late_init ∧
      demo_late_init.fd_lookup_table.isSome = true ∧
      demo_late_init.tables_created = 1 ∧ demo_late_init.tables_destroyed = 0 ∧
      ∃ r, readmap_create_file_state false demo_late_init 3 2 demo_stat 4096 (clock_at 100 0)
          true = Except.ok r ∧ r.file_state = 4096 ∧
        readmap_shutdown (readmap_shutdown r.state) = r.state ∧
        readmap_lookup_file_state (readmap_shutdown (readmap_shutdown r.state)) 3 =
          Except.ok (4096, r.state) := by
  have hflag : demo_late_init.shutdown_called = true := by rw [demo_late_init_eq]
  have hT : demo_late_init.fd_lookup_table = some fd_table_initial := by rw [demo_late_init_eq]
  have hb : lookup_table_hash fd_table_initial (fd_key 3) = some 4092 := by decide
  refine ⟨demo_late_init_reachable, ?_, by rw [hT]; rfl, by rw [demo_late_init_eq],
    (by rw [demo_late_init_eq]; rfl), ?_⟩
  · rw [shutdown_called_noop _ hflag, shutdown_called_noop _ hflag]
  · obtain ⟨r, hr, hnull, _⟩ := create_file_state_null_iff false demo_late_init
      fd_table_initial 3 2 demo_stat 4096 (clock_at 100 0) true 4092 hT hb (Or.inr rfl)
    have hnn : r.file_state ≠ NULL := by
      intro hn
      rcases hnull.mp hn with h | h | h | ⟨e, he, _⟩
      · exact absurd h (by decide)
      · exact absurd h (by decide)
      · exact absurd h (by decide)
      · rw [bucket_fd_table_initial] at he
        cases he
    have hfs := (create_file_state_fields false demo_late_init fd_table_initial 3 2 demo_stat
      4096 (clock_at 100 0) true 4092 r hT hb (Or.inr rfl) hr hnn).1
    have hflag2 : r.state.shutdown_called = true := by
      rw [(create_file_state_frame false demo_late_init 3 2 demo_stat 4096 (clock_at 100 0)
        true r hr).2.2.1]
      exact hflag
    have hlook := lookup_after_create false demo_late_init fd_table_initial 3 2 demo_stat 4096
      (clock_at 100 0) true r hT fd_table_initial_invariant.1 hr hnn
    refine ⟨r, hr, hfs, ?_, ?_⟩
    · rw [shutdown_called_noop _ hflag2, shutdown_called_noop _ hflag2]
    · rw [shutdown_called_noop _ hflag2, shutdown_called_noop _ hflag2, hlook, hfs]

/-- C16, as the code has it. From every lifecycle state in which
`readmap_shutdown` has not run yet, calling it twice destroys the table exactly
once when one is installed and not at all when the pointer is null; the second
call changes nothing; every table built so far has then been destroyed once; the
registered file states are not freed; the table pointer is null, so
`readmap_lookup_file_state` returns `NULL` for every descriptor. Once
`readmap_shutdown` has been called the one-shot flag is set; in every state with
the flag set, reachable or not, a call of `readmap_shutdown` changes nothing, and
the flag stays set over `readmap_init`, registrations and deletions, so every
later shutdown is a no-op. -/
theorem shutdown_twice (NDEBUG : Bool) (σ : process_state)
    (hr : lifecycle_reachable NDEBUG σ) (hs : σ.shutdown_called = false) :
    readmap_shutdown (readmap_shutdown σ) = readmap_shutdown σ ∧
      (readmap_shutdown σ).fd_lookup_table = none ∧
      (readmap_shutdown σ).tables_destroyed =
        (if σ.fd_lookup_table.isSome = true then 1 else 0) ∧
      (readmap_shutdown σ).tables_destroyed = σ.tables_created ∧
      (readmap_shutdown σ).heap = σ.heap ∧
      (∀ fd : Int, readmap_lookup_file_state (readmap_shutdown (readmap_shutdown σ)) fd =
        Except.ok (NULL, readmap_shutdown (readmap_shutdown σ))) ∧
      (readmap_shutdown σ).shutdown_called = true ∧
      ∀ τ : process_state, τ.shutdown_called = true →
        readmap_shutdown τ = τ ∧
        (∀ m : Bool, (readmap_init m τ).shutdown_called = true) ∧
        (∀ (fd flags : Int) (st : stat_reading) (ms : Nat) (clock : clock_reading) (me : Bool)
          (r : create_result),
          readmap_create_file_state NDEBUG τ fd flags st ms clock me = Except.ok r →
            r.state.shutdown_called = true) ∧
        (∀ (p : Nat) (τ2 : process_state),
          readmap_delete_file_state NDEBUG τ p = Except.ok τ2 →
            τ2.shutdown_called = true) := by
  obtain ⟨h1, h2, h3, h4, h5⟩ := two_shutdowns_spec NDEBUG σ hr hs
  refine ⟨h1, h2, h3, h4, h5, fun fd => ?_, shutdown_sets_flag σ,
    fun τ hflag => shutdown_flag_stays NDEBUG τ hflag⟩
  rw [h1]
  exact lookup_file_state_null_table _ fd h2

/-- After a `readmap_init` that installed the table, descriptor 3 is registered at
address 4096 and found by the lookup. The state is a lifecycle state not yet shut
down, with the table installed. Two shutdowns destroy that table exactly once;
the second changes nothing; the pointer is null, the lookup of 3 returns `NULL`,
the file state at 4096 is still on the heap, and the flag is set. -/
theorem shutdown_twice_witness :
    lifecycle_reachable false demo_running_registered.state ∧
      demo_running_registered.state.shutdown_called = false ∧
      demo_running_registered.state.fd_lookup_table.isSome = true ∧
      demo_running_registered.state.tables_destroyed = 0 ∧
      readmap_lookup_file_state demo_running_registered.state 3 =
        Except.ok (4096, demo_running_registered.state) ∧
      readmap_shutdown (readmap_shutdown demo_running_registered.state) =
        readmap_shutdown demo_running_registered.state ∧
      (readmap_shutdown demo_running_registered.state).fd_lookup_table = none ∧
      (readmap_shutdown (readmap_shutdown demo_running_registered.state)).tables_destroyed = 1 ∧
      heap_read (readmap_shutdown demo_running_registered.state).heap 4096 =
        some demo_state_3 ∧
      readmap_lookup_file_state
          (readmap_shutdown (readmap_shutdown demo_running_registered.state)) 3 =
        Except.ok (NULL, readmap_shutdown (readmap_shutdown demo_running_registered.state)) ∧
      (readmap_shutdown demo_running_registered.state).shutdown_called = true ∧
      readmap_shutdown (readmap_shutdown (readmap_shutdown demo_running_registered.state)) =
        readmap_shutdown (readmap_shutdown demo_running_registered.state) := by
  have hT : demo_running.fd_lookup_table = some fd_table_initial := by rw [demo_running_eq]
  have hlook := lookup_after_create false demo_running fd_table_initial 3 2 demo_stat 4096
    (clock_at 100 0) true demo_running_registered hT fd_table_initial_invariant.1
    demo_running_registered_eq (by decide)
  have hdestroyed : demo_running_registered.state.tables_destroyed = 0 := by
    show demo_running.tables_destroyed = 0
    rw [demo_running_eq]; rfl
  obtain ⟨h1, h2, h3, _, h5, h6, h7, h8⟩ :=
    shutdown_twice false demo_running_registered.state demo_running_registered_reachable
      demo_running_registered_flag
  refine ⟨demo_running_registered_reachable, demo_running_registered_flag, rfl, hdestroyed,
    hlook, h1, h2, ?_, ?_, h6 3, h7, ?_⟩
  · rw [h1, h3]; rfl
  · rw [h5]; rfl
  · rw [h1]; exact (h8 _ h7).1

/-- C17. `readmap_init_file_state_mgr` called with a null table pointer and a
successful allocation returns 0 and installs a new table with exactly 4096
buckets, all empty, keys of `sizeof(int)` = 4 bytes and the built-in hash (a
failed allocation returns `ENOMEM` and installs nothing); called with the pointer
already set it returns 0 and leaves the process state, pointer and entries
included, as it was; a second `readmap_init` changes nothing; and in every
lifecycle state at most one table has been built. -/
theorem init_idempotent (m m2 : Bool) (σ : process_state) :
    (σ.fd_lookup_table = none →
      readmap_init_file_state_mgr true σ =
        (0, { σ with fd_lookup_table := some fd_table_initial
                     tables_created := σ.tables_created + 1 }) ∧
      readmap_init_file_state_mgr false σ = (ENOMEM, σ)) ∧
    (fd_table_initial.TableBuckets.length = 4096 ∧
      (∀ c ∈ fd_table_initial.TableBuckets, c = []) ∧
      fd_table_initial.KeySize = 4 ∧ fd_table_initial.Hash = default_hash) ∧
    (∀ t : lookup_table, σ.fd_lookup_table = some t →
      readmap_init_file_state_mgr m σ = (0, σ)) ∧
    readmap_init m2 (readmap_init m σ) = readmap_init m σ ∧
    (∀ nd : Bool, lifecycle_reachable nd σ → σ.tables_created ≤ 1) := by
  refine ⟨fun h => init_file_state_mgr_null σ h, ⟨?_, ?_, rfl, rfl⟩,
    fun t h => init_file_state_mgr_set m σ t h, ?_,
    fun nd h => (lifecycle_reachable_invariant nd σ h).1⟩
  · simp only [fd_table_initial, List.length_replicate]
  · intro c hc
    simp only [fd_table_initial] at hc
    exact (List.mem_replicate.mp hc).2
  · have hi : (readmap_init m σ).readmap_initialized = true := by
      rw [init_spec]
      by_cases h1 : σ.readmap_initialized = true
      · rw [if_pos h1]; exact h1
      · rw [if_neg h1]
        split
        · rfl
        · split <;> rfl
    rw [init_spec m2, if_pos hi]

/-- C18. For every well-formed table, `lookup_table_destroy` (a total function:
each inner loop ends when its finite chain is used up, the outer loop after the
last bucket) leaves every bucket empty, has freed every entry of every bucket
exactly once, in bucket order, before it frees the table, and frees nothing
else: the file states the entries of the manager's table reference stay on the
heap when the table is torn down. -/
theorem destroy_empties_table (t : lookup_table) (hwf : lookup_table_wf t)
    (σ : process_state) :
    (lookup_table_destroy t).TableBuckets.length = t.TableBuckets.length ∧
      (∀ c ∈ (lookup_table_destroy t).TableBuckets, c = []) ∧
      (lookup_table_destroy t).freed = t.TableBuckets.flatten ∧
      (lookup_table_destroy t).table_freed = true ∧
      (readmap_terminate_file_state_mgr σ).heap = σ.heap := by
  obtain ⟨h1, h2, h3, h4⟩ := destroy_spec t hwf
  refine ⟨h1, h2, h3, h4, ?_⟩
  unfold readmap_terminate_file_state_mgr
  split <;> rfl

/-- The table holding keys 3 and 7 in one bucket is well formed; destroying it
frees exactly those two entries. -/
theorem destroy_empties_table_witness :
    lookup_table_wf demo_insert_7.Table ∧
      (lookup_table_destroy demo_insert_7.Table).freed =
        [{ Object := 1000, Key := [3, 0, 0, 0] }, { Object := 2000, Key := [7, 0, 0, 0] }] ∧
      (∀ c ∈ (lookup_table_destroy demo_insert_7.Table).TableBuckets, c = []) :=
  ⟨by decide,
    (destroy_empties_table demo_insert_7.Table (by decide) demo_process).2.2.1,
    (destroy_empties_table demo_insert_7.Table (by decide) demo_process).2.1⟩

/-- C19 traced on the code. `lookup_table_lookup` is its critical section
followed by a part that runs after the lock is released, and that second part is
where `entry->Object` is read. With key 3 in the table: the critical section of a
lookup yields a pointer to the entry of key 3; a remove of key 3 that runs next
unlinks and frees exactly that entry; the rest of the lookup then reads `Object`
through the pointer, from the storage the remove has freed. -/
theorem lookup_reads_after_unlock :
    (∀ (t : lookup_table) (k : List Nat), lookup_table_lookup t k =
      (lookup_table_lookup_locked t k).map (lookup_table_lookup_unlocked t)) ∧
    ∃ q r, lookup_table_lookup_locked demo_insert_3.Table (int_key 3) = some (some q) ∧
      lookup_table_remove demo_insert_3.Table (int_key 3) = some r ∧ r.status = 0 ∧
      q.entry ∈ r.freed ∧
      lookup_table_lookup_unlocked r.Table (some q) =
        { status := 0, Object := q.entry.Object, Table := r.Table } := by
  constructor
  · intro t k
    unfold lookup_table_lookup lookup_table_lookup_locked lookup_table_lookup_unlocked
    cases lookup_table_locked t k with
    | none => rfl
    | some e => cases e <;> rfl
  · exact ⟨{ pos := 0, entry := { Object := 1000, Key := [3, 0, 0, 0] } },
      { status := 0, Table := demo_table, freed := [{ Object := 1000, Key := [3, 0, 0, 0] }] },
      rfl, rfl, rfl, by decide, rfl⟩

/-- C20. For every key of `4 * n` bytes with `n ≤ 63`, `default_hash` returns
`0xFFFFFFFF xor w_0 xor ... xor w_(n-1)`, the `w_j` being the 32-bit words of the
key in native order; and in the manager's table (keys of four bytes, 4096
buckets) the bucket of descriptor `fd` is `~fd & 4095`, that is
`(-fd - 1) mod 4096`. -/
theorem default_hash_is_xor_fold (key : List Nat) (n : Nat) (hlen : key.length = 4 * n)
    (hn : n ≤ 63) (fd : Int) :
    default_hash key (4 * n) = some (xor_fold key n) ∧
      lookup_table_hash fd_table_initial (fd_key fd) = some ((-fd - 1) % 4096).toNat :=
  ⟨default_hash_xor_fold key n hlen hn, fd_bucket fd⟩

/-- The key of descriptor 3 has `4 * 1` bytes; its hash is the XOR-fold
`0xFFFFFFFF xor 3`, and its bucket in the manager's table is 4092. -/
theorem default_hash_is_xor_fold_witness :
    (int_key 3).length = 4 * 1 ∧ 1 ≤ 63 ∧
      default_hash (int_key 3) (4 * 1) = some (xor_fold (int_key 3) 1) ∧
      xor_fold (int_key 3) 1 = 4294967292 ∧
      lookup_table_hash fd_table_initial (fd_key 3) = some 4092 :=
  ⟨rfl, by decide,
    (default_hash_is_xor_fold (int_key 3) 1 rfl (by decide) 3).1, by decide,
    (default_hash_is_xor_fold (int_key 3) 1 rfl (by decide) 3).2⟩

/-- C21 evaluated on the code. With key length 256 and a key buffer of 256 bytes,
so that each of the word reads at indices 0, 4, ..., 252 lies inside the buffer,
the loop of `default_hash` does not leave for any amount of fuel: its 8-bit index
goes from 252 back to 0 and is below the length in every round. No hash comes
back and no count of XOR steps is reached, where the claim has the call terminate
after 64 steps. The same holds on this buffer for every length above 252. With
length 252 the call returns after 63 steps. -/
theorem default_hash_index_wraps :
    long_key.length = 256 ∧
      (∀ index : Fin 253, ∃ w, load_u32 long_key index = some w) ∧
      (∀ fuel, default_hash_loop long_key 256 fuel 0 4294967295 = none) ∧
      (∀ fuel, default_hash_steps_loop long_key 256 fuel 0 4294967295 0 = none) ∧
      default_hash long_key 256 = none ∧
      (∀ n fuel, default_hash_loop long_key (253 + n) fuel 0 4294967295 = none) ∧
      (∃ h, default_hash_steps_loop long_key 252 65 0 4294967295 0 = some (h, 63)) := by
  have hlen : long_key.length = 256 := List.length_replicate _ _
  have hloop : ∀ fuel, default_hash_loop long_key 256 fuel 0 4294967295 = none := fun fuel =>
    default_hash_loop_never_leaves long_key 256 (by omega) (by omega) fuel 0 4294967295
      (by omega) (by omega)
  refine ⟨hlen, ?_, hloop, ?_, hloop 65, ?_, ?_⟩
  · intro index
    exact load_u32_inside long_key index (by have := index.isLt; omega)
  · intro fuel
    have h := default_hash_steps_loop_fst long_key 256 fuel 0 4294967295 0
    rw [hloop fuel] at h
    exact Option.map_eq_none'.mp h
  · intro n fuel
    exact default_hash_loop_never_leaves long_key (253 + n) (by omega) (by omega) fuel 0
      4294967295 (by omega) (by omega)
  · exact (default_hash_steps_short long_key 252 (by omega) (by omega)).1

/-- C22. On every table produced by `lookup_table_create`, also after any number
of inserts and removes, for every hash function and every key on which that
function returns, the bucket index `lookup_table_hash` computes is strictly below
the bucket count `2 ^ EntryCountShift` with `EntryCountShift ≤ 16`; the bucket
count is the length of the bucket array, so the access to that bucket in insert,
lookup and remove is inside the array. -/
theorem bucket_index_in_range (t : lookup_table) (h : reachable t) (k : List Nat) (i : Nat)
    (hi : lookup_table_hash t k = some i) :
    t.EntryCountShift ≤ 16 ∧ i < 2 ^ t.EntryCountShift ∧ i < t.TableBuckets.length ∧
      t.TableBuckets.get? i = some (bucket t i) :=
  reachable_hash_in_range t h k i hi

/-- A table of 4 buckets created with a hash function that returns `0xFFFFFFFF`
for every key: the key 7 goes to bucket 3, inside the array. -/
theorem bucket_index_in_range_witness :
    ∃ t, lookup_table_create true 4 "demo".toList (some (fun _ _ => some 4294967295)) 4 = some t ∧
      lookup_table_hash t (int_key 7) = some 3 ∧
      t.EntryCountShift ≤ 16 ∧ 3 < 2 ^ t.EntryCountShift ∧ 3 < t.TableBuckets.length ∧
      t.TableBuckets.get? 3 = some (bucket t 3) :=
  ⟨{ demo_table with Hash := fun _ _ => some 4294967295 }, rfl, rfl,
    bucket_index_in_range { demo_table with Hash := fun _ _ => some 4294967295 }
      (reachable.create true 4 "demo".toList (some (fun _ _ => some 4294967295)) 4 _ rfl)
      (int_key 7) 3 rfl⟩

/-- C23. On every table that satisfies the bucket invariant, for every key of
`KeySize` bytes on which the hash function returns, `lookup_table_locked`, which
scans only the bucket the key hashes to, returns: the entry it finds is the one a
search over all entries of all buckets finds (`global_search`), and it finds none
(`NULL`) exactly when no entry of any bucket carries the key. -/
theorem bucket_search_is_global_search (t : lookup_table) (hinv : bucket_invariant t)
    (k : List Nat) (hk : k.length = t.KeySize) (b : Nat) (hb : lookup_table_hash t k = some b) :
    ∃ r, lookup_table_locked t k = some r ∧
      r.map entry_ptr.entry = global_search t k ∧
      (r = none ↔ ∀ i, ∀ e ∈ bucket t i, e.Key ≠ k) :=
  locked_eq_global t hinv k hk b hb

/-- The table holding keys 3 and 7 in bucket 0, searched for key 7: both searches
find the second entry of bucket 0. -/
theorem bucket_search_is_global_search_witness :
    bucket_invariant demo_insert_7.Table ∧
      (int_key 7).length = demo_insert_7.Table.KeySize ∧
      lookup_table_hash demo_insert_7.Table (int_key 7) = some 0 ∧
      global_search demo_insert_7.Table (int_key 7) = some { Object := 2000, Key := [7, 0, 0, 0] } ∧
      ∃ r, lookup_table_locked demo_insert_7.Table (int_key 7) = some r ∧
        r.map entry_ptr.entry = global_search demo_insert_7.Table (int_key 7) ∧
        (r = none ↔ ∀ i, ∀ e ∈ bucket demo_insert_7.Table i, e.Key ≠ int_key 7) :=
  ⟨by decide, rfl, rfl, rfl,
    bucket_search_is_global_search demo_insert_7.Table (by decide) (int_key 7) rfl 0 rfl⟩

/-- C24 evaluated on the code. A state stamped at second 100 is queried at second
105, every clock and `fstat` call succeeding: `readmap_get_size` hands
`timespec_diff` the current time as `begin` and the stamp as `end`, the ordering
assertion `end >= begin` of `timespec_diff` fails on these arguments, and the
query aborts there. In the order stamp first, current time second, the assertion
holds and the difference is 5 seconds. The abort is the same for every file state
queried a second or more after its stamp. -/
theorem get_size_ordering_assertion :
    demo_file_state.check_time = { tv_sec := 100, tv_nsec := 0 } ∧
      timespec_diff false (clock_at 105 0).value demo_file_state.check_time =
        Except.error abort_reason.timespec_order ∧
      readmap_get_size false demo_file_state (clock_at 105 0) demo_stat_shrunk (clock_at 105 0) =
        Except.error abort_reason.timespec_order ∧
      timespec_diff false demo_file_state.check_time (clock_at 105 0).value =
        Except.ok { tv_sec := 5, tv_nsec := 0 } ∧
      (∀ (fs : readmap_file_state) (st : stat_reading) (cr : clock_reading) (d : Nat),
        readmap_get_size false fs
            (clock_at (fs.check_time.tv_sec + 1 + d) fs.check_time.tv_nsec) st cr =
          Except.error abort_reason.timespec_order) :=
  ⟨rfl, rfl, rfl, rfl, fun fs st cr d =>
    (get_size_past_stamp fs
      { tv_sec := fs.check_time.tv_sec + 1 + d, tv_nsec := fs.check_time.tv_nsec } st cr
      (Or.inl (by show fs.check_time.tv_sec < fs.check_time.tv_sec + 1 + (d : Int); omega))).1⟩

/-- C25 evaluated on the code. For every mode string the result is `-1` exactly
when the first character is none of `r`, `w`, `a`. For the mode `w+` the result
is `O_WRONLY | O_RDWR = 3`, whose access mode is 3 and not `O_RDWR = 2`: the plus
sign is ORed onto the access mode of the primary character. The mode `a+` has
access mode 3 as well; the mode `r+` has access mode `O_RDWR`. No mode that starts
with `w` or `a` has access mode `O_RDWR`, whatever follows. -/
theorem fopen_mode_plus_access_mode :
    (∀ mode, fopen_mode_to_flags mode = -1 ↔
        ¬ (mode.head? = some 'r' ∨ mode.head? = some 'w' ∨ mode.head? = some 'a')) ∧
      fopen_mode_to_flags "w+".toList = 3 ∧
      access_mode (fopen_mode_to_flags "w+".toList) = 3 ∧
      fopen_mode_to_flags "a+".toList = 1091 ∧
      access_mode (fopen_mode_to_flags "a+".toList) = 3 ∧
      access_mode (fopen_mode_to_flags "r+".toList) = O_RDWR ∧
      O_RDWR = 2 ∧ O_ACCMODE = 3 ∧
      (∀ rest : List Char, access_mode (fopen_mode_to_flags ('w' :: rest)) ≠ O_RDWR ∧
        access_mode (fopen_mode_to_flags ('a' :: rest)) ≠ O_RDWR) :=
  ⟨fopen_mode_to_flags_invalid_iff, by decide, by decide, by decide, by decide, by decide,
    rfl, rfl, fun rest =>
      ⟨(fopen_write_never_rdwr ('w' :: rest) (Or.inl rfl)).2,
        (fopen_write_never_rdwr ('a' :: rest) (Or.inr rfl)).2⟩⟩

end Readmap
